import Mathlib

/-! # Image-Processing-Interface: bitmap codec and transform library

A shallow embedding of `main.cpp` (the professor-provided BMP codec `get_int`,
`read_image`, `set_bytes`, `write_image` and the transforms `process_1` ..
`process_10`, `rotate_180`, `rotate_270`) together with proofs of the properties
its specification states.

Conventions of the embedding.

* `int` values are `Int`; where the 32-bit width matters the result of an
  arithmetic operation is passed through `wrap32` (two's complement wrap-around).
  C++ `/` and `%` on `int` are `Int.tdiv` and `Int.tmod` (truncation toward zero).
* A `vector<vector<Pixel>>` is a `List (List Pixel)`.  Vector sizes and the loop
  counters that range over them are natural numbers.
* An out-of-bounds `operator[]` and a failed allocation have no defined result;
  functions that can reach one return `Option`, and `none` stands for that fault.
* The type `double` is a parameter of the transforms that use it (`FloatModel`,
  with `CMath` for `sqrt` and `pow`).  Claims that depend on how a `double` holds
  an `int` assume `FloatModel.IntExact`; claims about a scaled channel are proved
  in `double64`, IEEE 754 binary64 arithmetic with round to nearest, ties to even.
-/

namespace BMP

/-! ## Data model -/

/-- The `Pixel` struct: three `int` channels. -/
structure Pixel where
  red : Int
  green : Int
  blue : Int
deriving DecidableEq, Repr

/-- The type `vector<vector<Pixel>>`. -/
abbrev Grid := List (List Pixel)

/-- The grid `vector<vector<Pixel>>(rows, vector<Pixel>(cols))`: every pixel is
value-initialised, so all channels are zero. -/
def newGrid (rows cols : Nat) : Grid :=
  List.replicate rows (List.replicate cols ⟨0, 0, 0⟩)

/-- The read `image[i][j]`; `none` when either index is out of bounds. -/
def px (image : Grid) (i j : Nat) : Option Pixel :=
  match image[i]? with
  | none => none
  | some r => r[j]?

/-- The update `image[i][j] = f(image[i][j])`; `none` when out of bounds. -/
def modifyCell (image : Grid) (i j : Nat) (f : Pixel → Pixel) : Option Grid :=
  match image[i]? with
  | none => none
  | some r =>
    match r[j]? with
    | none => none
    | some p => some (image.set i (r.set j (f p)))

/-- The store `image[i][j].red = v`. -/
def setRed (image : Grid) (i j : Nat) (v : Int) : Option Grid :=
  modifyCell image i j (fun p => { p with red := v })

/-- The store `image[i][j].green = v`. -/
def setGreen (image : Grid) (i j : Nat) (v : Int) : Option Grid :=
  modifyCell image i j (fun p => { p with green := v })

/-- The store `image[i][j].blue = v`. -/
def setBlue (image : Grid) (i j : Nat) (v : Int) : Option Grid :=
  modifyCell image i j (fun p => { p with blue := v })

/-- The loop `for (int k = 0; k < n; k++) body(k)` over a state `s`, stopping
with `none` as soon as one iteration faults. -/
def forUp {σ : Type} (n : Nat) (body : Nat → σ → Option σ) (s : σ) : Option σ :=
  (List.range n).foldlM (fun s k => body k s) s

/-- The loop `for (int k = n - 1; k >= 0; k--) body(k)` over a state `s`. -/
def forDown {σ : Type} (n : Nat) (body : Nat → σ → Option σ) (s : σ) : Option σ :=
  (List.range n).reverse.foldlM (fun s k => body k s) s

/-- Two's complement wrap-around of an integer into the range of a 32-bit `int`. -/
def wrap32 (x : Int) : Int :=
  (x + 2147483648) % 4294967296 - 2147483648

/-- A value that a signed 32-bit `int` holds. -/
abbrev FitsInt (x : Int) : Prop :=
  -2147483648 ≤ x ∧ x ≤ 2147483647

/-- A grid of `h` rows that all have `w` pixels. -/
def IsRect (g : Grid) (h w : Nat) : Prop :=
  g.length = h ∧ ∀ r ∈ g, r.length = w

/-- The `h` by `w` grid whose pixel at `[i][j]` is `f i j`. -/
def tab (h w : Nat) (f : Nat → Nat → Pixel) : Grid :=
  (List.range h).map (fun i => (List.range w).map (fun j => f i j))

/-- The pixel `g[i][j]`, or the zero pixel outside the grid. -/
def pxD (g : Grid) (i j : Nat) : Pixel :=
  (px g i j).getD ⟨0, 0, 0⟩

/-- Every channel of every pixel of the grid lies in `[0, 255]`. -/
def InByteRange (g : Grid) : Prop :=
  ∀ r ∈ g, ∀ p ∈ r,
    (0 ≤ p.red ∧ p.red ≤ 255) ∧ (0 ≤ p.green ∧ p.green ≤ 255) ∧ (0 ≤ p.blue ∧ p.blue ≤ 255)

/-! ## Transform library: rotations -/

/-- The function `process_4` (rotate 90 degrees clockwise). -/
def process_4 (image : Grid) : Option Grid := do
  let num_rows := image.length
  let num_columns := (← image[0]?).length
  let new_image := newGrid num_columns num_rows
  forUp num_rows (fun row new_image =>
    forUp num_columns (fun col new_image => do
      let red_color := (← px image row col).red
      let green_color := (← px image row col).green
      let blue_color := (← px image row col).blue
      let new_image ← setRed new_image col (num_rows - row - 1) red_color
      let new_image ← setGreen new_image col (num_rows - row - 1) green_color
      setBlue new_image col (num_rows - row - 1) blue_color) new_image) new_image

/-- The function `rotate_180`. -/
def rotate_180 (image : Grid) : Option Grid := do
  let num_rows := image.length
  let num_columns := (← image[0]?).length
  let new_image := newGrid num_rows num_columns
  forUp num_rows (fun row new_image =>
    forUp num_columns (fun col new_image => do
      let red_color := (← px image row col).red
      let green_color := (← px image row col).green
      let blue_color := (← px image row col).blue
      let new_image ← setRed new_image (num_rows - row - 1) (num_columns - col - 1) red_color
      let new_image ← setGreen new_image (num_rows - row - 1) (num_columns - col - 1) green_color
      setBlue new_image (num_rows - row - 1) (num_columns - col - 1) blue_color) new_image) new_image

/-- The function `rotate_270`. -/
def rotate_270 (image : Grid) : Option Grid := do
  let num_rows := image.length
  let num_columns := (← image[0]?).length
  let new_image := newGrid num_columns num_rows
  forUp num_rows (fun row new_image =>
    forUp num_columns (fun col new_image => do
      let red_color := (← px image row col).red
      let green_color := (← px image row col).green
      let blue_color := (← px image row col).blue
      let new_image ← setRed new_image col row red_color
      let new_image ← setGreen new_image col row green_color
      setBlue new_image col row blue_color) new_image) new_image

/-- The function `process_5` (rotate by `number` quarter turns).  The message
printed in the first branch is not modelled; that branch falls through to the
final `return image`. -/
def process_5 (image : Grid) (number : Int) : Option Grid :=
  let angle := wrap32 (number * 90)
  if angle.tmod 90 ≠ 0 then
    some image
  else if angle.tmod 360 = 0 then
    some image
  else if angle.tmod 360 = 90 then
    process_4 image
  else if angle.tmod 360 = 180 then
    rotate_180 image
  else
    rotate_270 image

/-! ## Transform library: enlargement and pointwise filters -/

/-- The function `process_6` (enlarge by `xscale` and `yscale`).  The products `y`
and `x` are 32-bit; the result is `none` when the vector construction throws (a
negative size), on a division by zero and on an out-of-bounds read. -/
def process_6 (image : Grid) (xscale yscale : Int) : Option Grid := do
  let num_rows : Int := image.length
  let num_columns : Int := (← image[0]?).length
  let y := wrap32 (num_rows * yscale)
  let x := wrap32 (num_columns * xscale)
  if x < 0 ∨ y < 0 then none else
  let new_image := newGrid y.toNat x.toNat
  forUp y.toNat (fun row new_image =>
    forUp x.toNat (fun col new_image =>
      if yscale = 0 ∨ xscale = 0 then none else
      let r := (row : Int).tdiv yscale
      let c := (col : Int).tdiv xscale
      if r < 0 ∨ c < 0 then none else do
      let red_color := (← px image r.toNat c.toNat).red
      let green_color := (← px image r.toNat c.toNat).green
      let blue_color := (← px image r.toNat c.toNat).blue
      let new_image ← setRed new_image row col red_color
      let new_image ← setGreen new_image row col green_color
      setBlue new_image row col blue_color) new_image) new_image

/-- The `int` sum `red_color + green_color + blue_color`, added left to right in
32-bit arithmetic. -/
def sum3 (r g b : Int) : Int :=
  wrap32 (wrap32 (r + g) + b)

/-- The arithmetic of the type `double` as the transforms use it: the conversions
from and to `int` (the latter truncates), the four operations and `<=`.  The
transforms are defined for any such arithmetic. -/
structure FloatModel where
  D : Type
  ofInt : Int → D
  toInt : D → Int
  add : D → D → D
  sub : D → D → D
  mul : D → D → D
  div : D → D → D
  le : D → D → Bool

/-- The `<cmath>` functions `sqrt` and `pow` on the type `double` of `M`. -/
structure CMath (M : FloatModel) where
  sqrt : M.D → M.D
  pow : M.D → M.D → M.D

/-- A `double` arithmetic that holds every 32-bit `int` exactly: converting such an
`int` to `double` and back gives the same `int`, and `<=` on two converted `int`s
is `<=` on the integers. -/
def FloatModel.IntExact (M : FloatModel) : Prop :=
  (∀ n : Int, FitsInt n → M.toInt (M.ofInt n) = n) ∧
  ∀ a b : Int, FitsInt a → FitsInt b → M.le (M.ofInt a) (M.ofInt b) = decide (a ≤ b)

/-- The function `process_1` (vignette). -/
def process_1 (M : FloatModel) (C : CMath M) (image : Grid) : Option Grid := do
  let num_rows := image.length
  let num_columns := (← image[0]?).length
  let new_image := newGrid num_rows num_columns
  forUp num_rows (fun row new_image =>
    forUp num_columns (fun col new_image => do
      let red_color := (← px image row col).red
      let green_color := (← px image row col).green
      let blue_color := (← px image row col).blue
      let distance := C.sqrt (M.add
        (C.pow (M.ofInt ((col : Int) - ((num_columns : Int).tdiv 2))) (M.ofInt 2))
        (C.pow (M.ofInt ((row : Int) - ((num_rows : Int).tdiv 2))) (M.ofInt 2)))
      let scaling_factor := M.div (M.sub (M.ofInt num_rows) distance) (M.ofInt num_rows)
      let new_image ← setRed new_image row col (M.toInt (M.mul (M.ofInt red_color) scaling_factor))
      let new_image ← setGreen new_image row col
        (M.toInt (M.mul (M.ofInt green_color) scaling_factor))
      setBlue new_image row col (M.toInt (M.mul (M.ofInt blue_color) scaling_factor)))
      new_image) new_image

/-- The expression `255 - (255 - c) * scaling_factor` stored into an `int`. -/
def lighten (M : FloatModel) (c : Int) (scaling_factor : M.D) : Int :=
  M.toInt (M.sub (M.ofInt 255) (M.mul (M.ofInt (wrap32 (255 - c))) scaling_factor))

/-- The expression `c * scaling_factor` stored into an `int`. -/
def darken (M : FloatModel) (c : Int) (scaling_factor : M.D) : Int :=
  M.toInt (M.mul (M.ofInt c) scaling_factor)

/-- The function `process_2` (Clarendon). -/
def process_2 (M : FloatModel) (image : Grid) (scaling_factor : M.D) : Option Grid := do
  let num_rows := image.length
  let num_columns := (← image[0]?).length
  let new_image := newGrid num_rows num_columns
  forUp num_rows (fun row new_image =>
    forUp num_columns (fun col new_image => do
      let red_color := (← px image row col).red
      let green_color := (← px image row col).green
      let blue_color := (← px image row col).blue
      let average_value := (sum3 red_color green_color blue_color).tdiv 3
      if average_value ≥ 170 then
        let new_image ← setRed new_image row col (lighten M red_color scaling_factor)
        let new_image ← setGreen new_image row col (lighten M green_color scaling_factor)
        setBlue new_image row col (lighten M blue_color scaling_factor)
      else if average_value < 90 then
        let new_image ← setRed new_image row col (darken M red_color scaling_factor)
        let new_image ← setGreen new_image row col (darken M green_color scaling_factor)
        setBlue new_image row col (darken M blue_color scaling_factor)
      else
        let new_image ← setRed new_image row col red_color
        let new_image ← setGreen new_image row col green_color
        setBlue new_image row col blue_color) new_image) new_image

/-- The function `process_3` (grayscale). -/
def process_3 (M : FloatModel) (image : Grid) : Option Grid := do
  let num_rows := image.length
  let num_columns := (← image[0]?).length
  let new_image := newGrid num_rows num_columns
  forUp num_rows (fun row new_image =>
    forUp num_columns (fun col new_image => do
      let red_color := (← px image row col).red
      let green_color := (← px image row col).green
      let blue_color := (← px image row col).blue
      let gray_value := M.ofInt ((sum3 red_color green_color blue_color).tdiv 3)
      let new_image ← setRed new_image row col (M.toInt gray_value)
      let new_image ← setGreen new_image row col (M.toInt gray_value)
      setBlue new_image row col (M.toInt gray_value)) new_image) new_image

/-- The function `process_7` (high contrast). -/
def process_7 (M : FloatModel) (image : Grid) : Option Grid := do
  let num_rows := image.length
  let num_columns := (← image[0]?).length
  let new_image := newGrid num_rows num_columns
  forUp num_rows (fun row new_image =>
    forUp num_columns (fun col new_image => do
      let red_color := (← px image row col).red
      let green_color := (← px image row col).green
      let blue_color := (← px image row col).blue
      let gray_value := M.ofInt ((sum3 red_color green_color blue_color).tdiv 3)
      if M.le (M.ofInt ((255 : Int).tdiv 2)) gray_value then
        let new_image ← setRed new_image row col 255
        let new_image ← setGreen new_image row col 255
        setBlue new_image row col 255
      else
        let new_image ← setRed new_image row col 0
        let new_image ← setGreen new_image row col 0
        setBlue new_image row col 0) new_image) new_image

/-- The function `process_8` (lighten). -/
def process_8 (M : FloatModel) (image : Grid) (scaling_factor : M.D) : Option Grid := do
  let num_rows := image.length
  let num_columns := (← image[0]?).length
  let new_image := newGrid num_rows num_columns
  forUp num_rows (fun row new_image =>
    forUp num_columns (fun col new_image => do
      let red_color := (← px image row col).red
      let green_color := (← px image row col).green
      let blue_color := (← px image row col).blue
      let new_image ← setRed new_image row col (lighten M red_color scaling_factor)
      let new_image ← setGreen new_image row col (lighten M green_color scaling_factor)
      setBlue new_image row col (lighten M blue_color scaling_factor)) new_image) new_image

/-- The function `process_9` (darken). -/
def process_9 (M : FloatModel) (image : Grid) (scaling_factor : M.D) : Option Grid := do
  let num_rows := image.length
  let num_columns := (← image[0]?).length
  let new_image := newGrid num_rows num_columns
  forUp num_rows (fun row new_image =>
    forUp num_columns (fun col new_image => do
      let red_color := (← px image row col).red
      let green_color := (← px image row col).green
      let blue_color := (← px image row col).blue
      let new_image ← setRed new_image row col (darken M red_color scaling_factor)
      let new_image ← setGreen new_image row col (darken M green_color scaling_factor)
      setBlue new_image row col (darken M blue_color scaling_factor)) new_image) new_image

/-- The function `process_10` (posterize to primaries). -/
def process_10 (image : Grid) : Option Grid := do
  let num_rows := image.length
  let num_columns := (← image[0]?).length
  let new_image := newGrid num_rows num_columns
  forUp num_rows (fun row new_image =>
    forUp num_columns (fun col new_image => do
      let red_color := (← px image row col).red
      let green_color := (← px image row col).green
      let blue_color := (← px image row col).blue
      let max_a := max red_color green_color
      let max_color := max max_a blue_color
      if sum3 red_color green_color blue_color ≥ 550 then
        let new_image ← setRed new_image row col 255
        let new_image ← setGreen new_image row col 255
        setBlue new_image row col 255
      else if sum3 red_color green_color blue_color ≤ 150 then
        let new_image ← setRed new_image row col 0
        let new_image ← setGreen new_image row col 0
        setBlue new_image row col 0
      else if max_color = red_color then
        let new_image ← setRed new_image row col 255
        let new_image ← setGreen new_image row col 0
        setBlue new_image row col 0
      else if max_color = green_color then
        let new_image ← setRed new_image row col 0
        let new_image ← setGreen new_image row col 255
        setBlue new_image row col 0
      else
        let new_image ← setRed new_image row col 0
        let new_image ← setGreen new_image row col 0
        setBlue new_image row col 255) new_image) new_image

/-- The value `(r + g + b) / 3` of a pixel: the 32-bit sum of its channels divided
by three with truncation. -/
def avg3 (p : Pixel) : Int :=
  (sum3 p.red p.green p.blue).tdiv 3

/-- Grayscale of one pixel: `(r + g + b) / 3` is stored in a `double` and the
`double` is stored in each of the three channels. -/
def grayPixel (M : FloatModel) (p : Pixel) : Pixel :=
  ⟨M.toInt (M.ofInt (avg3 p)), M.toInt (M.ofInt (avg3 p)), M.toInt (M.ofInt (avg3 p))⟩

/-- High contrast of one pixel: white when the `double` holding `(r + g + b) / 3`
is `>= 255 / 2`, else black. -/
def contrastPixel (M : FloatModel) (p : Pixel) : Pixel :=
  if M.le (M.ofInt ((255 : Int).tdiv 2)) (M.ofInt (avg3 p)) then ⟨255, 255, 255⟩ else ⟨0, 0, 0⟩

/-- Posterize of one pixel: white when the sum is at least 550, black when it is at
most 150, else the primary of the largest channel, red before green before blue. -/
def posterizePixel (p : Pixel) : Pixel :=
  if 550 ≤ sum3 p.red p.green p.blue then ⟨255, 255, 255⟩
  else if sum3 p.red p.green p.blue ≤ 150 then ⟨0, 0, 0⟩
  else if max (max p.red p.green) p.blue = p.red then ⟨255, 0, 0⟩
  else if max (max p.red p.green) p.blue = p.green then ⟨0, 255, 0⟩
  else ⟨0, 0, 255⟩

/-- Lighten of one pixel: every channel `c` becomes `255 - (255 - c) * s`. -/
def lightenPixel (M : FloatModel) (s : M.D) (p : Pixel) : Pixel :=
  ⟨lighten M p.red s, lighten M p.green s, lighten M p.blue s⟩

/-- Darken of one pixel: every channel `c` becomes `c * s`. -/
def darkenPixel (M : FloatModel) (s : M.D) (p : Pixel) : Pixel :=
  ⟨darken M p.red s, darken M p.green s, darken M p.blue s⟩

/-- Clarendon of one pixel: lighten when the average is at least 170, darken when
it is below 90, else unchanged. -/
def clarendonPixel (M : FloatModel) (s : M.D) (p : Pixel) : Pixel :=
  if 170 ≤ avg3 p then lightenPixel M s p
  else if avg3 p < 90 then darkenPixel M s p
  else p

/-- The value `distance` of the vignette at `[row][col]`:
`sqrt(pow(col - num_columns/2, 2) + pow(row - num_rows/2, 2))`. -/
def vignetteDistance (M : FloatModel) (C : CMath M) (num_rows num_columns row col : Nat) :
    M.D :=
  C.sqrt (M.add
    (C.pow (M.ofInt ((col : Int) - ((num_columns : Int).tdiv 2))) (M.ofInt 2))
    (C.pow (M.ofInt ((row : Int) - ((num_rows : Int).tdiv 2))) (M.ofInt 2)))

/-- The factor `(num_rows - distance) / num_rows` of the vignette at `[row][col]`. -/
def vignetteFactor (M : FloatModel) (C : CMath M) (num_rows num_columns row col : Nat) : M.D :=
  M.div (M.sub (M.ofInt num_rows) (vignetteDistance M C num_rows num_columns row col))
    (M.ofInt num_rows)

/-- Vignette of the pixel at `[row][col]`: every channel is multiplied by the factor. -/
def vignettePixel (M : FloatModel) (C : CMath M) (num_rows num_columns row col : Nat)
    (p : Pixel) : Pixel :=
  darkenPixel M (vignetteFactor M C num_rows num_columns row col) p

/-- Rounding of a rational to the nearest integer, a tie going to the even
integer. -/
def roundEven (q : ℚ) : Int :=
  if q - ⌊q⌋ < 1 / 2 then ⌊q⌋
  else if 1 / 2 < q - ⌊q⌋ then ⌊q⌋ + 1
  else if ⌊q⌋ % 2 = 0 then ⌊q⌋ else ⌊q⌋ + 1

/-- The exponent of the unit in the last place of the binary64 numbers around
`q > 0`: 52 below the exponent of `q`, and `-1074` in the subnormal range. -/
def ulpExp (q : ℚ) : Int :=
  max (Int.log 2 q - 52) (-1074)

/-- Rounding of `q` to the nearest multiple of `2 ^ e`, ties to even. -/
def roundAt (e : Int) (q : ℚ) : ℚ :=
  (roundEven (q / 2 ^ e) : ℚ) * 2 ^ e

/-- The IEEE 754 binary64 rounding of a rational (round to nearest, ties to even):
53 significant bits, subnormal numbers below `2 ^ (-1022)`.  Overflow to infinity
is not represented. -/
def roundDouble (q : ℚ) : ℚ :=
  if 0 < q then roundAt (ulpExp q) q
  else if q < 0 then -roundAt (ulpExp (-q)) (-q)
  else 0

/-- Integer square root by halving: `natSqrt k n` is the floor of the square root
of `n` when `n < 4 ^ k` (theorem `natSqrt_eq`); the recursion is on `k`. -/
def natSqrt : Nat → Nat → Nat
  | 0, _ => 0
  | k + 1, n =>
    let r := 2 * natSqrt k (n / 4)
    if (r + 1) * (r + 1) ≤ n then r + 1 else r

/-- The correctly rounded binary64 square root of a rational `q > 0` (and `0` for
the other arguments, for which `sqrt` has no finite value): the integer nearest to
`sqrt (q / 4 ^ e)` is found from the integer square root `n` of its floor (the
square root is below `n + 1 / 2` exactly when `q / 4 ^ e` is below
`n * n + n + 1 / 4`), a tie going to the even integer.  The quotient `q / 4 ^ e` is
below `2 ^ 106`, so 64 halvings reach its integer square root (theorem
`sqrtDouble_natSqrt`). -/
def sqrtDouble (q : ℚ) : ℚ :=
  if 0 < q then
    let e := max (Int.log 2 q / 2 - 52) (-1074)
    let t := q / 2 ^ (2 * e)
    let n : Nat := natSqrt 64 ⌊t⌋₊
    let m : ℚ := (n : ℚ) * n + n + 1 / 4
    let r : Nat :=
      if t < m then n else if m < t then n + 1 else if n % 2 = 0 then n else n + 1
    (r : ℚ) * 2 ^ e
  else 0

/-- The type `double` as IEEE 754 binary64, a finite `double` being the rational it
denotes: every operation rounds its exact result with `roundDouble`, the
conversion from `int` rounds, the conversion to `int` truncates toward zero.
Infinities and NaN are not represented, so a division by zero and an overflow have
no faithful result here. -/
@[reducible]
def double64 : FloatModel where
  D := ℚ
  ofInt := fun n => roundDouble (n : ℚ)
  toInt := fun q => q.num.tdiv q.den
  add := fun a b => roundDouble (a + b)
  sub := fun a b => roundDouble (a - b)
  mul := fun a b => roundDouble (a * b)
  div := fun a b => roundDouble (a / b)
  le := fun a b => decide (a ≤ b)

/-- The `<cmath>` functions on `double64`: `sqrt` is correctly rounded, as IEEE 754
requires, and `pow` is the correctly rounded power for an exponent that is a
natural number (the transforms call `pow` with the exponent 2 only); other
exponents are not modelled. -/
def cmath64 : CMath double64 where
  sqrt := fun (q : ℚ) => sqrtDouble q
  pow := fun (a b : ℚ) => roundDouble (a ^ b.num.toNat)

/-- Truncation of a rational toward zero: the floor of a non-negative number, the
ceiling of a negative one. -/
def trunc (q : ℚ) : Int :=
  if 0 ≤ q then ⌊q⌋ else ⌈q⌉

/-! ## Bitmap codec -/

/-- One byte of a file. -/
abbrev Byte := Fin 256

/-- The conversion `(unsigned char) x` of an `int`. -/
def toByte (x : Int) : Byte := ⟨(x % 256).toNat, by omega⟩

/-- An input `fstream` opened on an existing file: the file's bytes, the get
position and the fail bit.  Once the fail bit is set every later operation is a
no-op and `get` returns end-of-file. -/
structure FStream where
  data : List Byte
  pos : Nat
  failed : Bool
deriving DecidableEq, Repr

/-- The call `stream.seekg(p)`: a negative position sets the fail bit, a position
past the end of the file is accepted. -/
def FStream.seekg (s : FStream) (p : Int) : FStream :=
  if s.failed then s
  else if p < 0 then { s with failed := true }
  else { s with pos := p.toNat }

/-- The call `stream.seekg(off, ios::cur)`. -/
def FStream.seekg_cur (s : FStream) (off : Int) : FStream :=
  if s.failed then s
  else if (s.pos : Int) + off < 0 then { s with failed := true }
  else { s with pos := ((s.pos : Int) + off).toNat }

/-- The call `stream.get()`: the next byte as an `int`, or end-of-file (`-1`, which
also sets the fail bit) when there is none. -/
def FStream.get (s : FStream) : Int × FStream :=
  if s.failed then (-1, s)
  else
    match s.data[s.pos]? with
    | some b => ((b.val : Int), { s with pos := s.pos + 1 })
    | none => (-1, { s with failed := true })

/-- The function `get_int`: `bytes` bytes from `offset`, least significant first. -/
def get_int (stream : FStream) (offset : Int) (bytes : Nat) : Int × FStream :=
  let stream := stream.seekg offset
  let st := (List.range bytes).foldl
    (fun (st : Int × Int × FStream) _ =>
      let c := st.2.2.get
      (wrap32 (st.1 + wrap32 (c.1 * st.2.1)), wrap32 (st.2.1 * 256), c.2))
    (0, 1, stream)
  (st.1, st.2.2)

/-- The value `stream.get()` yields at position `k` of a stream over `file` whose
fail bit is clear: the byte there, or end-of-file (`-1`). -/
def byteAt (file : List Byte) (k : Nat) : Int :=
  match file[k]? with
  | some b => (b.val : Int)
  | none => -1

/-- The pixel whose blue, green and red bytes are the three consecutive bytes of
`file` from offset `o`. -/
def filePixel (file : List Byte) (o : Nat) : Pixel :=
  ⟨byteAt file (o + 2), byteAt file (o + 1), byteAt file o⟩

/-- The padding `read_image` computes for a scan line of `n` bytes (`n ≥ 0`):
`4 - n % 4` when `n` is not a multiple of four, else `0`. -/
def rowPad (n : Nat) : Nat :=
  if n % 4 ≠ 0 then 4 - n % 4 else 0

/-- The image properties `read_image` gets from the two headers, and the stream as
the five `get_int` calls leave it. -/
structure Header where
  file_size : Int
  start : Int
  width : Int
  height : Int
  bits_per_pixel : Int
  stream : FStream

/-- The "Get the image properties" block of `read_image`. -/
def read_header (file : List Byte) : Header :=
  let stream : FStream := ⟨file, 0, false⟩
  let r1 := get_int stream 2 4
  let r2 := get_int r1.2 10 4
  let r3 := get_int r2.2 18 4
  let r4 := get_int r3.2 22 4
  let r5 := get_int r4.2 28 2
  ⟨r1.1, r2.1, r3.1, r4.1, r5.1, r5.2⟩

/-- The value `scanline_size = width * (bits_per_pixel / 8)` of `read_image`. -/
def scanline_size (hd : Header) : Int :=
  wrap32 (hd.width * hd.bits_per_pixel.tdiv 8)

/-- The value `padding` of `read_image`: `4 - scanline_size % 4` when the scan line
is not a multiple of four bytes, else `0`. -/
def padding (hd : Header) : Int :=
  if (scanline_size hd).tmod 4 ≠ 0 then 4 - (scanline_size hd).tmod 4 else 0

/-- The right-hand side `start + (scanline_size + padding) * height` of the validity
test of `read_image`, in 32-bit arithmetic. -/
def expected_size (hd : Header) : Int :=
  wrap32 (hd.start + wrap32 (wrap32 (scanline_size hd + padding hd) * hd.height))

/-- The body of the column loop of `read_image` for the pixel `image[i][j]`, on the
state `(image, pos, stream)`; `step` is `bits_per_pixel / 8`. -/
def read_pixel (i j : Nat) (step : Int) (st : Grid × Int × FStream) :
    Option (Grid × Int × FStream) := do
  let stream := st.2.2.seekg st.2.1
  let c := stream.get
  let image ← setBlue st.1 i j c.1
  let c := c.2.get
  let image ← setGreen image i j c.1
  let c := c.2.get
  let image ← setRed image i j c.1
  some (image, wrap32 (st.2.1 + step), c.2)

/-- The function `read_image` on the bytes of the file `filename`.  The result is
`none` when the construction of the `height` by `width` vector throws (a negative
dimension) or a pixel store is out of bounds. -/
def read_image (file : List Byte) : Option Grid :=
  let hd := read_header file
  if hd.file_size ≠ expected_size hd then
    some []
  else if hd.width < 0 ∨ hd.height < 0 then
    none
  else
    let image := newGrid hd.height.toNat hd.width.toNat
    let pos := hd.start
    (forDown hd.height.toNat (fun i st => do
      let st ← forUp hd.width.toNat (fun j st =>
        read_pixel i j (hd.bits_per_pixel.tdiv 8) st) st
      some (st.1, wrap32 (st.2.1 + padding hd), st.2.2.seekg_cur (padding hd)))
      (image, pos, hd.stream)).map (fun st => st.1)

/-- A sample file: the 62 bytes of a 24-bit bitmap of one row of the two pixels
`(1, 2, 3)` and `(4, 5, 6)` (red, green, blue), with two padding bytes. -/
def sample_file : List Byte :=
  [66, 77, 62, 0, 0, 0, 0, 0, 0, 0, 54, 0, 0, 0,
   40, 0, 0, 0, 2, 0, 0, 0, 1, 0, 0, 0, 1, 0, 24, 0, 0, 0, 0, 0, 8, 0, 0, 0,
   19, 11, 0, 0, 19, 11, 0, 0, 0, 0, 0, 0, 0, 0, 0, 0,
   3, 2, 1, 6, 5, 4, 0, 0]

/-- The first 58 bytes of `sample_file`: the header still declares 62 bytes, the
last two channels and the row padding are missing. -/
def truncated_file : List Byte :=
  [66, 77, 62, 0, 0, 0, 0, 0, 0, 0, 54, 0, 0, 0,
   40, 0, 0, 0, 2, 0, 0, 0, 1, 0, 0, 0, 1, 0, 24, 0, 0, 0, 0, 0, 8, 0, 0, 0,
   19, 11, 0, 0, 19, 11, 0, 0, 0, 0, 0, 0, 0, 0, 0, 0,
   3, 2, 1, 6]

/-- The 30 header bytes that `read_image` reads of a 24-bit bitmap file that
declares 2147483646 bytes, the pixel array offset 30, width 1 and height
536870904. -/
def low_offset_head : List Byte :=
  [66, 77, 254, 255, 255, 127, 0, 0, 0, 0, 30, 0, 0, 0,
   40, 0, 0, 0, 1, 0, 0, 0, 248, 255, 255, 31, 1, 0, 24, 0]

/-- A 24-bit bitmap file of width 1 and height 536870904 whose header gives the
pixel array offset 30: the header `low_offset_head` followed by 2147483616 zero
bytes (one black pixel and one padding byte per row).  The file has the
2147483646 bytes its header declares. -/
def low_offset_file : List Byte :=
  low_offset_head ++ List.replicate 2147483616 0

/-- A `bits_per_pixel = 24` file of 62 bytes whose header declares the pixel array
offset `-4`, the file size `4`, width 1 and height 2, so that the declared size is
exactly `-4 + (3 + 1) * 2`. -/
def neg_offset_file : List Byte :=
  [66, 77, 4, 0, 0, 0, 0, 0, 0, 0, 252, 255, 255, 255,
   40, 0, 0, 0, 1, 0, 0, 0, 2, 0, 0, 0, 1, 0, 24, 0, 0, 0, 0, 0, 8, 0, 0, 0,
   19, 11, 0, 0, 19, 11, 0, 0, 0, 0, 0, 0, 0, 0, 0, 0,
   10, 20, 30, 0, 40, 50, 60, 0]

/-- A `bits_per_pixel = 24` file of 58 bytes (width 1, height 1) whose header
declares the pixel array offset `2147483647` and whose file-size bytes
`3, 0, 0, 128` are read by `get_int` as `-2147483645`, the value to which
`2147483647 + (3 + 1) * 1` wraps in 32-bit arithmetic. -/
def wrap_check_file : List Byte :=
  [66, 77, 3, 0, 0, 128, 0, 0, 0, 0, 255, 255, 255, 127,
   40, 0, 0, 0, 1, 0, 0, 0, 1, 0, 0, 0, 1, 0, 24, 0, 0, 0, 0, 0, 4, 0, 0, 0,
   19, 11, 0, 0, 19, 11, 0, 0, 0, 0, 0, 0, 0, 0, 0, 0,
   10, 20, 30, 0]

/-- The bytes of `sample_file` with the declared file size changed from 62 to 63. -/
def bad_size_file : List Byte :=
  [66, 77, 63, 0, 0, 0, 0, 0, 0, 0, 54, 0, 0, 0,
   40, 0, 0, 0, 2, 0, 0, 0, 1, 0, 0, 0, 1, 0, 24, 0, 0, 0, 0, 0, 8, 0, 0, 0,
   19, 11, 0, 0, 19, 11, 0, 0, 0, 0, 0, 0, 0, 0, 0, 0,
   3, 2, 1, 6, 5, 4, 0, 0]

/-- The row size `width * (bits_per_pixel / 8)` of a header as an exact integer. -/
def exact_row_size (hd : Header) : Int :=
  hd.width * hd.bits_per_pixel.tdiv 8

/-- The padding of `read_image` computed from the exact row size. -/
def exact_padding (hd : Header) : Int :=
  if (exact_row_size hd).tmod 4 ≠ 0 then 4 - (exact_row_size hd).tmod 4 else 0

/-- The size `pixel_data_offset + (row_size + padding) * height` of a header as an
exact integer. -/
def exact_expected_size (hd : Header) : Int :=
  hd.start + (exact_row_size hd + exact_padding hd) * hd.height

/-- The function `set_bytes`: `arr[offset+i] = (unsigned char)(value >> (i*8))` for
`i < bytes`; `none` when a store is outside the array. -/
def set_bytes (arr : List Byte) (offset bytes : Nat) (value : Int) : Option (List Byte) :=
  forUp bytes (fun i arr =>
    if offset + i < arr.length then some (arr.set (offset + i) (toByte (value >>> (i * 8))))
    else none) arr


/-- The four bytes `set_bytes` stores for a 4-byte field of value `v`. -/
def le4 (v : Int) : List Byte :=
  [toByte v, toByte (v >>> (8 : Nat)), toByte (v >>> (16 : Nat)), toByte (v >>> (24 : Nat))]

/-- The value `padding_bytes` of `write_image` for an image `w` pixels wide. -/
def enc_padding (w : Nat) : Int :=
  (4 - (wrap32 ((w : Int) * 3)).tmod 4).tmod 4

/-- The value `array_bytes` of `write_image` for an `h` by `w` image. -/
def enc_array_bytes (h w : Nat) : Int :=
  wrap32 (wrap32 (wrap32 ((w : Int) * 3) + enc_padding w) * (h : Int))

/-- The row padding of the spec's encoder: `(4 - (width*3) % 4) % 4`. -/
def padding_bytes (w : Nat) : Nat :=
  (4 - (3 * w) % 4) % 4

/-- The `n`-byte little-endian encoding of `v`: byte `i` is `v / 256^i` modulo 256,
so that byte `i` contributes `byte_value * 256^i`. -/
def littleEndian (n v : Nat) : List Byte :=
  (List.range n).map (fun i => Fin.ofNat (v / 256 ^ i))

/-- The "BMP Header" block of `write_image`: the 14-byte file header. -/
def bmp_header_of (array_bytes : Int) : Option (List Byte) := do
  let bmp_header : List Byte := List.replicate 14 0
  let bmp_header ← set_bytes bmp_header 0 1 66
  let bmp_header ← set_bytes bmp_header 1 1 77
  let bmp_header ← set_bytes bmp_header 2 4 (wrap32 (wrap32 (14 + 40) + array_bytes))
  let bmp_header ← set_bytes bmp_header 6 2 0
  let bmp_header ← set_bytes bmp_header 8 2 0
  set_bytes bmp_header 10 4 (wrap32 (14 + 40))

/-- The "DIB Header" block of `write_image`: the 40-byte image header. -/
def dib_header_of (width_pixels height_pixels array_bytes : Int) : Option (List Byte) := do
  let dib_header : List Byte := List.replicate 40 0
  let dib_header ← set_bytes dib_header 0 4 40
  let dib_header ← set_bytes dib_header 4 4 width_pixels
  let dib_header ← set_bytes dib_header 8 4 height_pixels
  let dib_header ← set_bytes dib_header 12 2 1
  let dib_header ← set_bytes dib_header 14 2 24
  let dib_header ← set_bytes dib_header 16 4 0
  let dib_header ← set_bytes dib_header 20 4 array_bytes
  let dib_header ← set_bytes dib_header 24 4 2835
  let dib_header ← set_bytes dib_header 28 4 2835
  let dib_header ← set_bytes dib_header 32 4 0
  set_bytes dib_header 36 4 0

/-- The function `write_image`, for a destination that opens: the bytes written to
the file (the function then returns `true`).  The result is `none` when the image
is indexed out of bounds. -/
def write_image (image : Grid) : Option (List Byte) := do
  let width_pixels : Int := (← image[0]?).length
  let height_pixels : Int := image.length
  let width_bytes := wrap32 (width_pixels * 3)
  let padding_bytes := (4 - width_bytes.tmod 4).tmod 4
  let width_bytes := wrap32 (width_bytes + padding_bytes)
  let array_bytes := wrap32 (width_bytes * height_pixels)
  let bmp_header ← bmp_header_of array_bytes
  let dib_header ← dib_header_of width_pixels height_pixels array_bytes
  let out := bmp_header ++ dib_header
  forDown height_pixels.toNat (fun h out => do
    let out ← forUp width_pixels.toNat (fun w out => do
      let pixel0 := toByte (← px image h w).blue
      let pixel1 := toByte (← px image h w).green
      let pixel2 := toByte (← px image h w).red
      some (out ++ [pixel0, pixel1, pixel2])) out
    some (out ++ List.replicate padding_bytes.toNat 0)) out

/-! ## Loop invariants -/

/-- The step `step` maps every `h` by `w` grid to an `h` by `w` grid in which the
cells selected by `S` hold `val` and all other cells are unchanged. -/
def Paints (h w : Nat) (val : Nat → Nat → Pixel) (S : Nat → Nat → Prop)
    (step : Grid → Option Grid) : Prop :=
  ∀ g, IsRect g h w → ∃ g', step g = some g' ∧ IsRect g' h w ∧
    ∀ a b, a < h → b < w →
      (S a b → px g' a b = some (val a b)) ∧ (¬ S a b → px g' a b = px g a b)


/-! ## Grid lemmas -/

theorem px_eq_bind (g : Grid) (i j : Nat) : px g i j = (g[i]?).bind (fun r => r[j]?) := by
  unfold px; cases g[i]? <;> rfl

theorem IsRect.px_isSome {g : Grid} {h w : Nat} (hg : IsRect g h w) {i j : Nat}
    (hi : i < h) (hj : j < w) : ∃ p, px g i j = some p := by
  obtain ⟨hl, hr⟩ := hg
  have hi' : i < g.length := by omega
  have hrow : g[i]? = some g[i] := List.getElem?_eq_getElem hi'
  have hlen : (g[i]).length = w := hr _ (List.getElem_mem _)
  have hj' : j < (g[i]).length := by omega
  exact ⟨(g[i])[j], by rw [px_eq_bind, hrow]; simp [List.getElem?_eq_getElem hj']⟩

theorem px_lt_of_some {g : Grid} {h w : Nat} (hg : IsRect g h w) {i j : Nat} {p : Pixel}
    (hp : px g i j = some p) : i < h ∧ j < w := by
  obtain ⟨hl, hr⟩ := hg
  rw [px_eq_bind] at hp
  cases hrow : g[i]? with
  | none => simp [hrow] at hp
  | some r =>
    simp only [hrow, Option.some_bind] at hp
    obtain ⟨hi, hri⟩ := List.getElem?_eq_some_iff.1 hrow
    obtain ⟨hj, _⟩ := List.getElem?_eq_some_iff.1 hp
    have : r ∈ g := hri ▸ List.getElem_mem _
    have := hr r this
    omega

theorem modifyCell_spec {g : Grid} {h w : Nat} (hg : IsRect g h w) {i j : Nat}
    (hi : i < h) (hj : j < w) (f : Pixel → Pixel) :
    ∃ g', modifyCell g i j f = some g' ∧ IsRect g' h w ∧
      ∀ a b, px g' a b = if a = i ∧ b = j then (px g i j).map f else px g a b := by
  obtain ⟨hl, hr⟩ := hg
  have hi' : i < g.length := by omega
  have hrow : g[i]? = some g[i] := List.getElem?_eq_getElem hi'
  have hlen : (g[i]).length = w := hr _ (List.getElem_mem _)
  have hj' : j < (g[i]).length := by omega
  have hcell : (g[i])[j]? = some (g[i])[j] := List.getElem?_eq_getElem hj'
  refine ⟨g.set i ((g[i]).set j (f (g[i])[j])), ?_, ⟨?_, ?_⟩, ?_⟩
  · simp [modifyCell, hrow, hcell]
  · simp [hl]
  · intro r hrm
    rcases List.mem_or_eq_of_mem_set hrm with h1 | h1
    · exact hr r h1
    · simp [h1, hlen]
  · intro a b
    simp only [px_eq_bind, List.getElem?_set]
    by_cases hai : a = i
    · subst hai
      simp only [if_true, hi', Option.some_bind, true_and, hrow, List.getElem?_set]
      by_cases hbj : b = j
      · subst hbj; simp [hj', hcell]
      · have : ¬ j = b := fun h => hbj h.symm
        simp [hbj, this]
    · have : ¬ i = a := fun h => hai h.symm
      simp [hai, this]

/-- Storing the three channels of one cell in turn stores the whole pixel. -/
theorem store3_spec {g : Grid} {h w : Nat} (hg : IsRect g h w) {i j : Nat}
    (hi : i < h) (hj : j < w) (r gr b : Int) :
    ∃ g', ((setRed g i j r).bind fun g1 => (setGreen g1 i j gr).bind fun g2 =>
        setBlue g2 i j b) = some g' ∧ IsRect g' h w ∧
      ∀ a c, px g' a c = if a = i ∧ c = j then some ⟨r, gr, b⟩ else px g a c := by
  obtain ⟨p, hp⟩ := hg.px_isSome hi hj
  obtain ⟨g1, e1, r1, p1⟩ := modifyCell_spec hg hi hj (fun p => { p with red := r })
  obtain ⟨g2, e2, r2, p2⟩ := modifyCell_spec r1 hi hj (fun p => { p with green := gr })
  obtain ⟨g3, e3, r3, p3⟩ := modifyCell_spec r2 hi hj (fun p => { p with blue := b })
  refine ⟨g3, ?_, r3, ?_⟩
  · simp [setRed, setGreen, setBlue, e1, e2, e3]
  · intro a c
    by_cases hc : a = i ∧ c = j
    · obtain ⟨rfl, rfl⟩ := hc
      have ht : a = a ∧ c = c := ⟨rfl, rfl⟩
      rw [p3 a c, if_pos ht, p2 a c, if_pos ht, p1 a c, if_pos ht, hp, if_pos ht]
      rfl
    · rw [p3 a c, if_neg hc, p2 a c, if_neg hc, p1 a c, if_neg hc, if_neg hc]


theorem forUp_paints {h w : Nat} {val : Nat → Nat → Pixel} (n : Nat)
    (body : Nat → Grid → Option Grid) (S : Nat → Nat → Nat → Prop)
    (hb : ∀ k, k < n → Paints h w val (S k) (body k)) :
    Paints h w val (fun a b => ∃ k, k < n ∧ S k a b) (forUp n body) := by
  induction n with
  | zero =>
    intro g hg
    exact ⟨g, by simp [forUp], hg, fun a b _ _ =>
      ⟨by rintro ⟨k, hk, _⟩; omega, fun _ => rfl⟩⟩
  | succ n ih =>
    intro g hg
    obtain ⟨g1, e1, r1, q1⟩ := ih (fun k hk => hb k (by omega)) g hg
    obtain ⟨g2, e2, r2, q2⟩ := hb n (by omega) g1 r1
    refine ⟨g2, ?_, r2, ?_⟩
    · unfold forUp at e1 ⊢
      rw [List.range_succ, List.foldlM_append, e1]
      simp [e2]
    · intro a b ha hb'
      by_cases hs : S n a b
      · exact ⟨fun _ => (q2 a b ha hb').1 hs, fun hne => absurd ⟨n, by omega, hs⟩ hne⟩
      · constructor
        · rintro ⟨k, hk, hks⟩
          rw [(q2 a b ha hb').2 hs]
          have hkn : k < n := by
            rcases Nat.lt_succ_iff_lt_or_eq.1 hk with h1 | h1
            · exact h1
            · subst h1; exact absurd hks hs
          exact (q1 a b ha hb').1 ⟨k, hkn, hks⟩
        · intro hne
          rw [(q2 a b ha hb').2 hs]
          exact (q1 a b ha hb').2 (fun ⟨k, hk, hks⟩ => hne ⟨k, by omega, hks⟩)

/-- One iteration of a copy loop: the three channel stores into cell `[i][j]`. -/
theorem store3_paints {h w : Nat} {val : Nat → Nat → Pixel} {i j : Nat}
    (hi : i < h) (hj : j < w) (p : Pixel) (hv : val i j = p) :
    Paints h w val (fun a b => a = i ∧ b = j)
      (fun g => (setRed g i j p.red).bind fun g1 => (setGreen g1 i j p.green).bind fun g2 =>
        setBlue g2 i j p.blue) := by
  intro g hg
  obtain ⟨g', e, r, q⟩ := store3_spec hg hi hj p.red p.green p.blue
  refine ⟨g', e, r, fun a b _ _ => ⟨fun hs => ?_, fun hs => ?_⟩⟩
  · rw [q a b, if_pos hs, hs.1, hs.2, hv]
  · rw [q a b, if_neg hs]

theorem px_eq_getElem (g : Grid) (a b : Nat) (ha : a < g.length) (hb : b < (g[a]).length) :
    px g a b = some (g[a])[b] := by
  rw [px_eq_bind, List.getElem?_eq_getElem ha]
  simp [List.getElem?_eq_getElem hb]

theorem grid_ext {g1 g2 : Grid} {h w : Nat} (h1 : IsRect g1 h w) (h2 : IsRect g2 h w)
    (hp : ∀ a b, a < h → b < w → px g1 a b = px g2 a b) : g1 = g2 := by
  obtain ⟨l1, r1⟩ := h1
  obtain ⟨l2, r2⟩ := h2
  apply List.ext_getElem (by omega)
  intro a ha1 ha2
  have e1 : (g1[a]).length = w := r1 _ (List.getElem_mem _)
  have e2 : (g2[a]).length = w := r2 _ (List.getElem_mem _)
  apply List.ext_getElem (by omega)
  intro b hb1 hb2
  have := hp a b (by omega) (by omega)
  rw [px_eq_getElem g1 a b ha1 hb1, px_eq_getElem g2 a b ha2 hb2] at this
  exact Option.some.inj this

theorem isRect_tab (h w : Nat) (f : Nat → Nat → Pixel) : IsRect (tab h w f) h w := by
  constructor
  · simp [tab]
  · intro r hr
    simp only [tab, List.mem_map] at hr
    obtain ⟨i, _, rfl⟩ := hr
    simp

theorem px_tab {h w : Nat} (f : Nat → Nat → Pixel) {a b : Nat} (ha : a < h) (hb : b < w) :
    px (tab h w f) a b = some (f a b) := by
  simp [px_eq_bind, tab, List.getElem?_range ha, List.getElem?_range hb]

theorem pxD_tab {h w : Nat} (f : Nat → Nat → Pixel) {a b : Nat} (ha : a < h) (hb : b < w) :
    pxD (tab h w f) a b = f a b := by
  simp [pxD, px_tab f ha hb]

theorem isRect_newGrid (h w : Nat) : IsRect (newGrid h w) h w := by
  constructor
  · simp [newGrid]
  · intro r hr
    simp only [newGrid, List.mem_replicate] at hr
    simp [hr.2]

theorem IsRect.head {g : Grid} {h w : Nat} (hg : IsRect g h w) (hh : 0 < h) :
    ∃ r, g[0]? = some r ∧ r.length = w := by
  obtain ⟨hl, hr⟩ := hg
  have h0 : 0 < g.length := by omega
  exact ⟨g[0], List.getElem?_eq_getElem h0, hr _ (List.getElem_mem _)⟩

theorem IsRect.pxD_eq {g : Grid} {h w : Nat} (hg : IsRect g h w) {i j : Nat}
    (hi : i < h) (hj : j < w) : px g i j = some (pxD g i j) := by
  obtain ⟨p, hp⟩ := hg.px_isSome hi hj
  simp [pxD, hp]

/-- A finished pair of nested copy loops yields the tabulated grid. -/
theorem paints_all_eq_tab {h w : Nat} {val : Nat → Nat → Pixel} {S : Nat → Nat → Prop}
    {step : Grid → Option Grid} (hp : Paints h w val S step)
    (hall : ∀ a b, a < h → b < w → S a b) {g : Grid} (hg : IsRect g h w) :
    step g = some (tab h w val) := by
  obtain ⟨g', e, r, q⟩ := hp g hg
  rw [e]
  congr 1
  apply grid_ext r (isRect_tab h w val)
  intro a b ha hb
  rw [(q a b ha hb).1 (hall a b ha hb), px_tab val ha hb]

theorem process_4_eq {g : Grid} {h w : Nat} (hg : IsRect g h w) (hh : 0 < h) :
    process_4 g = some (tab w h (fun a b => pxD g (h - 1 - b) a)) := by
  obtain ⟨r0, e0, l0⟩ := hg.head hh
  have hlen : g.length = h := hg.1
  simp only [process_4, e0, l0, hlen, Option.bind_eq_bind, Option.some_bind]
  refine paints_all_eq_tab (S := fun a b => ∃ row, row < h ∧ ∃ col, col < w ∧ (a = col ∧ b = h - row - 1))
    ?_ ?_ (isRect_newGrid w h)
  · apply forUp_paints
    intro row hrow
    apply forUp_paints
    intro col hcol
    simp only [hg.pxD_eq hrow hcol, Option.some_bind]
    apply store3_paints hcol (by omega)
    congr 1
    omega
  · intro a b ha hb
    exact ⟨h - 1 - b, by omega, a, ha, rfl, by omega⟩


theorem rotate_180_eq {g : Grid} {h w : Nat} (hg : IsRect g h w) (hh : 0 < h) :
    rotate_180 g = some (tab h w (fun a b => pxD g (h - 1 - a) (w - 1 - b))) := by
  obtain ⟨r0, e0, l0⟩ := hg.head hh
  have hlen : g.length = h := hg.1
  simp only [rotate_180, e0, l0, hlen, Option.bind_eq_bind, Option.some_bind]
  refine paints_all_eq_tab
    (S := fun a b => ∃ row, row < h ∧ ∃ col, col < w ∧ (a = h - row - 1 ∧ b = w - col - 1))
    ?_ ?_ (isRect_newGrid h w)
  · apply forUp_paints
    intro row hrow
    apply forUp_paints
    intro col hcol
    simp only [hg.pxD_eq hrow hcol, Option.some_bind]
    apply store3_paints (by omega) (by omega)
    congr 1 <;> omega
  · intro a b ha hb
    exact ⟨h - 1 - a, by omega, w - 1 - b, by omega, by omega, by omega⟩

theorem rotate_270_eq {g : Grid} {h w : Nat} (hg : IsRect g h w) (hh : 0 < h) :
    rotate_270 g = some (tab w h (fun a b => pxD g b a)) := by
  obtain ⟨r0, e0, l0⟩ := hg.head hh
  have hlen : g.length = h := hg.1
  simp only [rotate_270, e0, l0, hlen, Option.bind_eq_bind, Option.some_bind]
  refine paints_all_eq_tab
    (S := fun a b => ∃ row, row < h ∧ ∃ col, col < w ∧ (a = col ∧ b = row))
    ?_ ?_ (isRect_newGrid w h)
  · apply forUp_paints
    intro row hrow
    apply forUp_paints
    intro col hcol
    simp only [hg.pxD_eq hrow hcol, Option.some_bind]
    exact store3_paints hcol hrow _ rfl
  · intro a b ha hb
    exact ⟨b, hb, a, ha, rfl, rfl⟩

theorem tab_pxD_self {g : Grid} {h w : Nat} (hg : IsRect g h w) :
    tab h w (fun a b => pxD g a b) = g := by
  apply grid_ext (isRect_tab h w _) hg
  intro a b ha hb
  rw [px_tab _ ha hb, hg.pxD_eq ha hb]

theorem tab_congr {h w : Nat} {f f' : Nat → Nat → Pixel}
    (hf : ∀ a b, a < h → b < w → f a b = f' a b) : tab h w f = tab h w f' := by
  apply grid_ext (isRect_tab h w f) (isRect_tab h w f')
  intro a b ha hb
  rw [px_tab _ ha hb, px_tab _ ha hb, hf a b ha hb]

theorem wrap32_of_range {x : Int} (h1 : -2147483648 ≤ x) (h2 : x ≤ 2147483647) :
    wrap32 x = x := by
  unfold wrap32; omega

theorem tmod_eq_ite (x b : Int) (hb : 0 < b) :
    x.tmod b = if 0 ≤ x then x % b else -((-x) % b) := by
  split
  · next h => exact Int.tmod_eq_emod h hb.le
  · next h =>
    obtain ⟨n, rfl⟩ := Int.eq_negSucc_of_lt_zero (not_le.1 h)
    obtain ⟨m, rfl⟩ := Int.eq_ofNat_of_zero_le hb.le
    simp only [Int.tmod, Int.neg_negSucc]
    cases m with
    | zero => simp at hb
    | succ m =>
      show -((n.succ % m.succ : Nat) : Int) = _
      rfl

theorem tdiv_eq_ite (x b : Int) (hb : 0 < b) :
    x.tdiv b = if 0 ≤ x then x / b else -((-x) / b) := by
  split
  · next h => exact Int.tdiv_eq_ediv h hb.le
  · next h =>
    obtain ⟨n, rfl⟩ := Int.eq_negSucc_of_lt_zero (not_le.1 h)
    obtain ⟨m, rfl⟩ := Int.eq_ofNat_of_zero_le hb.le
    simp only [Int.tdiv, Int.neg_negSucc]
    cases m with
    | zero => simp at hb
    | succ m =>
      show -((n.succ / m.succ : Nat) : Int) = _
      rfl

/-! ## Claims -/

/-- C7 (counterexample): for `N = -2` the normalised angle `(N*90) mod 360` is 180,
yet `process_5` returns `rotate_270` of the grid and not `rotate_180` of it. -/
theorem process_5_neg_two_not_rotate_180 :
    ((-2 : Int) * 90) % 360 = 180 ∧
    process_5 [[⟨1, 2, 3⟩, ⟨4, 5, 6⟩]] (-2) = some [[⟨1, 2, 3⟩], [⟨4, 5, 6⟩]] ∧
    rotate_180 [[⟨1, 2, 3⟩, ⟨4, 5, 6⟩]] = some [[⟨4, 5, 6⟩, ⟨1, 2, 3⟩]] ∧
    process_5 [[⟨1, 2, 3⟩, ⟨4, 5, 6⟩]] (-2) ≠ rotate_180 [[⟨1, 2, 3⟩, ⟨4, 5, 6⟩]] := by
  decide

/-- C7 (amended): for every integer `N` whose product `N*90` fits a 32-bit `int`,
`process_5 g N` is `g` when the normalised angle `(N*90) mod 360` is 0 and
`rotate_270 g` when it is 270; for `N ≥ 0` it is moreover `process_4 g` when the
angle is 90 and `rotate_180 g` when it is 180. -/
theorem process_5_dispatch (g : Grid) (N : Int)
    (hN : -2147483648 ≤ N * 90 ∧ N * 90 ≤ 2147483647) :
    ((N * 90) % 360 = 0 → process_5 g N = some g) ∧
    ((N * 90) % 360 = 270 → process_5 g N = rotate_270 g) ∧
    (0 ≤ N → (N * 90) % 360 = 90 → process_5 g N = process_4 g) ∧
    (0 ≤ N → (N * 90) % 360 = 180 → process_5 g N = rotate_180 g) := by
  have hw : wrap32 (N * 90) = N * 90 := wrap32_of_range hN.1 hN.2
  have h90 : (N * 90).tmod 90 = 0 := by
    rw [tmod_eq_ite _ _ (by decide)]; split <;> omega
  simp only [process_5, hw, h90, ne_eq, not_true_eq_false, if_false]
  rw [tmod_eq_ite _ _ (by decide)]
  split
  · refine ⟨fun h => ?_, fun h => ?_, fun _ h => ?_, fun _ h => ?_⟩ <;> simp [h]
  · refine ⟨fun h => ?_, fun h => ?_, fun h0 _ => ?_, fun h0 _ => ?_⟩
    · have : (-(N * 90)) % 360 = 0 := by omega
      simp [this]
    · have : (-(N * 90)) % 360 = 90 := by omega
      simp [this]
    · omega
    · omega

theorem process_5_dispatch_witness :
    (-2147483648 ≤ (5 : Int) * 90 ∧ (5 : Int) * 90 ≤ 2147483647) ∧
    (0 ≤ (5 : Int) → ((5 : Int) * 90) % 360 = 90 →
      process_5 [[⟨1, 2, 3⟩, ⟨4, 5, 6⟩]] 5 = process_4 [[⟨1, 2, 3⟩, ⟨4, 5, 6⟩]]) :=
  ⟨by decide, (process_5_dispatch [[⟨1, 2, 3⟩, ⟨4, 5, 6⟩]] 5 (by decide)).2.2.1⟩


/-- C8 (failing input): on the one-row grid `[[a, b]]` the function `rotate_270`
returns the transpose `[[a], [b]]`, whereas three clockwise quarter turns by
`process_4` give `[[b], [a]]`; turning the result of `rotate_270` clockwise once
more gives `[[b, a]]` and not the input. -/
theorem rotate_270_differs_from_three_turns :
    rotate_270 [[⟨1, 2, 3⟩, ⟨4, 5, 6⟩]] = some [[⟨1, 2, 3⟩], [⟨4, 5, 6⟩]] ∧
    ((process_4 [[⟨1, 2, 3⟩, ⟨4, 5, 6⟩]]).bind process_4).bind process_4
      = some [[⟨4, 5, 6⟩], [⟨1, 2, 3⟩]] ∧
    (rotate_270 [[⟨1, 2, 3⟩, ⟨4, 5, 6⟩]]).bind process_4
      = some [[⟨4, 5, 6⟩, ⟨1, 2, 3⟩]] := by
  decide

/-- C9: `rotate_180` is an involution: on every rectangular grid with at least one
row, `rotate_180` succeeds and applying it to its own result gives the grid back. -/
theorem rotate_180_involution (g : Grid) (h w : Nat) (hg : IsRect g h w) (hh : 0 < h) :
    (rotate_180 g).bind rotate_180 = some g := by
  rw [rotate_180_eq hg hh, Option.some_bind, rotate_180_eq (isRect_tab h w _) hh]
  congr 1
  rw [← tab_pxD_self hg]
  apply tab_congr
  intro a b ha hb
  rw [pxD_tab _ (by omega) (by omega), tab_pxD_self hg]
  congr 1 <;> omega

theorem rotate_180_involution_witness :
    IsRect [[⟨1, 2, 3⟩, ⟨4, 5, 6⟩], [⟨7, 8, 9⟩, ⟨10, 11, 12⟩]] 2 2 ∧ 0 < 2 ∧
    (rotate_180 [[⟨1, 2, 3⟩, ⟨4, 5, 6⟩], [⟨7, 8, 9⟩, ⟨10, 11, 12⟩]]).bind rotate_180
      = some [[⟨1, 2, 3⟩, ⟨4, 5, 6⟩], [⟨7, 8, 9⟩, ⟨10, 11, 12⟩]] :=
  ⟨by simp [IsRect], by decide,
    rotate_180_involution _ 2 2 (by simp [IsRect]) (by decide)⟩

/-- C10: `process_4` has order four: on every rectangular grid with at least one
row and at least one column, four successive applications of `process_4` all
succeed and give the grid back. -/
theorem process_4_four_times (g : Grid) (h w : Nat) (hg : IsRect g h w)
    (hh : 0 < h) (hw : 0 < w) :
    (((process_4 g).bind process_4).bind process_4).bind process_4 = some g := by
  rw [process_4_eq hg hh, Option.some_bind, process_4_eq (isRect_tab w h _) hw,
    Option.some_bind, process_4_eq (isRect_tab h w _) hh, Option.some_bind,
    process_4_eq (isRect_tab w h _) hw]
  congr 1
  rw [← tab_pxD_self hg]
  apply tab_congr
  intro a b ha hb
  rw [pxD_tab _ (by omega) (by omega), pxD_tab _ (by omega) (by omega),
    pxD_tab _ (by omega) (by omega), tab_pxD_self hg]
  congr 1 <;> omega

theorem process_4_four_times_witness :
    IsRect [[⟨1, 2, 3⟩, ⟨4, 5, 6⟩, ⟨7, 8, 9⟩]] 1 3 ∧ 0 < 1 ∧ 0 < 3 ∧
    (((process_4 [[⟨1, 2, 3⟩, ⟨4, 5, 6⟩, ⟨7, 8, 9⟩]]).bind process_4).bind process_4).bind
      process_4 = some [[⟨1, 2, 3⟩, ⟨4, 5, 6⟩, ⟨7, 8, 9⟩]] :=
  ⟨by simp [IsRect], by decide, by decide,
    process_4_four_times _ 1 3 (by simp [IsRect]) (by decide) (by decide)⟩

/-! ## Stream and `get_int` lemmas -/

theorem get_of_lt (s : FStream) (hf : s.failed = false) (hp : s.pos < s.data.length) :
    s.get = (byteAt s.data s.pos, ⟨s.data, s.pos + 1, false⟩) := by
  obtain ⟨d, p, f⟩ := s
  simp only at hf hp
  subst hf
  simp [FStream.get, byteAt, List.getElem?_eq_getElem hp]

theorem get_fst (s : FStream) (hf : s.failed = false) : s.get.1 = byteAt s.data s.pos := by
  unfold FStream.get byteAt
  rw [hf]
  cases s.data[s.pos]? <;> simp

theorem get_data (s : FStream) : s.get.2.data = s.data := by
  unfold FStream.get
  split
  · rfl
  · split <;> rfl

theorem get_of_failed (s : FStream) (hf : s.failed = true) : s.get = (-1, s) := by
  simp [FStream.get, hf]

theorem seekg_of_ok (s : FStream) (hf : s.failed = false) (p : Nat) :
    s.seekg (p : Int) = ⟨s.data, p, false⟩ := by
  obtain ⟨d, q, f⟩ := s
  simp only at hf
  subst hf
  simp [FStream.seekg]

theorem seekg_data (s : FStream) (p : Int) : (s.seekg p).data = s.data := by
  unfold FStream.seekg
  split
  · rfl
  · split <;> rfl

theorem byteAt_nonneg_of_lt (file : List Byte) (k : Nat) (hk : k < file.length) :
    0 ≤ byteAt file k ∧ byteAt file k ≤ 255 := by
  unfold byteAt
  rw [List.getElem?_eq_getElem hk]
  have := (file[k]).isLt
  constructor
  · exact Int.ofNat_nonneg _
  · show ((file[k]).val : Int) ≤ 255
    omega

theorem byteAt_of_le (file : List Byte) (k : Nat) (hk : file.length ≤ k) :
    byteAt file k = -1 := by
  unfold byteAt
  rw [List.getElem?_eq_none hk]

/-- The four-byte read of `get_int` when all four bytes are present. -/
theorem get_int_four (s : FStream) (off : Nat) (hf : s.failed = false)
    (hlen : off + 4 ≤ s.data.length) :
    get_int s off 4 =
      (wrap32 (byteAt s.data off + byteAt s.data (off + 1) * 256
        + byteAt s.data (off + 2) * 65536 + byteAt s.data (off + 3) * 16777216),
       ⟨s.data, off + 4, false⟩) := by
  have h0 := byteAt_nonneg_of_lt s.data off (by omega)
  have h1 := byteAt_nonneg_of_lt s.data (off + 1) (by omega)
  have h2 := byteAt_nonneg_of_lt s.data (off + 2) (by omega)
  have h3 := byteAt_nonneg_of_lt s.data (off + 3) (by omega)
  have hr : List.range 4 = [0, 1, 2, 3] := rfl
  simp only [get_int, hr, List.foldl, seekg_of_ok s hf off]
  rw [get_of_lt _ rfl (by simpa using by omega)]
  simp only []
  rw [get_of_lt _ rfl (by simpa using by omega)]
  simp only []
  rw [get_of_lt _ rfl (by simpa using by omega)]
  simp only []
  rw [get_of_lt _ rfl (by simpa using by omega)]
  have wb1 : wrap32 (1 * 256) = 256 := by decide
  have wb2 : wrap32 (256 * 256) = 65536 := by decide
  have wb3 : wrap32 (65536 * 256) = 16777216 := by decide
  have wb4 : wrap32 (16777216 * 256) = 0 := by decide
  simp only [wb1, wb2, wb3, wb4, Nat.add_assoc, Nat.reduceAdd, Prod.mk.injEq, and_true,
    mul_one, zero_add]
  unfold wrap32
  omega

/-- The two-byte read of `get_int` when both bytes are present. -/
theorem get_int_two (s : FStream) (off : Nat) (hf : s.failed = false)
    (hlen : off + 2 ≤ s.data.length) :
    get_int s off 2 =
      (byteAt s.data off + byteAt s.data (off + 1) * 256, ⟨s.data, off + 2, false⟩) := by
  have h0 := byteAt_nonneg_of_lt s.data off (by omega)
  have h1 := byteAt_nonneg_of_lt s.data (off + 1) (by omega)
  have hr : List.range 2 = [0, 1] := rfl
  simp only [get_int, hr, List.foldl, seekg_of_ok s hf off]
  rw [get_of_lt _ rfl (by simpa using by omega)]
  simp only []
  rw [get_of_lt _ rfl (by simpa using by omega)]
  have wb1 : wrap32 (1 * 256) = 256 := by decide
  simp only [wb1, Nat.add_assoc, Nat.reduceAdd, Prod.mk.injEq, and_true, mul_one, zero_add]
  unfold wrap32
  omega

theorem get_int_data (s : FStream) (off : Int) (n : Nat) : (get_int s off n).2.data = s.data := by
  have key : ∀ (l : List Nat) (st : Int × Int × FStream),
      (l.foldl (fun (st : Int × Int × FStream) _ =>
        (wrap32 (st.1 + wrap32 (st.2.2.get.1 * st.2.1)), wrap32 (st.2.1 * 256), st.2.2.get.2))
        st).2.2.data = st.2.2.data := by
    intro l
    induction l with
    | nil => intro st; rfl
    | cons a l ih => intro st; rw [List.foldl_cons, ih]; exact get_data _
  simp only [get_int]
  rw [key, seekg_data]

/-- A two-byte read that meets the end of the file, or starts on a failed stream,
yields a negative value. -/
theorem get_int_two_neg (s : FStream) (off : Nat)
    (h : s.failed = true ∨ s.data.length < off + 2) : (get_int s off 2).1 < 0 := by
  have hr : List.range 2 = [0, 1] := rfl
  have wb1 : wrap32 (1 * 256) = 256 := by decide
  simp only [get_int, hr, List.foldl]
  cases hf : s.failed with
  | true =>
    have e1 : s.seekg (off : Int) = s := by simp [FStream.seekg, hf]
    rw [e1, get_of_failed s hf]
    simp only [get_of_failed s hf]
    decide
  | false =>
    have hl : s.data.length < off + 2 := by
      rcases h with h | h
      · rw [hf] at h; cases h
      · exact h
    rw [seekg_of_ok s hf off]
    by_cases h0 : off < s.data.length
    · rw [get_of_lt _ rfl (by simpa using h0)]
      simp only []
      have hb := byteAt_nonneg_of_lt s.data off h0
      have e2 : (FStream.mk s.data (off + 1) false).get.1 = -1 := by
        rw [get_fst _ rfl]
        exact byteAt_of_le _ _ (by simp only []; omega)
      rw [e2, wb1]
      unfold wrap32
      omega
    · have e1 : (FStream.mk s.data off false).get = (-1, ⟨s.data, off, true⟩) := by
        simp [FStream.get, List.getElem?_eq_none (not_lt.1 h0)]
      rw [e1]
      simp only [get_of_failed ⟨s.data, off, true⟩ rfl]
      decide

/-- The header of a file of at least 30 bytes: every field is read in full. -/
theorem read_header_of_len (file : List Byte) (hlen : 30 ≤ file.length) :
    read_header file =
      ⟨wrap32 (byteAt file 2 + byteAt file 3 * 256 + byteAt file 4 * 65536
          + byteAt file 5 * 16777216),
       wrap32 (byteAt file 10 + byteAt file 11 * 256 + byteAt file 12 * 65536
          + byteAt file 13 * 16777216),
       wrap32 (byteAt file 18 + byteAt file 19 * 256 + byteAt file 20 * 65536
          + byteAt file 21 * 16777216),
       wrap32 (byteAt file 22 + byteAt file 23 * 256 + byteAt file 24 * 65536
          + byteAt file 25 * 16777216),
       byteAt file 28 + byteAt file 29 * 256,
       ⟨file, 30, false⟩⟩ := by
  unfold read_header
  have e1 := get_int_four ⟨file, 0, false⟩ 2 rfl (by simpa using by omega)
  have e2 := get_int_four ⟨file, 2 + 4, false⟩ 10 rfl (by simpa using by omega)
  have e3 := get_int_four ⟨file, 10 + 4, false⟩ 18 rfl (by simpa using by omega)
  have e4 := get_int_four ⟨file, 18 + 4, false⟩ 22 rfl (by simpa using by omega)
  have e5 := get_int_two ⟨file, 22 + 4, false⟩ 28 rfl (by simpa using by omega)
  simp only [Nat.cast_ofNat] at e1 e2 e3 e4 e5
  simp only [e1, e2, e3, e4, e5]

/-- A file shorter than 30 bytes has a negative `bits_per_pixel`. -/
theorem read_header_bpp_neg (file : List Byte) (hlen : file.length < 30) :
    (read_header file).bits_per_pixel < 0 := by
  unfold read_header
  simp only []
  apply get_int_two_neg _ 28
  right
  rw [get_int_data, get_int_data, get_int_data, get_int_data]
  simpa using hlen

/-! ## Loops with an invariant -/

theorem forUp_inv {σ : Type} (n : Nat) (body : Nat → σ → Option σ) (I : Nat → σ → Prop)
    (s0 : σ) (h0 : I 0 s0)
    (hstep : ∀ k, k < n → ∀ s, I k s → ∃ s', body k s = some s' ∧ I (k + 1) s') :
    ∃ s', forUp n body s0 = some s' ∧ I n s' := by
  induction n with
  | zero => exact ⟨s0, by simp [forUp], h0⟩
  | succ n ih =>
    obtain ⟨s1, e1, i1⟩ := ih (fun k hk => hstep k (by omega))
    obtain ⟨s2, e2, i2⟩ := hstep n (by omega) s1 i1
    refine ⟨s2, ?_, i2⟩
    unfold forUp at e1 ⊢
    rw [List.range_succ, List.foldlM_append, e1]
    simp [e2]

theorem forDown_eq_forUp {σ : Type} (n : Nat) (body : Nat → σ → Option σ) (s : σ) :
    forDown n body s = forUp n (fun k => body (n - 1 - k)) s := by
  unfold forDown forUp
  have h : (List.range n).reverse = (List.range n).map (fun x => n - 1 - x) := by
    rw [List.range_eq_range', List.reverse_range', ← List.range_eq_range']
    simp
  rw [h, List.foldlM_map]

theorem forDown_inv {σ : Type} (n : Nat) (body : Nat → σ → Option σ) (I : Nat → σ → Prop)
    (s0 : σ) (h0 : I 0 s0)
    (hstep : ∀ k, k < n → ∀ s, I k s → ∃ s', body (n - 1 - k) s = some s' ∧ I (k + 1) s') :
    ∃ s', forDown n body s0 = some s' ∧ I n s' := by
  rw [forDown_eq_forUp]
  exact forUp_inv n _ I s0 h0 hstep

/-! ## Decoding the pixel array -/

/-- Storing blue, green and red of one cell in turn stores the whole pixel. -/
theorem store3bgr_spec {g : Grid} {h w : Nat} (hg : IsRect g h w) {i j : Nat}
    (hi : i < h) (hj : j < w) (b gr r : Int) :
    ∃ g', ((setBlue g i j b).bind fun g1 => (setGreen g1 i j gr).bind fun g2 =>
        setRed g2 i j r) = some g' ∧ IsRect g' h w ∧
      ∀ a c, px g' a c = if a = i ∧ c = j then some ⟨r, gr, b⟩ else px g a c := by
  obtain ⟨p, hp⟩ := hg.px_isSome hi hj
  obtain ⟨g1, e1, r1, p1⟩ := modifyCell_spec hg hi hj (fun p => { p with blue := b })
  obtain ⟨g2, e2, r2, p2⟩ := modifyCell_spec r1 hi hj (fun p => { p with green := gr })
  obtain ⟨g3, e3, r3, p3⟩ := modifyCell_spec r2 hi hj (fun p => { p with red := r })
  refine ⟨g3, ?_, r3, ?_⟩
  · simp [setRed, setGreen, setBlue, e1, e2, e3]
  · intro a c
    by_cases hc : a = i ∧ c = j
    · obtain ⟨rfl, rfl⟩ := hc
      have ht : a = a ∧ c = c := ⟨rfl, rfl⟩
      rw [p3 a c, if_pos ht, p2 a c, if_pos ht, p1 a c, if_pos ht, hp, if_pos ht]
      rfl
    · rw [p3 a c, if_neg hc, p2 a c, if_neg hc, p1 a c, if_neg hc, if_neg hc]

/-- One pixel read of `read_image` on a stream in good state with the three bytes
of the pixel present. -/
theorem read_pixel_ok {img : Grid} {h w : Nat} (hg : IsRect img h w) {i j : Nat}
    (hi : i < h) (hj : j < w) (st : FStream) (hfail : st.failed = false)
    (P d : Nat) (hP : P + 3 ≤ st.data.length) (hfit : P + d ≤ 2147483647) :
    ∃ img', read_pixel i j (d : Int) (img, (P : Int), st)
        = some (img', ((P + d : Nat) : Int), ⟨st.data, P + 3, false⟩) ∧
      IsRect img' h w ∧
      ∀ a c, px img' a c =
        if a = i ∧ c = j then some (filePixel st.data P) else px img a c := by
  obtain ⟨img', e, r, q⟩ := store3bgr_spec hg hi hj (byteAt st.data P)
    (byteAt st.data (P + 1)) (byteAt st.data (P + 2))
  refine ⟨img', ?_, r, q⟩
  have hw : wrap32 ((P : Int) + (d : Int)) = ((P + d : Nat) : Int) := by
    rw [wrap32_of_range (by omega) (by omega)]
    push_cast
    rfl
  simp only [read_pixel, seekg_of_ok st hfail P, Option.bind_eq_bind]
  rw [get_of_lt _ rfl (by simpa using by omega)]
  simp only []
  rw [get_of_lt _ rfl (by simpa using by omega)]
  simp only []
  rw [get_of_lt _ rfl (by simpa using by omega)]
  simp only [hw]
  cases e1 : setBlue img i j (byteAt st.data P) with
  | none => simp [e1] at e
  | some g1 =>
    simp only [e1, Option.some_bind] at e ⊢
    cases e2 : setGreen g1 i j (byteAt st.data (P + 1)) with
    | none => simp [e2] at e
    | some g2 =>
      simp only [e2, Option.some_bind] at e ⊢
      rw [e]
      rfl

/-- The column loop of `read_image` for row `i`, started at file offset `B` on a
stream in good state: it reads the `w` pixels of the row and leaves every other
row unchanged. -/
theorem read_row_spec (file : List Byte) (h w d B i : Nat) (hd3 : 3 ≤ d) (hi : i < h)
    (hfit : B + w * d ≤ 2147483647) (hlen : B + w * d ≤ file.length)
    (img0 : Grid) (hrect : IsRect img0 h w) (st0 : FStream) (hdata : st0.data = file)
    (hfail : st0.failed = false) :
    ∃ fin, forUp w (fun j st => read_pixel i j (d : Int) st) (img0, (B : Int), st0)
        = some fin ∧
      IsRect fin.1 h w ∧ fin.2.1 = ((B + w * d : Nat) : Int) ∧ fin.2.2.data = file ∧
      fin.2.2.failed = false ∧
      ∀ a b, px fin.1 a b =
        if a = i ∧ b < w then some (filePixel file (B + b * d)) else px img0 a b := by
  have key := forUp_inv w (fun j st => read_pixel i j (d : Int) st)
    (fun c (st : Grid × Int × FStream) =>
      IsRect st.1 h w ∧ st.2.1 = ((B + c * d : Nat) : Int) ∧ st.2.2.data = file ∧
      st.2.2.failed = false ∧
      ∀ a b, px st.1 a b =
        if a = i ∧ b < c then some (filePixel file (B + b * d)) else px img0 a b)
    (img0, (B : Int), st0)
    ⟨hrect, by simp, hdata, hfail, fun a b => by simp⟩
    (by
      rintro c hc ⟨img, pos, st⟩ ⟨hr, hpos, hdat, hfl, hpx⟩
      simp only at hr hpos hdat hfl hpx
      have hmul : (c + 1) * d ≤ w * d := Nat.mul_le_mul_right d hc
      have hsucc : (c + 1) * d = c * d + d := Nat.succ_mul c d
      subst hpos
      obtain ⟨img', e, r', q⟩ := read_pixel_ok hr hi hc st hfl (B + c * d) d
        (by rw [hdat]; omega) (by omega)
      refine ⟨_, e, r', ?_, hdat, rfl, ?_⟩
      · simp only
        congr 1
        omega
      · intro a b
        simp only
        rw [q a b, hpx a b, hdat]
        by_cases hab : a = i ∧ b = c
        · obtain ⟨rfl, rfl⟩ := hab
          simp
        · rw [if_neg hab]
          by_cases ha : a = i
          · subst ha
            have hbc : b ≠ c := fun hh => hab ⟨rfl, hh⟩
            by_cases hb : b < c
            · have : b < c + 1 := by omega
              simp [hb, this]
            · have : ¬ b < c + 1 := by omega
              simp [hb, this]
          · simp [ha])
  obtain ⟨fin, e, hr, hpos, hdat, hfl, hpx⟩ := key
  exact ⟨fin, e, hr, hpos, hdat, hfl, hpx⟩

/-- The two nested loops of `read_image`, started at the pixel-array offset `S` on a
stream in good state, when the whole pixel array is present and its end offset
fits an `int`: pixel `[a][b]` is read from on-disk row `h - 1 - a`. -/
theorem read_rows_spec (file : List Byte) (S h w d p : Nat) (hd3 : 3 ≤ d)
    (hfit : S + h * (w * d + p) ≤ 2147483647) (hlen : S + h * (w * d + p) ≤ file.length)
    (img0 : Grid) (hrect : IsRect img0 h w) (st0 : FStream) (hdata : st0.data = file)
    (hfail : st0.failed = false) :
    ∃ fin, forDown h (fun i st => do
        let st ← forUp w (fun j st => read_pixel i j (d : Int) st) st
        some (st.1, wrap32 (st.2.1 + (p : Int)), st.2.2.seekg_cur (p : Int)))
        (img0, (S : Int), st0) = some fin ∧
      IsRect fin.1 h w ∧
      ∀ a b, a < h → b < w →
        px fin.1 a b = some (filePixel file (S + (h - 1 - a) * (w * d + p) + b * d)) := by
  have key := forDown_inv h (fun i st => do
        let st ← forUp w (fun j st => read_pixel i j (d : Int) st) st
        some (st.1, wrap32 (st.2.1 + (p : Int)), st.2.2.seekg_cur (p : Int)))
    (fun t (st : Grid × Int × FStream) =>
      IsRect st.1 h w ∧ st.2.1 = ((S + t * (w * d + p) : Nat) : Int) ∧ st.2.2.data = file ∧
      st.2.2.failed = false ∧
      ∀ a b, h - t ≤ a → a < h → b < w →
        px st.1 a b = some (filePixel file (S + (h - 1 - a) * (w * d + p) + b * d)))
    (img0, (S : Int), st0)
    ⟨hrect, by simp, hdata, hfail, fun a b h1 h2 _ => by omega⟩
    (by
      rintro t ht ⟨img, pos, st⟩ ⟨hr, hpos, hdat, hfl, hpx⟩
      simp only at hr hpos hdat hfl hpx
      have hmul : (t + 1) * (w * d + p) ≤ h * (w * d + p) := Nat.mul_le_mul_right _ ht
      have hsucc : (t + 1) * (w * d + p) = t * (w * d + p) + (w * d + p) := Nat.succ_mul _ _
      subst hpos
      obtain ⟨fin, e, r', hpos', hdat', hfl', q⟩ := read_row_spec file h w d
        (S + t * (w * d + p)) (h - 1 - t) hd3 (by omega) (by omega) (by omega)
        img hr st hdat hfl
      refine ⟨(fin.1, wrap32 (fin.2.1 + (p : Int)), fin.2.2.seekg_cur (p : Int)), ?_,
        r', ?_, ?_, ?_, ?_⟩
      · simp only [Option.bind_eq_bind, e, Option.some_bind]
      · simp only
        have e2 : S + (t + 1) * (w * d + p) = S + t * (w * d + p) + w * d + p := by omega
        rw [hpos', wrap32_of_range (by omega) (by omega), e2]
        push_cast
        ring
      · simp only
        unfold FStream.seekg_cur
        rw [hfl']
        simp only [Bool.false_eq_true, if_false]
        split <;> exact hdat'
      · simp only
        unfold FStream.seekg_cur
        rw [hfl']
        simp only [Bool.false_eq_true, if_false]
        rw [if_neg (by omega)]
      · intro a b h1 h2 h3
        simp only
        rw [q a b]
        by_cases ha : a = h - 1 - t
        · subst ha
          rw [if_pos ⟨rfl, h3⟩]
          congr 2
          have : h - 1 - (h - 1 - t) = t := by omega
          rw [this]
        · rw [if_neg (fun hh => ha hh.1)]
          exact hpx a b (by omega) h2 h3)
  obtain ⟨fin, e, hr, _, _, _, hpx⟩ := key
  exact ⟨fin, e, hr, fun a b ha hb => hpx a b (by omega) ha hb⟩

theorem wrap32_le (x : Int) : wrap32 x ≤ 2147483647 := by
  unfold wrap32; omega

theorem read_header_file_size_le (file : List Byte) (hlen : 30 ≤ file.length) :
    (read_header file).file_size ≤ 2147483647 := by
  rw [read_header_of_len file hlen]
  exact wrap32_le _

theorem read_header_stream (file : List Byte) (hlen : 30 ≤ file.length) :
    (read_header file).stream = ⟨file, 30, false⟩ := by
  rw [read_header_of_len file hlen]

/-- The decoder on a file whose header declares, without overflow, an `h` by `w`
image of `d` bytes per pixel at offset `S`, all of whose bytes are present. -/
theorem read_image_of_valid (file : List Byte) (S h w d : Nat)
    (hS : (read_header file).start = S) (hw : (read_header file).width = w)
    (hh : (read_header file).height = h)
    (hb : (read_header file).bits_per_pixel = 8 * d) (hd : d = 3 ∨ d = 4)
    (hcheck : (read_header file).file_size = ((S + (w * d + rowPad (w * d)) * h : Nat) : Int))
    (hpres : (read_header file).file_size ≤ file.length) :
    ∃ g, read_image file = some g ∧ IsRect g h w ∧
      ∀ i j, i < h → j < w →
        px g i j = some (filePixel file (S + (h - 1 - i) * (w * d + rowPad (w * d)) + j * d)) := by
  have hlen : 30 ≤ file.length := by
    by_contra hc
    have := read_header_bpp_neg file (by omega)
    omega
  have hfs := read_header_file_size_le file hlen
  have hst := read_header_stream file hlen
  rcases Nat.eq_zero_or_pos h with h0 | hpos
  · subst h0
    have hS' : (S : Int) ≤ 2147483647 := by
      rw [hcheck] at hfs
      simpa using hfs
    have hexp : expected_size (read_header file) = (read_header file).file_size := by
      rw [hcheck]
      unfold expected_size
      rw [hh, hS]
      have e0 : wrap32 (wrap32 (scanline_size (read_header file) + padding (read_header file))
          * ((0 : Nat) : Int)) = 0 := by
        rw [Nat.cast_zero, mul_zero]
        decide
      rw [e0, add_zero, wrap32_of_range (by omega) hS']
      simp
    refine ⟨[], ?_, by simp [IsRect], fun i j hi => by omega⟩
    have hneg : ¬ ((w : Int) < 0 ∨ ((0 : Nat) : Int) < 0) := by omega
    simp only [read_image, hexp, ne_eq, not_true_eq_false, if_false, hw, hh, hneg,
      Int.toNat_ofNat]
    rfl
  · have hRle : (w * d + rowPad (w * d)) ≤ (w * d + rowPad (w * d)) * h :=
      Nat.le_mul_of_pos_right _ hpos
    have htot : S + (w * d + rowPad (w * d)) * h ≤ 2147483647 := by
      rw [hcheck] at hfs; exact_mod_cast hfs
    have hd8 : (read_header file).bits_per_pixel.tdiv 8 = (d : Int) := by
      rw [hb]; rcases hd with rfl | rfl <;> decide
    have hscan : scanline_size (read_header file) = ((w * d : Nat) : Int) := by
      simp only [scanline_size, hw, hd8]
      rw [← Nat.cast_mul, wrap32_of_range (by omega) (by omega)]
    have hpad : padding (read_header file) = ((rowPad (w * d) : Nat) : Int) := by
      have ht : (((w * d : Nat) : Int)).tmod 4 = (((w * d) % 4 : Nat) : Int) := by
        rw [tmod_eq_ite _ _ (by decide), if_pos (by omega)]
        omega
      simp only [padding, hscan, ht]
      unfold rowPad
      by_cases hm : (w * d) % 4 = 0
      · simp [hm]
      · have hm' : ¬ (((w * d) % 4 : Nat) : Int) = 0 := by omega
        rw [if_pos hm', if_pos hm]
        omega
    have hexp : expected_size (read_header file) = (read_header file).file_size := by
      rw [hcheck]
      unfold expected_size
      rw [hscan, hpad, hh, hS]
      have e1 : wrap32 (((w * d : Nat) : Int) + ((rowPad (w * d) : Nat) : Int))
          = ((w * d + rowPad (w * d) : Nat) : Int) := by
        rw [← Nat.cast_add, wrap32_of_range (by omega) (by omega)]
      have e2 : wrap32 (((w * d + rowPad (w * d) : Nat) : Int) * (h : Int))
          = (((w * d + rowPad (w * d)) * h : Nat) : Int) := by
        have hT : (w * d + rowPad (w * d)) * h ≤ 2147483647 := by omega
        have hb2 : (((w * d + rowPad (w * d)) * h : Nat) : Int) ≤ 2147483647 := by
          exact_mod_cast hT
        rw [← Nat.cast_mul]
        exact wrap32_of_range (le_trans (by decide) (Int.ofNat_nonneg _)) hb2
      have e3 : wrap32 ((S : Int) + (((w * d + rowPad (w * d)) * h : Nat) : Int))
          = ((S + (w * d + rowPad (w * d)) * h : Nat) : Int) := by
        have hb2 : ((S + (w * d + rowPad (w * d)) * h : Nat) : Int) ≤ 2147483647 := by
          exact_mod_cast htot
        rw [← Nat.cast_add]
        exact wrap32_of_range (le_trans (by decide) (Int.ofNat_nonneg _)) hb2
      rw [e1, e2, e3]
    have hpres' : S + (w * d + rowPad (w * d)) * h ≤ file.length := by
      rw [hcheck] at hpres
      exact_mod_cast hpres
    have hcomm : h * (w * d + rowPad (w * d)) = (w * d + rowPad (w * d)) * h :=
      Nat.mul_comm _ _
    obtain ⟨fin, e, hr, hpx⟩ := read_rows_spec file S h w d (rowPad (w * d))
      (by omega) (by rw [hcomm]; exact htot) (by rw [hcomm]; exact hpres')
      (newGrid h w) (isRect_newGrid h w) ⟨file, 30, false⟩ rfl rfl
    refine ⟨fin.1, ?_, hr, hpx⟩
    have hneg : ¬ ((w : Int) < 0 ∨ (h : Int) < 0) := by omega
    simp only [read_image, hexp, ne_eq, not_true_eq_false, if_false, hw, hh, hS, hd8, hpad,
      hst, hneg, Int.toNat_ofNat]
    rw [e]
    rfl

/-! ## Encoding -/

theorem getElem?_app3_first {α : Type} (xs ys zs : List α) (i : Nat) (hi : i < xs.length) :
    (xs ++ ys ++ zs)[i]? = xs[i]? := by
  rw [List.append_assoc, List.getElem?_append_left hi]

theorem getElem?_app3_mid {α : Type} (xs ys zs : List α) (i : Nat) (hi : i < ys.length) :
    (xs ++ ys ++ zs)[xs.length + i]? = ys[i]? := by
  rw [List.append_assoc, List.getElem?_append_right (by omega),
    List.getElem?_append_left (by omega)]
  congr 1
  omega

theorem getElem?_app3_last {α : Type} (xs ys zs : List α) (i : Nat) :
    (xs ++ ys ++ zs)[xs.length + ys.length + i]? = zs[i]? := by
  rw [List.getElem?_append_right (by simp)]
  congr 1
  simp

/-- The column loop of `write_image` for row `i`: it appends the `3 * w` bytes of
the row, blue first. -/
theorem write_row_spec {g : Grid} {h w : Nat} (hg : IsRect g h w) {i : Nat} (hi : i < h)
    (out0 : List Byte) :
    ∃ bs : List Byte, forUp w (fun j out => do
        let pixel0 := toByte (← px g i j).blue
        let pixel1 := toByte (← px g i j).green
        let pixel2 := toByte (← px g i j).red
        some (out ++ [pixel0, pixel1, pixel2])) out0 = some (out0 ++ bs) ∧
      bs.length = 3 * w ∧
      ∀ j, j < w → bs[3 * j]? = some (toByte (pxD g i j).blue) ∧
        bs[3 * j + 1]? = some (toByte (pxD g i j).green) ∧
        bs[3 * j + 2]? = some (toByte (pxD g i j).red) := by
  have key := forUp_inv w (fun j out => do
        let pixel0 := toByte (← px g i j).blue
        let pixel1 := toByte (← px g i j).green
        let pixel2 := toByte (← px g i j).red
        some (out ++ [pixel0, pixel1, pixel2]))
    (fun c out => ∃ bs : List Byte, out = out0 ++ bs ∧ bs.length = 3 * c ∧
      ∀ j, j < c → bs[3 * j]? = some (toByte (pxD g i j).blue) ∧
        bs[3 * j + 1]? = some (toByte (pxD g i j).green) ∧
        bs[3 * j + 2]? = some (toByte (pxD g i j).red))
    out0 ⟨[], by simp, rfl, fun j hj => by omega⟩
    (by
      rintro c hc out ⟨bs, rfl, hlen, hbs⟩
      refine ⟨out0 ++ bs ++ [toByte (pxD g i c).blue, toByte (pxD g i c).green,
        toByte (pxD g i c).red], ?_, bs ++ [toByte (pxD g i c).blue,
        toByte (pxD g i c).green, toByte (pxD g i c).red], by simp, by simp [hlen]; omega, ?_⟩
      · simp only [hg.pxD_eq hi hc, Option.bind_eq_bind, Option.some_bind]
      · intro j hj
        by_cases hjc : j < c
        · obtain ⟨b1, b2, b3⟩ := hbs j hjc
          rw [List.getElem?_append_left (by omega), List.getElem?_append_left (by omega),
            List.getElem?_append_left (by omega)]
          exact ⟨b1, b2, b3⟩
        · have hjc' : j = c := by omega
          subst hjc'
          rw [List.getElem?_append_right (by omega), List.getElem?_append_right (by omega),
            List.getElem?_append_right (by omega)]
          have e0 : 3 * j - bs.length = 0 := by omega
          have e1 : 3 * j + 1 - bs.length = 1 := by omega
          have e2 : 3 * j + 2 - bs.length = 2 := by omega
          rw [e0, e1, e2]
          exact ⟨rfl, rfl, rfl⟩)
  obtain ⟨out, e, bs, rfl, hlen, hbs⟩ := key
  exact ⟨bs, e, hlen, hbs⟩

/-- The two nested loops of `write_image`: they append `h` on-disk rows of
`3 * w + pad` bytes; on-disk row `k` holds in-memory row `h - 1 - k`, blue first,
followed by `pad` zero bytes. -/
theorem write_rows_spec {g : Grid} {h w : Nat} (hg : IsRect g h w) (pad : Nat)
    (out0 : List Byte) :
    ∃ body : List Byte, forDown h (fun i out => do
        let out ← forUp w (fun j out => do
          let pixel0 := toByte (← px g i j).blue
          let pixel1 := toByte (← px g i j).green
          let pixel2 := toByte (← px g i j).red
          some (out ++ [pixel0, pixel1, pixel2])) out
        some (out ++ List.replicate pad 0)) out0 = some (out0 ++ body) ∧
      body.length = h * (3 * w + pad) ∧
      (∀ k j, k < h → j < w →
        body[k * (3 * w + pad) + 3 * j]? = some (toByte (pxD g (h - 1 - k) j).blue) ∧
        body[k * (3 * w + pad) + 3 * j + 1]? = some (toByte (pxD g (h - 1 - k) j).green) ∧
        body[k * (3 * w + pad) + 3 * j + 2]? = some (toByte (pxD g (h - 1 - k) j).red)) ∧
      ∀ k u, k < h → u < pad → body[k * (3 * w + pad) + 3 * w + u]? = some 0 := by
  have key := forDown_inv h (fun i out => do
        let out ← forUp w (fun j out => do
          let pixel0 := toByte (← px g i j).blue
          let pixel1 := toByte (← px g i j).green
          let pixel2 := toByte (← px g i j).red
          some (out ++ [pixel0, pixel1, pixel2])) out
        some (out ++ List.replicate pad 0))
    (fun t out => ∃ body : List Byte, out = out0 ++ body ∧
      body.length = t * (3 * w + pad) ∧
      (∀ k j, k < t → j < w →
        body[k * (3 * w + pad) + 3 * j]? = some (toByte (pxD g (h - 1 - k) j).blue) ∧
        body[k * (3 * w + pad) + 3 * j + 1]? = some (toByte (pxD g (h - 1 - k) j).green) ∧
        body[k * (3 * w + pad) + 3 * j + 2]? = some (toByte (pxD g (h - 1 - k) j).red)) ∧
      ∀ k u, k < t → u < pad → body[k * (3 * w + pad) + 3 * w + u]? = some 0)
    out0 ⟨[], by simp, by simp, fun k j hk => by omega, fun k u hk => by omega⟩
    (by
      rintro t ht out ⟨body, rfl, hlen, hpix, hpad⟩
      obtain ⟨bs, e, hbl, hbs⟩ := write_row_spec hg (show h - 1 - t < h by omega)
        (out0 ++ body)
      have hsucc : (t + 1) * (3 * w + pad) = t * (3 * w + pad) + (3 * w + pad) :=
        Nat.succ_mul _ _
      have hL : (body ++ bs).length = t * (3 * w + pad) + 3 * w := by
        rw [List.length_append, hlen, hbl]
      refine ⟨out0 ++ body ++ bs ++ List.replicate pad 0, ?_,
        body ++ bs ++ List.replicate pad 0, by simp, ?_, ?_, ?_⟩
      · beta_reduce
        rw [e]
        rfl
      · rw [List.length_append, hL, List.length_replicate]
        omega
      · intro k j hk hj
        by_cases hkt : k < t
        · have hmul : (k + 1) * (3 * w + pad) ≤ t * (3 * w + pad) :=
            Nat.mul_le_mul_right _ hkt
          have hks : (k + 1) * (3 * w + pad) = k * (3 * w + pad) + (3 * w + pad) :=
            Nat.succ_mul _ _
          obtain ⟨b1, b2, b3⟩ := hpix k j hkt hj
          rw [List.append_assoc, List.getElem?_append_left (by omega),
            List.getElem?_append_left (by omega), List.getElem?_append_left (by omega)]
          exact ⟨b1, b2, b3⟩
        · have hkt' : k = t := by omega
          subst hkt'
          obtain ⟨b1, b2, b3⟩ := hbs j hj
          have a0 := getElem?_app3_mid body bs (List.replicate pad 0) (3 * j) (by omega)
          have a1 := getElem?_app3_mid body bs (List.replicate pad 0) (3 * j + 1) (by omega)
          have a2 := getElem?_app3_mid body bs (List.replicate pad 0) (3 * j + 2) (by omega)
          rw [hlen] at a0 a1 a2
          exact ⟨a0.trans b1, a1.trans b2, a2.trans b3⟩
      · intro k u hk hu
        by_cases hkt : k < t
        · have hmul : (k + 1) * (3 * w + pad) ≤ t * (3 * w + pad) :=
            Nat.mul_le_mul_right _ hkt
          have hks : (k + 1) * (3 * w + pad) = k * (3 * w + pad) + (3 * w + pad) :=
            Nat.succ_mul _ _
          rw [List.append_assoc, List.getElem?_append_left (by omega)]
          exact hpad k u hkt hu
        · have hkt' : k = t := by omega
          subst hkt'
          have a0 := getElem?_app3_last body bs (List.replicate pad (0 : Byte)) u
          rw [hlen, hbl, List.getElem?_replicate, if_pos hu] at a0
          exact a0)
  obtain ⟨out, e, body, rfl, hlen, hpix, hpad⟩ := key
  exact ⟨body, e, hlen, hpix, hpad⟩

theorem set_bytes_one (arr : List Byte) (off : Nat) (v : Int) (h : off < arr.length) :
    set_bytes arr off 1 v = some (arr.set off (toByte v)) := by
  have hr : List.range 1 = [0] := rfl
  have z : v >>> (0 : Nat) = v := by rw [Int.shiftRight_eq_div_pow]; simp
  simp [set_bytes, forUp, hr, h, z]

theorem set_bytes_two (arr : List Byte) (off : Nat) (v : Int) (h : off + 1 < arr.length) :
    set_bytes arr off 2 v =
      some ((arr.set off (toByte v)).set (off + 1) (toByte (v >>> (8 : Nat)))) := by
  have hr : List.range 2 = [0, 1] := rfl
  have h0 : off < arr.length := by omega
  have z : v >>> (0 : Nat) = v := by rw [Int.shiftRight_eq_div_pow]; simp
  simp [set_bytes, forUp, hr, h, h0, z]

theorem set_bytes_four (arr : List Byte) (off : Nat) (v : Int) (h : off + 3 < arr.length) :
    set_bytes arr off 4 v =
      some ((((arr.set off (toByte v)).set (off + 1) (toByte (v >>> (8 : Nat)))).set (off + 2)
        (toByte (v >>> (16 : Nat)))).set (off + 3) (toByte (v >>> (24 : Nat)))) := by
  have hr : List.range 4 = [0, 1, 2, 3] := rfl
  have h0 : off < arr.length := by omega
  have h1 : off + 1 < arr.length := by omega
  have h2 : off + 2 < arr.length := by omega
  have z : v >>> (0 : Nat) = v := by rw [Int.shiftRight_eq_div_pow]; simp
  simp [set_bytes, forUp, hr, h, h0, h1, h2, z]

theorem bmp_header_of_eq (A : Int) :
    bmp_header_of A = some
      ([66, 77] ++ le4 (wrap32 (54 + A)) ++ [0, 0, 0, 0] ++ [54, 0, 0, 0]) := by
  have hr : List.replicate 14 (0 : Byte) = [0, 0, 0, 0, 0, 0, 0, 0, 0, 0, 0, 0, 0, 0] := rfl
  have w54 : wrap32 (14 + 40) = 54 := by decide
  simp only [bmp_header_of, hr, w54, Option.bind_eq_bind]
  rw [set_bytes_one _ _ _ (by simp)]
  simp only [Option.some_bind, List.set_cons_zero]
  rw [set_bytes_one _ _ _ (by simp)]
  simp only [Option.some_bind, List.set_cons_zero, List.set_cons_succ]
  rw [set_bytes_four _ _ _ (by simp)]
  simp only [Option.some_bind, List.set_cons_zero, List.set_cons_succ]
  rw [set_bytes_two _ _ _ (by simp)]
  simp only [Option.some_bind, List.set_cons_zero, List.set_cons_succ]
  rw [set_bytes_two _ _ _ (by simp)]
  simp only [Option.some_bind, List.set_cons_zero, List.set_cons_succ]
  rw [set_bytes_four _ _ _ (by simp)]
  simp only [Option.some_bind, List.set_cons_zero, List.set_cons_succ]
  have c1 : toByte 66 = 66 := by decide
  have c2 : toByte 77 = 77 := by decide
  have c3 : toByte 0 = 0 := by decide
  have c4 : toByte ((0 : Int) >>> (8 : Nat)) = 0 := by decide
  have c5 : toByte 54 = 54 := by decide
  have c6 : toByte ((54 : Int) >>> (8 : Nat)) = 0 := by decide
  have c7 : toByte ((54 : Int) >>> (16 : Nat)) = 0 := by decide
  have c8 : toByte ((54 : Int) >>> (24 : Nat)) = 0 := by decide
  simp only [c1, c2, c3, c4, c5, c6, c7, c8]
  rfl

theorem dib_header_of_eq (W H A : Int) :
    dib_header_of W H A = some
      ([40, 0, 0, 0] ++ le4 W ++ le4 H ++ [1, 0] ++ [24, 0] ++ [0, 0, 0, 0] ++ le4 A
        ++ [19, 11, 0, 0] ++ [19, 11, 0, 0] ++ [0, 0, 0, 0] ++ [0, 0, 0, 0]) := by
  have hr : List.replicate 40 (0 : Byte) = [0, 0, 0, 0, 0, 0, 0, 0, 0, 0, 0, 0, 0, 0, 0, 0,
    0, 0, 0, 0, 0, 0, 0, 0, 0, 0, 0, 0, 0, 0, 0, 0, 0, 0, 0, 0, 0, 0, 0, 0] := rfl
  simp only [dib_header_of, hr, Option.bind_eq_bind]
  rw [set_bytes_four _ _ _ (by simp)]
  simp only [Option.some_bind, List.set_cons_zero, List.set_cons_succ]
  rw [set_bytes_four _ _ _ (by simp)]
  simp only [Option.some_bind, List.set_cons_zero, List.set_cons_succ]
  rw [set_bytes_four _ _ _ (by simp)]
  simp only [Option.some_bind, List.set_cons_zero, List.set_cons_succ]
  rw [set_bytes_two _ _ _ (by simp)]
  simp only [Option.some_bind, List.set_cons_zero, List.set_cons_succ]
  rw [set_bytes_two _ _ _ (by simp)]
  simp only [Option.some_bind, List.set_cons_zero, List.set_cons_succ]
  rw [set_bytes_four _ _ _ (by simp)]
  simp only [Option.some_bind, List.set_cons_zero, List.set_cons_succ]
  rw [set_bytes_four _ _ _ (by simp)]
  simp only [Option.some_bind, List.set_cons_zero, List.set_cons_succ]
  rw [set_bytes_four _ _ _ (by simp)]
  simp only [Option.some_bind, List.set_cons_zero, List.set_cons_succ]
  rw [set_bytes_four _ _ _ (by simp)]
  simp only [Option.some_bind, List.set_cons_zero, List.set_cons_succ]
  rw [set_bytes_four _ _ _ (by simp)]
  simp only [Option.some_bind, List.set_cons_zero, List.set_cons_succ]
  rw [set_bytes_four _ _ _ (by simp)]
  simp only [Option.some_bind, List.set_cons_zero, List.set_cons_succ]
  have c1 : toByte 40 = 40 := by decide
  have c2 : toByte ((40 : Int) >>> (8 : Nat)) = 0 := by decide
  have c3 : toByte ((40 : Int) >>> (16 : Nat)) = 0 := by decide
  have c4 : toByte ((40 : Int) >>> (24 : Nat)) = 0 := by decide
  have c5 : toByte 1 = 1 := by decide
  have c6 : toByte ((1 : Int) >>> (8 : Nat)) = 0 := by decide
  have c7 : toByte 24 = 24 := by decide
  have c8 : toByte ((24 : Int) >>> (8 : Nat)) = 0 := by decide
  have c9 : toByte 0 = 0 := by decide
  have c10 : toByte ((0 : Int) >>> (8 : Nat)) = 0 := by decide
  have c11 : toByte ((0 : Int) >>> (16 : Nat)) = 0 := by decide
  have c12 : toByte ((0 : Int) >>> (24 : Nat)) = 0 := by decide
  have c13 : toByte 2835 = 19 := by decide
  have c14 : toByte ((2835 : Int) >>> (8 : Nat)) = 11 := by decide
  have c15 : toByte ((2835 : Int) >>> (16 : Nat)) = 0 := by decide
  have c16 : toByte ((2835 : Int) >>> (24 : Nat)) = 0 := by decide
  simp only [c1, c2, c3, c4, c5, c6, c7, c8, c9, c10, c11, c12, c13, c14, c15, c16]
  rfl

/-- The bytes `write_image` writes for an `h` by `w` grid with at least one row: the
two headers, then `h` on-disk rows of `3 * w` pixel bytes and `padding_bytes` zero
bytes, on-disk row `k` holding in-memory row `h - 1 - k`. -/
theorem write_image_eq {g : Grid} {h w : Nat} (hg : IsRect g h w) (hh : 0 < h) :
    ∃ body : List Byte,
      write_image g = some
        (([66, 77] ++ le4 (wrap32 (54 + enc_array_bytes h w)) ++ [0, 0, 0, 0] ++ [54, 0, 0, 0])
          ++ ([40, 0, 0, 0] ++ le4 w ++ le4 h ++ [1, 0] ++ [24, 0] ++ [0, 0, 0, 0]
            ++ le4 (enc_array_bytes h w) ++ [19, 11, 0, 0] ++ [19, 11, 0, 0] ++ [0, 0, 0, 0]
            ++ [0, 0, 0, 0]) ++ body) ∧
      body.length = h * (3 * w + (enc_padding w).toNat) ∧
      (∀ k j, k < h → j < w →
        body[k * (3 * w + (enc_padding w).toNat) + 3 * j]?
          = some (toByte (pxD g (h - 1 - k) j).blue) ∧
        body[k * (3 * w + (enc_padding w).toNat) + 3 * j + 1]?
          = some (toByte (pxD g (h - 1 - k) j).green) ∧
        body[k * (3 * w + (enc_padding w).toNat) + 3 * j + 2]?
          = some (toByte (pxD g (h - 1 - k) j).red)) ∧
      ∀ k u, k < h → u < (enc_padding w).toNat →
        body[k * (3 * w + (enc_padding w).toNat) + 3 * w + u]? = some 0 := by
  obtain ⟨r0, e0, l0⟩ := hg.head hh
  have hlen : g.length = h := hg.1
  obtain ⟨body, e, hbl, hpix, hpad⟩ := write_rows_spec hg (enc_padding w).toNat
    (([66, 77] ++ le4 (wrap32 (54 + enc_array_bytes h w)) ++ [0, 0, 0, 0] ++ [54, 0, 0, 0])
      ++ ([40, 0, 0, 0] ++ le4 w ++ le4 h ++ [1, 0] ++ [24, 0] ++ [0, 0, 0, 0]
        ++ le4 (enc_array_bytes h w) ++ [19, 11, 0, 0] ++ [19, 11, 0, 0] ++ [0, 0, 0, 0]
        ++ [0, 0, 0, 0]))
  refine ⟨body, ?_, hbl, hpix, hpad⟩
  have w54 : wrap32 (14 + 40) = 54 := by decide
  have hA : wrap32 (wrap32 (wrap32 ((w : Int) * 3) +
      (4 - (wrap32 ((w : Int) * 3)).tmod 4).tmod 4) * (h : Int)) = enc_array_bytes h w := rfl
  have hP : (4 - (wrap32 ((w : Int) * 3)).tmod 4).tmod 4 = enc_padding w := rfl
  simp only [write_image, e0, l0, hlen, Option.bind_eq_bind, Option.some_bind, hA, hP, w54,
    bmp_header_of_eq, dib_header_of_eq, Int.toNat_ofNat]
  exact e

theorem enc_padding_eq (w : Nat) (hw : 3 * w ≤ 2147483647) :
    enc_padding w = ((padding_bytes w : Nat) : Int) := by
  unfold enc_padding padding_bytes
  have e1 : wrap32 ((w : Int) * 3) = ((3 * w : Nat) : Int) := by
    rw [wrap32_of_range (by omega) (by omega)]
    push_cast
    ring
  have t1 : (((3 * w : Nat) : Int)).tmod 4 = (((3 * w) % 4 : Nat) : Int) := by
    rw [tmod_eq_ite _ _ (by decide), if_pos (by omega)]
    omega
  have t2 : ((4 : Int) - (((3 * w) % 4 : Nat) : Int)).tmod 4
      = (((4 - (3 * w) % 4) % 4 : Nat) : Int) := by
    rw [tmod_eq_ite _ _ (by decide), if_pos (by omega)]
    omega
  rw [e1, t1, t2]

theorem enc_padding_toNat (w : Nat) (hw : 3 * w ≤ 2147483647) :
    (enc_padding w).toNat = padding_bytes w := by
  rw [enc_padding_eq w hw, Int.toNat_ofNat]

theorem enc_array_bytes_eq (h w : Nat)
    (hfit : (3 * w + padding_bytes w) * h ≤ 2147483647) (hh : 0 < h) :
    enc_array_bytes h w = (((3 * w + padding_bytes w) * h : Nat) : Int) := by
  have hRle : 3 * w + padding_bytes w ≤ (3 * w + padding_bytes w) * h :=
    Nat.le_mul_of_pos_right _ hh
  have hw : 3 * w ≤ 2147483647 := by omega
  unfold enc_array_bytes
  rw [enc_padding_eq w hw]
  have e1 : wrap32 ((w : Int) * 3) = ((3 * w : Nat) : Int) := by
    rw [wrap32_of_range (by omega) (by omega)]
    push_cast
    ring
  have e2 : wrap32 (((3 * w : Nat) : Int) + ((padding_bytes w : Nat) : Int))
      = ((3 * w + padding_bytes w : Nat) : Int) := by
    rw [← Nat.cast_add, wrap32_of_range (by omega) (by omega)]
  have hb2 : (((3 * w + padding_bytes w) * h : Nat) : Int) ≤ 2147483647 := by
    exact_mod_cast hfit
  rw [e1, e2, ← Nat.cast_mul]
  exact wrap32_of_range (le_trans (by decide) (Int.ofNat_nonneg _)) hb2

theorem le4_eq_littleEndian (v : Nat) :
    le4 (v : Int) = littleEndian 4 v := by
  have hr : List.range 4 = [0, 1, 2, 3] := rfl
  have h0 : toByte (v : Int) = Fin.ofNat (v / 256 ^ 0) := by
    apply Fin.ext
    simp only [toByte, Fin.ofNat]
    omega
  have h1 : toByte ((v : Int) >>> (8 : Nat)) = Fin.ofNat (v / 256 ^ 1) := by
    apply Fin.ext
    simp only [toByte, Fin.ofNat, Int.shiftRight_eq_div_pow]
    norm_num
    omega
  have h2 : toByte ((v : Int) >>> (16 : Nat)) = Fin.ofNat (v / 256 ^ 2) := by
    apply Fin.ext
    simp only [toByte, Fin.ofNat, Int.shiftRight_eq_div_pow]
    norm_num
    omega
  have h3 : toByte ((v : Int) >>> (24 : Nat)) = Fin.ofNat (v / 256 ^ 3) := by
    apply Fin.ext
    simp only [toByte, Fin.ofNat, Int.shiftRight_eq_div_pow]
    norm_num
    omega
  simp only [le4, littleEndian, hr, List.map_cons, List.map_nil, h0, h1, h2, h3]

/-! ## Claims about the encoder -/

/-- C4: for every rectangular grid of `h ≥ 1` rows and `w` columns whose encoded size
`54 + array_bytes` fits a 32-bit `int`, the first 54 bytes `write_image` writes are
`'B'`, `'M'`, the 4-byte little-endian `54 + array_bytes`, two 2-byte zero fields,
4-byte 54, then 4-byte 40, `w`, `h`, 2-byte 1, 2-byte 24, 4-byte 0, 4-byte
`array_bytes`, 4-byte 2835 twice and 4-byte 0 twice, with
`array_bytes = (3w + (4 - (3w) % 4) % 4) * h`; the right-hand side does not mention
the pixels, so the header depends only on `(h, w)`. -/
theorem write_image_header (g : Grid) (h w : Nat) (hg : IsRect g h w) (hh : 0 < h)
    (hfit : 54 + (3 * w + padding_bytes w) * h ≤ 2147483647) :
    ∃ out, write_image g = some out ∧
      out.take 54 =
        [66, 77] ++ littleEndian 4 (54 + (3 * w + padding_bytes w) * h)
          ++ littleEndian 2 0 ++ littleEndian 2 0 ++ littleEndian 4 54
          ++ littleEndian 4 40 ++ littleEndian 4 w ++ littleEndian 4 h
          ++ littleEndian 2 1 ++ littleEndian 2 24 ++ littleEndian 4 0
          ++ littleEndian 4 ((3 * w + padding_bytes w) * h)
          ++ littleEndian 4 2835 ++ littleEndian 4 2835
          ++ littleEndian 4 0 ++ littleEndian 4 0 := by
  obtain ⟨body, e, _, _, _⟩ := write_image_eq hg hh
  refine ⟨_, e, ?_⟩
  have hA := enc_array_bytes_eq h w (by omega) hh
  have hS : wrap32 (54 + enc_array_bytes h w)
      = ((54 + (3 * w + padding_bytes w) * h : Nat) : Int) := by
    have hb2 : ((54 + (3 * w + padding_bytes w) * h : Nat) : Int) ≤ 2147483647 := by
      exact_mod_cast hfit
    rw [hA, ← Nat.cast_ofNat (R := Int) (n := 54), ← Nat.cast_add]
    exact wrap32_of_range (le_trans (by decide) (Int.ofNat_nonneg _)) hb2
  rw [hS, hA, le4_eq_littleEndian, le4_eq_littleEndian, le4_eq_littleEndian,
    le4_eq_littleEndian]
  have c1 : littleEndian 2 0 = [0, 0] := rfl
  have c2 : littleEndian 4 54 = [54, 0, 0, 0] := rfl
  have c3 : littleEndian 4 40 = [40, 0, 0, 0] := rfl
  have c4 : littleEndian 2 1 = [1, 0] := rfl
  have c5 : littleEndian 2 24 = [24, 0] := rfl
  have c6 : littleEndian 4 0 = [0, 0, 0, 0] := rfl
  have c7 : littleEndian 4 2835 = [19, 11, 0, 0] := rfl
  rw [c1, c2, c3, c4, c5, c6, c7]
  have hl : ∀ v : Nat, littleEndian 4 v
      = [Fin.ofNat (v / 256 ^ 0), Fin.ofNat (v / 256 ^ 1), Fin.ofNat (v / 256 ^ 2),
         Fin.ofNat (v / 256 ^ 3)] := fun v => rfl
  simp only [hl, List.cons_append, List.nil_append, List.append_assoc]
  rfl

theorem write_image_header_witness :
    IsRect [[⟨1, 2, 3⟩, ⟨4, 5, 6⟩]] 1 2 ∧ 0 < 1 ∧
    54 + (3 * 2 + padding_bytes 2) * 1 ≤ 2147483647 ∧
    ∃ out, write_image [[⟨1, 2, 3⟩, ⟨4, 5, 6⟩]] = some out ∧
      out.take 54 =
        [66, 77] ++ littleEndian 4 (54 + (3 * 2 + padding_bytes 2) * 1)
          ++ littleEndian 2 0 ++ littleEndian 2 0 ++ littleEndian 4 54
          ++ littleEndian 4 40 ++ littleEndian 4 2 ++ littleEndian 4 1
          ++ littleEndian 2 1 ++ littleEndian 2 24 ++ littleEndian 4 0
          ++ littleEndian 4 ((3 * 2 + padding_bytes 2) * 1)
          ++ littleEndian 4 2835 ++ littleEndian 4 2835
          ++ littleEndian 4 0 ++ littleEndian 4 0 :=
  ⟨by simp [IsRect], by decide, by decide,
    write_image_header _ 1 2 (by simp [IsRect]) (by decide) (by decide)⟩

/-- Reading back with `get_int` the four bytes `set_bytes` stored for an `int`. -/
theorem get_int_le4 (pre post : List Byte) (v : Int)
    (h1 : -2147483648 ≤ v) (h2 : v ≤ 2147483647) :
    (get_int ⟨pre ++ le4 v ++ post, 0, false⟩ pre.length 4).1 = v := by
  rw [get_int_four _ _ rfl (by simp [le4])]
  simp only []
  have b0 : byteAt (pre ++ le4 v ++ post) pre.length = ((toByte v).val : Int) := by
    have := getElem?_app3_mid pre (le4 v) post 0 (by simp [le4])
    simp only [byteAt, Nat.add_zero] at this ⊢
    rw [this]; rfl
  have b1 : byteAt (pre ++ le4 v ++ post) (pre.length + 1)
      = ((toByte (v >>> (8 : Nat))).val : Int) := by
    have := getElem?_app3_mid pre (le4 v) post 1 (by simp [le4])
    simp only [byteAt] at this ⊢
    rw [this]; rfl
  have b2 : byteAt (pre ++ le4 v ++ post) (pre.length + 2)
      = ((toByte (v >>> (16 : Nat))).val : Int) := by
    have := getElem?_app3_mid pre (le4 v) post 2 (by simp [le4])
    simp only [byteAt] at this ⊢
    rw [this]; rfl
  have b3 : byteAt (pre ++ le4 v ++ post) (pre.length + 3)
      = ((toByte (v >>> (24 : Nat))).val : Int) := by
    have := getElem?_app3_mid pre (le4 v) post 3 (by simp [le4])
    simp only [byteAt] at this ⊢
    rw [this]; rfl
  rw [b0, b1, b2, b3]
  simp only [toByte, Int.shiftRight_eq_div_pow]
  norm_num
  unfold wrap32
  omega

/-- The length of the file `write_image` writes and the value `get_int` reads back
from its file-size field, for any sizes. -/
theorem write_image_size_field {g : Grid} {h w : Nat} (hg : IsRect g h w) (hh : 0 < h) :
    ∃ out, write_image g = some out ∧
      out.length = 54 + h * (3 * w + (enc_padding w).toNat) ∧
      (get_int ⟨out, 0, false⟩ 2 4).1 = wrap32 (54 + enc_array_bytes h w) := by
  obtain ⟨body, e, hbl, _, _⟩ := write_image_eq hg hh
  refine ⟨_, e, ?_, ?_⟩
  · simp only [List.length_append, hbl, le4, List.length_cons, List.length_nil]
  · have hsh : ([66, 77] ++ le4 (wrap32 (54 + enc_array_bytes h w)) ++ [0, 0, 0, 0]
          ++ [54, 0, 0, 0]
        ++ ([40, 0, 0, 0] ++ le4 (w : Int) ++ le4 (h : Int) ++ [1, 0] ++ [24, 0] ++ [0, 0, 0, 0]
          ++ le4 (enc_array_bytes h w) ++ [19, 11, 0, 0] ++ [19, 11, 0, 0] ++ [0, 0, 0, 0]
          ++ [0, 0, 0, 0]) ++ body : List Byte)
        = [66, 77] ++ le4 (wrap32 (54 + enc_array_bytes h w)) ++ ([0, 0, 0, 0]
          ++ [54, 0, 0, 0]
        ++ ([40, 0, 0, 0] ++ le4 (w : Int) ++ le4 (h : Int) ++ [1, 0] ++ [24, 0] ++ [0, 0, 0, 0]
          ++ le4 (enc_array_bytes h w) ++ [19, 11, 0, 0] ++ [19, 11, 0, 0] ++ [0, 0, 0, 0]
          ++ [0, 0, 0, 0]) ++ body) := by
      simp only [List.append_assoc]
    rw [hsh]
    have hlo : -2147483648 ≤ wrap32 (54 + enc_array_bytes h w) := by unfold wrap32; omega
    exact get_int_le4 [66, 77] _ _ hlo (wrap32_le _)

theorem isRect_replicate (n : Nat) (r : List Pixel) : IsRect (List.replicate n r) n r.length := by
  constructor
  · simp
  · intro x hx
    rw [(List.mem_replicate.1 hx).2]

/-- C5 (counterexample): the grid of 536870912 rows of one pixel is encoded into
`54 + 4 * 536870912 = 2147483702` bytes, but `get_int` reads `-2147483594` from the
file-size field at offset 2. -/
theorem write_image_size_field_overflow :
    ∃ out, write_image (List.replicate 536870912 [⟨0, 0, 0⟩]) = some out ∧
      out.length = 2147483702 ∧ (get_int ⟨out, 0, false⟩ 2 4).1 = -2147483594 ∧
      (get_int ⟨out, 0, false⟩ 2 4).1 ≠ (out.length : Int) := by
  obtain ⟨out, e, hl, hf⟩ := write_image_size_field
    (isRect_replicate 536870912 [⟨0, 0, 0⟩]) (by decide)
  have hlen : out.length = 2147483702 := by
    rw [hl]
    have : (enc_padding [(⟨0, 0, 0⟩ : Pixel)].length).toNat = 1 := by decide
    rw [this]
    rfl
  have hfld : (get_int ⟨out, 0, false⟩ 2 4).1 = -2147483594 := by
    rw [hf]
    decide
  refine ⟨out, e, hlen, hfld, ?_⟩
  rw [hfld, hlen]
  decide

/-- C5 (amended): for every rectangular grid of `h ≥ 1` rows and `w` columns whose
encoded size fits a 32-bit `int`, `write_image` writes exactly
`14 + 40 + (3w + padding) * h` bytes with `padding = (4 - (3w) % 4) % 4`, and
`get_int` reads that length back from the file-size field at offset 2. -/
theorem write_image_size (g : Grid) (h w : Nat) (hg : IsRect g h w) (hh : 0 < h)
    (hfit : 14 + 40 + (3 * w + padding_bytes w) * h ≤ 2147483647) :
    ∃ out, write_image g = some out ∧
      out.length = 14 + 40 + (3 * w + padding_bytes w) * h ∧
      (get_int ⟨out, 0, false⟩ 2 4).1 = (out.length : Int) := by
  obtain ⟨out, e, hl, hf⟩ := write_image_size_field hg hh
  have hRle : 3 * w + padding_bytes w ≤ (3 * w + padding_bytes w) * h :=
    Nat.le_mul_of_pos_right _ hh
  have hP := enc_padding_toNat w (by omega)
  have hlen : out.length = 14 + 40 + (3 * w + padding_bytes w) * h := by
    rw [hl, hP, Nat.mul_comm]
  refine ⟨out, e, hlen, ?_⟩
  rw [hf, hlen, enc_array_bytes_eq h w (by omega) hh]
  have hb2 : ((14 + 40 + (3 * w + padding_bytes w) * h : Nat) : Int) ≤ 2147483647 := by
    exact_mod_cast hfit
  have e1 : (54 : Int) + (((3 * w + padding_bytes w) * h : Nat) : Int)
      = ((14 + 40 + (3 * w + padding_bytes w) * h : Nat) : Int) := by
    rw [Nat.cast_add]
    rfl
  rw [e1]
  exact wrap32_of_range (le_trans (by decide) (Int.ofNat_nonneg _)) hb2

theorem write_image_size_witness :
    IsRect [[⟨255, 255, 255⟩, ⟨255, 255, 255⟩, ⟨255, 255, 255⟩, ⟨255, 255, 255⟩],
      [⟨255, 255, 255⟩, ⟨255, 255, 255⟩, ⟨255, 255, 255⟩, ⟨255, 255, 255⟩]] 2 4 ∧
    0 < 2 ∧ 14 + 40 + (3 * 4 + padding_bytes 4) * 2 ≤ 2147483647 ∧
    14 + 40 + (3 * 4 + padding_bytes 4) * 2 = 78 ∧
    ∃ out, write_image [[⟨255, 255, 255⟩, ⟨255, 255, 255⟩, ⟨255, 255, 255⟩, ⟨255, 255, 255⟩],
        [⟨255, 255, 255⟩, ⟨255, 255, 255⟩, ⟨255, 255, 255⟩, ⟨255, 255, 255⟩]] = some out ∧
      out.length = 14 + 40 + (3 * 4 + padding_bytes 4) * 2 ∧
      (get_int ⟨out, 0, false⟩ 2 4).1 = (out.length : Int) :=
  ⟨by simp [IsRect], by decide, by decide, by decide,
    write_image_size _ 2 4 (by simp [IsRect]) (by decide) (by decide)⟩

theorem enc_padding_eq_gen (w : Nat) : enc_padding w = ((padding_bytes w : Nat) : Int) := by
  unfold enc_padding padding_bytes wrap32
  rw [tmod_eq_ite ((↑w * 3 + 2147483648) % 4294967296 - 2147483648) 4 (by decide)]
  split
  · rw [tmod_eq_ite _ _ (by decide), if_pos (by omega)]
    omega
  · rw [tmod_eq_ite _ _ (by decide), if_pos (by omega)]
    omega

theorem enc_padding_toNat_gen (w : Nat) : (enc_padding w).toNat = padding_bytes w := by
  rw [enc_padding_eq_gen w, Int.toNat_ofNat]

theorem px_mem {g : Grid} {i j : Nat} {p : Pixel} (hp : px g i j = some p) :
    ∃ r ∈ g, p ∈ r := by
  rw [px_eq_bind] at hp
  cases hrow : g[i]? with
  | none => simp [hrow] at hp
  | some r =>
    simp only [hrow, Option.some_bind] at hp
    exact ⟨r, List.getElem?_mem hrow, List.getElem?_mem hp⟩

theorem InByteRange.pxD {g : Grid} {h w : Nat} (hb : InByteRange g) (hg : IsRect g h w)
    {i j : Nat} (hi : i < h) (hj : j < w) :
    (0 ≤ (pxD g i j).red ∧ (pxD g i j).red ≤ 255) ∧
    (0 ≤ (pxD g i j).green ∧ (pxD g i j).green ≤ 255) ∧
    (0 ≤ (pxD g i j).blue ∧ (pxD g i j).blue ≤ 255) := by
  obtain ⟨r, hr, hp⟩ := px_mem (hg.pxD_eq hi hj)
  exact hb r hr _ hp

theorem toByte_val_of_range (c : Int) (h0 : 0 ≤ c) (h1 : c ≤ 255) :
    ((toByte c).val : Int) = c := by
  simp only [toByte]
  omega

theorem byteAt_of_getElem? {file : List Byte} {k : Nat} {b : Byte} (h : file[k]? = some b) :
    byteAt file k = (b.val : Int) := by
  simp [byteAt, h]

/-- C6: for every rectangular grid of `h ≥ 1` rows and `w` columns with channels in
`[0, 255]`, the bytes `write_image` writes after the 54-byte header are `h` on-disk
rows of `3w + padding` bytes each (a multiple of 4); on-disk row `k` holds in-memory
row `h - 1 - k`, pixel `j` at bytes `3j .. 3j + 2` as blue, green, red, and the
last `padding` bytes of every on-disk row are zero. -/
theorem write_image_pixel_block (g : Grid) (h w : Nat) (hg : IsRect g h w) (hh : 0 < h)
    (hb : InByteRange g) :
    ∃ out, write_image g = some out ∧
      (out.drop 54).length = h * (3 * w + padding_bytes w) ∧
      (3 * w + padding_bytes w) % 4 = 0 ∧
      (∀ k j, k < h → j < w →
        byteAt (out.drop 54) (k * (3 * w + padding_bytes w) + 3 * j)
          = (pxD g (h - 1 - k) j).blue ∧
        byteAt (out.drop 54) (k * (3 * w + padding_bytes w) + 3 * j + 1)
          = (pxD g (h - 1 - k) j).green ∧
        byteAt (out.drop 54) (k * (3 * w + padding_bytes w) + 3 * j + 2)
          = (pxD g (h - 1 - k) j).red) ∧
      ∀ k u, k < h → u < padding_bytes w →
        byteAt (out.drop 54) (k * (3 * w + padding_bytes w) + 3 * w + u) = 0 := by
  obtain ⟨body, e, hbl, hpix, hpad⟩ := write_image_eq hg hh
  rw [enc_padding_toNat_gen] at hbl hpix hpad
  refine ⟨_, e, ?_, ?_, ?_, ?_⟩
  · rw [List.drop_left' (by simp [le4])]
    exact hbl
  · unfold padding_bytes
    omega
  · intro k j hk hj
    rw [List.drop_left' (by simp [le4])]
    obtain ⟨b1, b2, b3⟩ := hpix k j hk hj
    obtain ⟨r1, r2, r3⟩ := hb.pxD hg (show h - 1 - k < h by omega) hj
    rw [byteAt_of_getElem? b1, byteAt_of_getElem? b2, byteAt_of_getElem? b3]
    exact ⟨toByte_val_of_range _ r3.1 r3.2, toByte_val_of_range _ r2.1 r2.2,
      toByte_val_of_range _ r1.1 r1.2⟩
  · intro k u hk hu
    rw [List.drop_left' (by simp [le4])]
    rw [byteAt_of_getElem? (hpad k u hk hu)]
    rfl

theorem write_image_pixel_block_witness :
    IsRect [[⟨1, 2, 3⟩, ⟨4, 5, 6⟩], [⟨7, 8, 9⟩, ⟨10, 11, 12⟩]] 2 2 ∧ 0 < 2 ∧
    InByteRange [[⟨1, 2, 3⟩, ⟨4, 5, 6⟩], [⟨7, 8, 9⟩, ⟨10, 11, 12⟩]] ∧
    ∃ out, write_image [[⟨1, 2, 3⟩, ⟨4, 5, 6⟩], [⟨7, 8, 9⟩, ⟨10, 11, 12⟩]] = some out ∧
      (out.drop 54).length = 2 * (3 * 2 + padding_bytes 2) ∧
      (3 * 2 + padding_bytes 2) % 4 = 0 ∧
      (∀ k j, k < 2 → j < 2 →
        byteAt (out.drop 54) (k * (3 * 2 + padding_bytes 2) + 3 * j)
          = (pxD [[⟨1, 2, 3⟩, ⟨4, 5, 6⟩], [⟨7, 8, 9⟩, ⟨10, 11, 12⟩]] (2 - 1 - k) j).blue ∧
        byteAt (out.drop 54) (k * (3 * 2 + padding_bytes 2) + 3 * j + 1)
          = (pxD [[⟨1, 2, 3⟩, ⟨4, 5, 6⟩], [⟨7, 8, 9⟩, ⟨10, 11, 12⟩]] (2 - 1 - k) j).green ∧
        byteAt (out.drop 54) (k * (3 * 2 + padding_bytes 2) + 3 * j + 2)
          = (pxD [[⟨1, 2, 3⟩, ⟨4, 5, 6⟩], [⟨7, 8, 9⟩, ⟨10, 11, 12⟩]] (2 - 1 - k) j).red) ∧
      ∀ k u, k < 2 → u < padding_bytes 2 →
        byteAt (out.drop 54) (k * (3 * 2 + padding_bytes 2) + 3 * 2 + u) = 0 :=
  ⟨by simp [IsRect], by decide, by simp [InByteRange],
    write_image_pixel_block _ 2 2 (by simp [IsRect]) (by decide) (by simp [InByteRange])⟩

/-! ## Decoding an encoded grid -/

theorem le4_sum (v : Int) (h1 : -2147483648 ≤ v) (h2 : v ≤ 2147483647) :
    wrap32 (((toByte v).val : Int) + ((toByte (v >>> (8 : Nat))).val : Int) * 256
      + ((toByte (v >>> (16 : Nat))).val : Int) * 65536
      + ((toByte (v >>> (24 : Nat))).val : Int) * 16777216) = v := by
  simp only [toByte, Int.shiftRight_eq_div_pow]
  norm_num
  unfold wrap32
  omega

/-- The header `read_image` gets from the bytes `write_image` wrote. -/
theorem read_header_encoded (X W H A : Int) (body : List Byte)
    (hX : -2147483648 ≤ X ∧ X ≤ 2147483647) (hW : -2147483648 ≤ W ∧ W ≤ 2147483647)
    (hH : -2147483648 ≤ H ∧ H ≤ 2147483647) :
    read_header (([66, 77] ++ le4 X ++ [0, 0, 0, 0] ++ [54, 0, 0, 0])
          ++ ([40, 0, 0, 0] ++ le4 W ++ le4 H ++ [1, 0] ++ [24, 0] ++ [0, 0, 0, 0]
            ++ le4 A ++ [19, 11, 0, 0] ++ [19, 11, 0, 0] ++ [0, 0, 0, 0]
            ++ [0, 0, 0, 0]) ++ body)
      = ⟨X, 54, W, H, 24,
          ⟨([66, 77] ++ le4 X ++ [0, 0, 0, 0] ++ [54, 0, 0, 0])
          ++ ([40, 0, 0, 0] ++ le4 W ++ le4 H ++ [1, 0] ++ [24, 0] ++ [0, 0, 0, 0]
            ++ le4 A ++ [19, 11, 0, 0] ++ [19, 11, 0, 0] ++ [0, 0, 0, 0]
            ++ [0, 0, 0, 0]) ++ body, 30, false⟩⟩ := by
  rw [read_header_of_len _ (by simp [le4])]
  simp only [le4, List.cons_append, List.nil_append, List.append_assoc]
  have e1 := le4_sum X hX.1 hX.2
  have e2 := le4_sum W hW.1 hW.2
  have e3 := le4_sum H hH.1 hH.2
  simp only [byteAt, List.getElem?_cons_succ, List.getElem?_cons_zero]
  rw [e1, e2, e3]
  rfl

theorem rowPad_mul_three (w : Nat) : rowPad (w * 3) = padding_bytes w := by
  unfold rowPad padding_bytes
  split <;> omega

theorem byteAt_append_right (xs ys : List Byte) (k : Nat) :
    byteAt (xs ++ ys) (xs.length + k) = byteAt ys k := by
  unfold byteAt
  rw [List.getElem?_append_right (by omega)]
  simp

/-- Decoding what `write_image` wrote gives the grid back, for a rectangular grid
with at least one row, channels in `[0, 255]`, a row count and an encoded size that
fit an `int`. -/
theorem read_write_image {g : Grid} {h w : Nat} (hg : IsRect g h w) (hh : 0 < h)
    (hb : InByteRange g) (hh31 : h ≤ 2147483647)
    (hfit : 54 + (3 * w + padding_bytes w) * h ≤ 2147483647) :
    ∃ out, write_image g = some out ∧ read_image out = some g := by
  obtain ⟨body, e, hbl, hpix, hpad⟩ := write_image_eq hg hh
  rw [enc_padding_toNat_gen] at hbl hpix
  have hRle : 3 * w + padding_bytes w ≤ (3 * w + padding_bytes w) * h :=
    Nat.le_mul_of_pos_right _ hh
  have hA := enc_array_bytes_eq h w (by omega) hh
  have hb2 : ((54 + (3 * w + padding_bytes w) * h : Nat) : Int) ≤ 2147483647 := by
    exact_mod_cast hfit
  have hX : wrap32 (54 + enc_array_bytes h w)
      = ((54 + (3 * w + padding_bytes w) * h : Nat) : Int) := by
    rw [hA, ← Nat.cast_ofNat (R := Int) (n := 54), ← Nat.cast_add]
    exact wrap32_of_range (le_trans (by decide) (Int.ofNat_nonneg _)) hb2
  have hXr : -2147483648 ≤ wrap32 (54 + enc_array_bytes h w) ∧
      wrap32 (54 + enc_array_bytes h w) ≤ 2147483647 :=
    ⟨by unfold wrap32; omega, wrap32_le _⟩
  have key : ∃ out : List Byte, write_image g = some out ∧
      read_header out = ⟨wrap32 (54 + enc_array_bytes h w), 54, (w : Int), (h : Int), 24,
        ⟨out, 30, false⟩⟩ ∧
      out.length = 54 + (3 * w + padding_bytes w) * h ∧
      ∀ idx, byteAt out (54 + idx) = byteAt body idx := by
    refine ⟨_, e, read_header_encoded _ _ _ _ body hXr ⟨by omega, by omega⟩
      ⟨by omega, by omega⟩, ?_, ?_⟩
    · simp only [List.length_append, hbl, le4, List.length_cons, List.length_nil]
      rw [Nat.mul_comm]
    · intro idx
      have q := byteAt_append_right (([66, 77] ++ le4 (wrap32 (54 + enc_array_bytes h w))
          ++ [0, 0, 0, 0] ++ [54, 0, 0, 0])
        ++ ([40, 0, 0, 0] ++ le4 (w : Int) ++ le4 (h : Int) ++ [1, 0] ++ [24, 0] ++ [0, 0, 0, 0]
          ++ le4 (enc_array_bytes h w) ++ [19, 11, 0, 0] ++ [19, 11, 0, 0] ++ [0, 0, 0, 0]
          ++ [0, 0, 0, 0])) body idx
      simp only [List.length_append, le4, List.length_cons, List.length_nil] at q
      exact q
  clear e
  obtain ⟨out, e, hhd, hlen, hby⟩ := key
  refine ⟨out, e, ?_⟩
  have hcomm : w * 3 = 3 * w := Nat.mul_comm _ _
  obtain ⟨g', e', hr', hpx'⟩ := read_image_of_valid out 54 h w 3
    (by rw [hhd]; rfl) (by rw [hhd]) (by rw [hhd]) (by rw [hhd]; rfl) (Or.inl rfl)
    (by rw [hhd]; simp only []; rw [hX, rowPad_mul_three, hcomm])
    (by rw [hhd]; simp only []; rw [hX, hlen])
  rw [e']
  refine congrArg some (grid_ext hr' hg ?_)
  intro i j hi hj
  rw [hpx' i j hi hj, hg.pxD_eq hi hj, rowPad_mul_three, hcomm]
  have hk : h - 1 - i < h := by omega
  obtain ⟨b1, b2, b3⟩ := hpix (h - 1 - i) j hk hj
  have hii : h - 1 - (h - 1 - i) = i := by omega
  rw [hii] at b1 b2 b3
  obtain ⟨r1, r2, r3⟩ := hb.pxD hg hi hj
  have hj3 : j * 3 = 3 * j := Nat.mul_comm _ _
  have q0 := hby ((h - 1 - i) * (3 * w + padding_bytes w) + 3 * j)
  have q1 := hby ((h - 1 - i) * (3 * w + padding_bytes w) + 3 * j + 1)
  have q2 := hby ((h - 1 - i) * (3 * w + padding_bytes w) + 3 * j + 2)
  simp only [← Nat.add_assoc] at q0 q1 q2
  simp only [filePixel]
  rw [hj3, q0, q1, q2, byteAt_of_getElem? b1, byteAt_of_getElem? b2, byteAt_of_getElem? b3,
    toByte_val_of_range _ r3.1 r3.2, toByte_val_of_range _ r2.1 r2.2,
    toByte_val_of_range _ r1.1 r1.2]

/-! ## Claims about the decoder -/

theorem expected_size_exact (hd : Header) (h1 : FitsInt (exact_row_size hd))
    (h2 : FitsInt (exact_row_size hd + exact_padding hd))
    (h3 : FitsInt ((exact_row_size hd + exact_padding hd) * hd.height))
    (h4 : FitsInt (exact_expected_size hd)) :
    expected_size hd = exact_expected_size hd := by
  have e1 : scanline_size hd = exact_row_size hd := wrap32_of_range h1.1 h1.2
  have e2 : padding hd = exact_padding hd := by
    unfold padding exact_padding
    rw [e1]
  unfold expected_size
  rw [e1, e2, wrap32_of_range h2.1 h2.2, wrap32_of_range h3.1 h3.2]
  exact wrap32_of_range h4.1 h4.2

theorem bad_size_header :
    read_header bad_size_file = ⟨63, 54, 2, 1, 24, ⟨bad_size_file, 30, false⟩⟩ := by
  rw [read_header_of_len _ (by decide)]
  rfl

/-- C2 (counterexample): the header of `wrap_check_file` declares the size
`-2147483645`, which differs from `pixel_data_offset + (row_size + padding) * height
= 2147483647 + (3 + 0 + 1) * 1 = 2147483651`; the sum wraps to the declared size in
the 32-bit test of `read_image`, the test passes and `read_image` returns the
one-pixel grid `[[(-1,-1,-1)]]`, not the empty grid. -/
theorem read_image_wrapped_check_passes :
    (read_header wrap_check_file).file_size = -2147483645 ∧
    (read_header wrap_check_file).start = 2147483647 ∧
    (read_header wrap_check_file).width = 1 ∧
    (read_header wrap_check_file).height = 1 ∧
    (read_header wrap_check_file).bits_per_pixel = 24 ∧
    exact_row_size (read_header wrap_check_file) = 3 ∧
    padding (read_header wrap_check_file) = 1 ∧
    exact_expected_size (read_header wrap_check_file) = 2147483651 ∧
    (read_header wrap_check_file).file_size
      ≠ exact_expected_size (read_header wrap_check_file) ∧
    read_image wrap_check_file = some [[⟨-1, -1, -1⟩]] ∧
    read_image wrap_check_file ≠ some [] := by
  refine ⟨by decide, by decide, by decide, by decide, by decide, by decide, by decide,
    by decide, by decide, by decide, by decide⟩

/-- C2 (amended): whenever the declared file size differs from
`pixel_data_offset + (row_size + padding) * height` (`row_size = width *
(bits_per_pixel / 8)`, padding as `read_image` computes it), taken as exact
integers, and the row size, the padded row size, its product with the height and
the whole sum fit a signed 32-bit `int`, `read_image` returns the empty grid, and
it does so without a fault. -/
theorem read_image_size_mismatch (file : List Byte)
    (h1 : FitsInt (exact_row_size (read_header file)))
    (h2 : FitsInt (exact_row_size (read_header file) + exact_padding (read_header file)))
    (h3 : FitsInt ((exact_row_size (read_header file) + exact_padding (read_header file))
      * (read_header file).height))
    (h4 : FitsInt (exact_expected_size (read_header file)))
    (hne : (read_header file).file_size ≠ exact_expected_size (read_header file)) :
    read_image file = some [] := by
  have h : (read_header file).file_size ≠ expected_size (read_header file) := by
    rw [expected_size_exact _ h1 h2 h3 h4]
    exact hne
  simp only [read_image, h, ne_eq, not_false_eq_true, if_true]

theorem read_image_size_mismatch_witness :
    (read_header bad_size_file).file_size = 63 ∧
    exact_expected_size (read_header bad_size_file) = 62 ∧
    FitsInt (exact_row_size (read_header bad_size_file)) ∧
    FitsInt (exact_row_size (read_header bad_size_file)
      + exact_padding (read_header bad_size_file)) ∧
    FitsInt ((exact_row_size (read_header bad_size_file)
      + exact_padding (read_header bad_size_file)) * (read_header bad_size_file).height) ∧
    FitsInt (exact_expected_size (read_header bad_size_file)) ∧
    (read_header bad_size_file).file_size ≠ exact_expected_size (read_header bad_size_file) ∧
    read_image bad_size_file = some [] :=
  ⟨by rw [bad_size_header], by rw [bad_size_header]; decide,
    by rw [bad_size_header]; decide, by rw [bad_size_header]; decide,
    by rw [bad_size_header]; decide, by rw [bad_size_header]; decide,
    by rw [bad_size_header]; decide,
    read_image_size_mismatch bad_size_file (by rw [bad_size_header]; decide)
      (by rw [bad_size_header]; decide) (by rw [bad_size_header]; decide)
      (by rw [bad_size_header]; decide) (by rw [bad_size_header]; decide)⟩

theorem pixel_offset_bound (S h w d p i j : Nat) (hi : i < h) (hj : j < w) :
    S + (h - 1 - i) * (w * d + p) + j * d + d ≤ S + (w * d + p) * h := by
  have h1 : (h - 1 - i + 1) * (w * d + p) ≤ h * (w * d + p) :=
    Nat.mul_le_mul_right _ (by omega)
  have h2 : (h - 1 - i + 1) * (w * d + p) = (h - 1 - i) * (w * d + p) + (w * d + p) :=
    Nat.succ_mul _ _
  have h3 : (j + 1) * d ≤ w * d := Nat.mul_le_mul_right _ hj
  have h4 : (j + 1) * d = j * d + d := Nat.succ_mul _ _
  have h5 : h * (w * d + p) = (w * d + p) * h := Nat.mul_comm _ _
  omega

/-- C3 (counterexample): two files that pass the size test of `read_image`, with
width 1, 24 bits per pixel and all declared bytes present.  For `neg_offset_file`
(offset `-4`, height 2, declared size `4 = -4 + (3 + 1) * 2`) the pixel `[0][0]`
should be the three file bytes from offset `-4 + (2-1-0) * (3+1) + 0 = 0`, which are
`66, 77, 4`; `read_image` returns `(-1,-1,-1)` there, because the `seekg(-4)` of the
first row read has failed.  For `wrap_check_file` the test passes only by 32-bit
wrap-around, the offset `2147483647` lies past the 58 bytes of the file, and
`read_image` returns `(-1,-1,-1)`. -/
theorem read_image_pixel_mapping_fails :
    ((read_header neg_offset_file).file_size = expected_size (read_header neg_offset_file) ∧
      (read_header neg_offset_file).file_size = 4 ∧
      (read_header neg_offset_file).start = -4 ∧
      (read_header neg_offset_file).width = 1 ∧
      (read_header neg_offset_file).height = 2 ∧
      (read_header neg_offset_file).bits_per_pixel = 24 ∧
      exact_expected_size (read_header neg_offset_file) = 4 ∧
      neg_offset_file.length = 62 ∧
      (-4 : Int) + (2 - 1 - 0) * (3 + 1) + 0 * 3 = 0 ∧
      byteAt neg_offset_file 0 = 66 ∧ byteAt neg_offset_file 1 = 77 ∧
      byteAt neg_offset_file 2 = 4 ∧
      read_image neg_offset_file = some [[⟨-1, -1, -1⟩], [⟨-1, -1, -1⟩]]) ∧
    ((read_header wrap_check_file).file_size = expected_size (read_header wrap_check_file) ∧
      (read_header wrap_check_file).file_size = -2147483645 ∧
      (read_header wrap_check_file).start = 2147483647 ∧
      (read_header wrap_check_file).width = 1 ∧
      (read_header wrap_check_file).height = 1 ∧
      (read_header wrap_check_file).bits_per_pixel = 24 ∧
      exact_expected_size (read_header wrap_check_file) = 2147483651 ∧
      wrap_check_file.length = 58 ∧
      read_image wrap_check_file = some [[⟨-1, -1, -1⟩]]) := by
  refine ⟨⟨by decide, by decide, by decide, by decide, by decide, by decide, by decide,
    by decide, by decide, by decide, by decide, by decide, by decide⟩,
    ⟨by decide, by decide, by decide, by decide, by decide, by decide, by decide,
    by decide, by decide⟩⟩

/-- C3 (amended): for every file whose header declares a pixel array offset
`S ≥ 0`, width `w ≥ 0`, height `h ≥ 0` (in particular every `h ≥ 1`) and 24 or 32
bits per pixel (`d = bits_per_pixel / 8` bytes), whose declared size is exactly
`S + (w*d + padding) * h` as integers (the size check passes without 32-bit
wrap-around) and which has at least that many bytes, `read_image` returns a grid of
exactly `h` rows of `w` pixels, and the pixel at `[i][j]` has blue, green and red
equal to the three consecutive file bytes from offset
`S + (h-1-i) * (w*d + padding) + j*d`: rows are flipped, channels are read as B, G,
R, alpha and padding bytes are skipped. -/
theorem read_image_pixel_mapping (file : List Byte) (S h w d : Nat)
    (hS : (read_header file).start = S) (hw : (read_header file).width = w)
    (hh : (read_header file).height = h)
    (hb : (read_header file).bits_per_pixel = 8 * d) (hd : d = 3 ∨ d = 4)
    (hcheck : (read_header file).file_size = ((S + (w * d + rowPad (w * d)) * h : Nat) : Int))
    (hpres : (read_header file).file_size ≤ file.length) :
    ∃ g, read_image file = some g ∧ IsRect g h w ∧
      ∀ i j, i < h → j < w →
        S + (h - 1 - i) * (w * d + rowPad (w * d)) + j * d + 3 ≤ file.length ∧
        ∃ p, px g i j = some p ∧
          p.blue = byteAt file (S + (h - 1 - i) * (w * d + rowPad (w * d)) + j * d) ∧
          p.green = byteAt file (S + (h - 1 - i) * (w * d + rowPad (w * d)) + j * d + 1) ∧
          p.red = byteAt file (S + (h - 1 - i) * (w * d + rowPad (w * d)) + j * d + 2) := by
  obtain ⟨g, e, hr, hpx⟩ := read_image_of_valid file S h w d hS hw hh hb hd hcheck hpres
  refine ⟨g, e, hr, fun i j hi hj => ⟨?_, _, hpx i j hi hj, rfl, rfl, rfl⟩⟩
  have hb1 := pixel_offset_bound S h w d (rowPad (w * d)) i j hi hj
  have hl : S + (w * d + rowPad (w * d)) * h ≤ file.length := by
    rw [hcheck] at hpres
    exact_mod_cast hpres
  omega

theorem sample_header :
    read_header sample_file = ⟨62, 54, 2, 1, 24, ⟨sample_file, 30, false⟩⟩ := by
  rw [read_header_of_len _ (by decide)]
  rfl

theorem read_image_pixel_mapping_witness :
    (read_header sample_file).start = (54 : Nat) ∧
    (read_header sample_file).width = (2 : Nat) ∧
    (read_header sample_file).height = (1 : Nat) ∧
    (read_header sample_file).bits_per_pixel = 8 * (3 : Nat) ∧
    (read_header sample_file).file_size
      = ((54 + (2 * 3 + rowPad (2 * 3)) * 1 : Nat) : Int) ∧
    (read_header sample_file).file_size ≤ sample_file.length ∧
    ∃ g, read_image sample_file = some g ∧ IsRect g 1 2 ∧
      ∀ i j, i < 1 → j < 2 →
        54 + (1 - 1 - i) * (2 * 3 + rowPad (2 * 3)) + j * 3 + 3 ≤ sample_file.length ∧
        ∃ p, px g i j = some p ∧
          p.blue = byteAt sample_file (54 + (1 - 1 - i) * (2 * 3 + rowPad (2 * 3)) + j * 3) ∧
          p.green
            = byteAt sample_file (54 + (1 - 1 - i) * (2 * 3 + rowPad (2 * 3)) + j * 3 + 1) ∧
          p.red
            = byteAt sample_file (54 + (1 - 1 - i) * (2 * 3 + rowPad (2 * 3)) + j * 3 + 2) :=
  ⟨by rw [sample_header]; rfl, by rw [sample_header]; rfl, by rw [sample_header]; rfl,
    by rw [sample_header]; rfl, by rw [sample_header]; rfl,
    by rw [sample_header]; decide,
    read_image_pixel_mapping sample_file 54 1 2 3 (by rw [sample_header]; rfl)
      (by rw [sample_header]; rfl) (by rw [sample_header]; rfl) (by rw [sample_header]; rfl)
      (Or.inl rfl) (by rw [sample_header]; rfl) (by rw [sample_header]; decide)⟩

theorem read_header_height_le (file : List Byte) (hlen : 30 ≤ file.length) :
    (read_header file).height ≤ 2147483647 := by
  rw [read_header_of_len file hlen]
  exact wrap32_le _

theorem inByteRange_of_px {g : Grid} {h w : Nat} (hg : IsRect g h w)
    (hpx : ∀ i j, i < h → j < w → ∃ p, px g i j = some p ∧
      (0 ≤ p.red ∧ p.red ≤ 255) ∧ (0 ≤ p.green ∧ p.green ≤ 255) ∧
      (0 ≤ p.blue ∧ p.blue ≤ 255)) : InByteRange g := by
  intro r hr p hp
  obtain ⟨i, hi⟩ := List.getElem?_of_mem hr
  obtain ⟨j, hj⟩ := List.getElem?_of_mem hp
  have e : px g i j = some p := by
    rw [px_eq_bind, hi]
    exact hj
  obtain ⟨hi', hj'⟩ := px_lt_of_some hg e
  obtain ⟨q, hq, hrange⟩ := hpx i j hi' hj'
  rw [e] at hq
  cases hq
  exact hrange

/-- The round trip through the codec for a valid file whose re-encoding fits an
`int`: decoding, encoding and decoding again gives the first decoded grid. -/
theorem decode_encode_decode (file : List Byte) (S h w d : Nat)
    (hS : (read_header file).start = S) (hw : (read_header file).width = w)
    (hh : (read_header file).height = h) (hh1 : 1 ≤ h)
    (hb : (read_header file).bits_per_pixel = 8 * d) (hd : d = 3 ∨ d = 4)
    (hcheck : (read_header file).file_size = ((S + (w * d + rowPad (w * d)) * h : Nat) : Int))
    (hpres : (read_header file).file_size ≤ file.length)
    (hfit : 54 + (3 * w + padding_bytes w) * h ≤ 2147483647) :
    ∃ g out, read_image file = some g ∧ IsRect g h w ∧ write_image g = some out ∧
      read_image out = some g := by
  obtain ⟨g, e, hr, hpx⟩ := read_image_of_valid file S h w d hS hw hh hb hd hcheck hpres
  have hlen : 30 ≤ file.length := by
    by_contra hc
    have := read_header_bpp_neg file (by omega)
    omega
  have hh31 : h ≤ 2147483647 := by
    have := read_header_height_le file hlen
    rw [hh] at this
    exact_mod_cast this
  have hl : S + (w * d + rowPad (w * d)) * h ≤ file.length := by
    rw [hcheck] at hpres
    exact_mod_cast hpres
  have hbr : InByteRange g := by
    apply inByteRange_of_px hr
    intro i j hi hj
    refine ⟨_, hpx i j hi hj, ?_⟩
    have hb1 := pixel_offset_bound S h w d (rowPad (w * d)) i j hi hj
    have hd3 : 3 ≤ d := by omega
    have b0 := byteAt_nonneg_of_lt file
      (S + (h - 1 - i) * (w * d + rowPad (w * d)) + j * d) (by omega)
    have b1 := byteAt_nonneg_of_lt file
      (S + (h - 1 - i) * (w * d + rowPad (w * d)) + j * d + 1) (by omega)
    have b2 := byteAt_nonneg_of_lt file
      (S + (h - 1 - i) * (w * d + rowPad (w * d)) + j * d + 2) (by omega)
    exact ⟨b2, b1, b0⟩
  obtain ⟨out, e1, e2⟩ := read_write_image hr (by omega) hbr hh31 hfit
  exact ⟨g, out, e, hr, e1, e2⟩

/-- C1 (amended): round trip through the codec.  For every input file whose header
declares a pixel array offset `S ≥ 0`, width `w ≥ 0`, height `h ≥ 1` and 24 or 32
bits per pixel (`d` bytes), whose declared size is exactly `S + (w*d + padding) * h`
as integers (the size check passes without 32-bit wrap-around), which has at least
that many bytes, and whose re-encoding `54 + (3*w + padding) * h` fits a 32-bit
`int`, `read_image` returns a grid `g` of `h` rows of `w` pixels, `write_image g`
succeeds, and `read_image` of the bytes written is `g` again: the same dimensions
and the same channels. -/
theorem codec_round_trip (file : List Byte) (S h w d : Nat)
    (hS : (read_header file).start = S) (hw : (read_header file).width = w)
    (hh : (read_header file).height = h) (hh1 : 1 ≤ h)
    (hb : (read_header file).bits_per_pixel = 8 * d) (hd : d = 3 ∨ d = 4)
    (hcheck : (read_header file).file_size = ((S + (w * d + rowPad (w * d)) * h : Nat) : Int))
    (hpres : (read_header file).file_size ≤ file.length)
    (hfit : 54 + (3 * w + padding_bytes w) * h ≤ 2147483647) :
    ∃ g, read_image file = some g ∧ IsRect g h w ∧
      ((read_image file).bind write_image).bind read_image = read_image file := by
  obtain ⟨g, out, e, hr, e1, e2⟩ :=
    decode_encode_decode file S h w d hS hw hh hh1 hb hd hcheck hpres hfit
  refine ⟨g, e, hr, ?_⟩
  rw [e, Option.some_bind, e1, Option.some_bind, e2]

theorem codec_round_trip_witness :
    (read_header sample_file).start = (54 : Nat) ∧
    (read_header sample_file).width = (2 : Nat) ∧
    (read_header sample_file).height = (1 : Nat) ∧ 1 ≤ 1 ∧
    (read_header sample_file).bits_per_pixel = 8 * (3 : Nat) ∧
    (read_header sample_file).file_size
      = ((54 + (2 * 3 + rowPad (2 * 3)) * 1 : Nat) : Int) ∧
    (read_header sample_file).file_size ≤ sample_file.length ∧
    54 + (3 * 2 + padding_bytes 2) * 1 ≤ 2147483647 ∧
    ∃ g, read_image sample_file = some g ∧ IsRect g 1 2 ∧
      ((read_image sample_file).bind write_image).bind read_image = read_image sample_file :=
  ⟨by rw [sample_header]; rfl, by rw [sample_header]; rfl, by rw [sample_header]; rfl,
    by decide, by rw [sample_header]; rfl, by rw [sample_header]; rfl,
    by rw [sample_header]; decide, by decide,
    codec_round_trip sample_file 54 1 2 3 (by rw [sample_header]; rfl)
      (by rw [sample_header]; rfl) (by rw [sample_header]; rfl) (by decide)
      (by rw [sample_header]; rfl) (Or.inl rfl) (by rw [sample_header]; rfl)
      (by rw [sample_header]; decide) (by decide)⟩

/-! ## Claims about the transforms -/

/-- C11: for every rectangular grid of `h ≥ 1` rows and `w` columns, `process_4`
returns a grid of `w` rows of `h` pixels with `process_4(g)[col][h-1-row] =
g[row][col]` for all `row < h`, `col < w`, and every output cell `[a][b]` is the
image of exactly one input cell, so no cell keeps its default value. -/
theorem process_4_pixel_mapping (g : Grid) (h w : Nat) (hg : IsRect g h w) (hh : 0 < h) :
    ∃ out, process_4 g = some out ∧ IsRect out w h ∧
      (∀ row col, row < h → col < w →
        ∃ p, px g row col = some p ∧ px out col (h - 1 - row) = some p) ∧
      ∀ a b, a < w → b < h →
        ∃! rc : Nat × Nat, rc.1 < h ∧ rc.2 < w ∧ rc.2 = a ∧ h - 1 - rc.1 = b := by
  refine ⟨_, process_4_eq hg hh, isRect_tab w h _, ?_, ?_⟩
  · intro row col hrow hcol
    refine ⟨pxD g row col, hg.pxD_eq hrow hcol, ?_⟩
    rw [px_tab _ hcol (by omega)]
    congr 2
    omega
  · intro a b ha hb
    refine ⟨(h - 1 - b, a), ⟨by simp only; omega, ha, rfl, by simp only; omega⟩, ?_⟩
    rintro ⟨r, c⟩ ⟨h1, h2, h3, h4⟩
    simp only at h1 h2 h3 h4
    simp only [Prod.mk.injEq]
    omega

theorem process_4_pixel_mapping_witness :
    IsRect [[⟨1, 2, 3⟩, ⟨4, 5, 6⟩, ⟨7, 8, 9⟩]] 1 3 ∧ 0 < 1 ∧
    ∃ out, process_4 [[⟨1, 2, 3⟩, ⟨4, 5, 6⟩, ⟨7, 8, 9⟩]] = some out ∧ IsRect out 3 1 ∧
      (∀ row col, row < 1 → col < 3 →
        ∃ p, px [[⟨1, 2, 3⟩, ⟨4, 5, 6⟩, ⟨7, 8, 9⟩]] row col = some p ∧
          px out col (1 - 1 - row) = some p) ∧
      ∀ a b, a < 3 → b < 1 →
        ∃! rc : Nat × Nat, rc.1 < 1 ∧ rc.2 < 3 ∧ rc.2 = a ∧ 1 - 1 - rc.1 = b :=
  ⟨by simp [IsRect], by decide,
    process_4_pixel_mapping _ 1 3 (by simp [IsRect]) (by decide)⟩

theorem tdiv_natCast (a b : Nat) : ((a : Int)).tdiv (b : Int) = ((a / b : Nat) : Int) := by
  rw [Int.tdiv_eq_ediv (by omega) (by omega)]
  rfl

/-- The enlargement by positive factors whose products with the dimensions fit an
`int`: `process_6` returns the grid of block-replicated pixels. -/
theorem process_6_eq {g : Grid} {h w : Nat} (hg : IsRect g h w) (hh : 0 < h) (X Y : Nat)
    (hX : 0 < X) (hY : 0 < Y) (hfx : w * X ≤ 2147483647) (hfy : h * Y ≤ 2147483647) :
    process_6 g (X : Int) (Y : Int)
      = some (tab (h * Y) (w * X) (fun a b => pxD g (a / Y) (b / X))) := by
  obtain ⟨r0, e0, l0⟩ := hg.head hh
  have hlen : g.length = h := hg.1
  have ey : wrap32 ((h : Int) * (Y : Int)) = ((h * Y : Nat) : Int) := by
    have hb2 : ((h * Y : Nat) : Int) ≤ 2147483647 := by exact_mod_cast hfy
    rw [← Nat.cast_mul]
    exact wrap32_of_range (le_trans (by decide) (Int.ofNat_nonneg _)) hb2
  have ex : wrap32 ((w : Int) * (X : Int)) = ((w * X : Nat) : Int) := by
    have hb2 : ((w * X : Nat) : Int) ≤ 2147483647 := by exact_mod_cast hfx
    rw [← Nat.cast_mul]
    exact wrap32_of_range (le_trans (by decide) (Int.ofNat_nonneg _)) hb2
  have hneg : ¬ ((((w * X : Nat) : Int) < 0) ∨ (((h * Y : Nat) : Int) < 0)) :=
    not_or.2 ⟨not_lt.2 (Int.ofNat_nonneg _), not_lt.2 (Int.ofNat_nonneg _)⟩
  have hz : ¬ ((Y : Int) = 0 ∨ (X : Int) = 0) := by omega
  unfold process_6
  simp only [e0]
  rw [Option.bind_eq_bind, Option.some_bind]
  rw [l0, hlen, ey, ex, if_neg hneg]
  simp only [Int.toNat_ofNat]
  refine paints_all_eq_tab
    (S := fun a b => ∃ row, row < h * Y ∧ ∃ col, col < w * X ∧ (a = row ∧ b = col))
    ?_ ?_ (isRect_newGrid (h * Y) (w * X))
  · apply forUp_paints
    intro row hrow
    apply forUp_paints
    intro col hcol
    have hr : row / Y < h := (Nat.div_lt_iff_lt_mul hY).2 hrow
    have hc : col / X < w := (Nat.div_lt_iff_lt_mul hX).2 hcol
    have hn : ¬ ((((row / Y : Nat)) : Int) < 0 ∨ (((col / X : Nat)) : Int) < 0) :=
      not_or.2 ⟨not_lt.2 (Int.ofNat_nonneg _), not_lt.2 (Int.ofNat_nonneg _)⟩
    have hbody : (fun new_image : Grid =>
        if (Y : Int) = 0 ∨ (X : Int) = 0 then none
        else
          if (row : Int).tdiv (Y : Int) < 0 ∨ (col : Int).tdiv (X : Int) < 0 then none
          else do
            let red_color := (← px g ((row : Int).tdiv (Y : Int)).toNat
              ((col : Int).tdiv (X : Int)).toNat).red
            let green_color := (← px g ((row : Int).tdiv (Y : Int)).toNat
              ((col : Int).tdiv (X : Int)).toNat).green
            let blue_color := (← px g ((row : Int).tdiv (Y : Int)).toNat
              ((col : Int).tdiv (X : Int)).toNat).blue
            let new_image ← setRed new_image row col red_color
            let new_image ← setGreen new_image row col green_color
            setBlue new_image row col blue_color)
        = fun new_image : Grid => (setRed new_image row col (pxD g (row / Y) (col / X)).red).bind
            fun g1 => (setGreen g1 row col (pxD g (row / Y) (col / X)).green).bind fun g2 =>
              setBlue g2 row col (pxD g (row / Y) (col / X)).blue := by
      funext new_image
      rw [if_neg hz, tdiv_natCast, tdiv_natCast, if_neg hn, Int.toNat_ofNat, Int.toNat_ofNat,
        hg.pxD_eq hr hc]
      rfl
    exact hbody ▸ store3_paints hrow hcol _ rfl
  · intro a b ha hb
    exact ⟨a, ha, b, hb, rfl, rfl⟩

/-- C12 (counterexample): enlarging a grid of two rows by the positive factors
`xscale = 1`, `yscale = 1073741824` overflows `y = num_rows * yscale`; the vector
of `y` rows cannot be built and no grid of `2 * 1073741824` rows results. -/
theorem process_6_overflow :
    (0 : Int) < 1 ∧ (0 : Int) < 1073741824 ∧
    wrap32 (2 * 1073741824) = -2147483648 ∧
    process_6 [[⟨1, 2, 3⟩], [⟨4, 5, 6⟩]] 1 1073741824 = none := by
  decide

/-- C12 (amended): for every rectangular grid of `h ≥ 1` rows and `w` columns and
all positive factors `xscale`, `yscale` with `w * xscale` and `h * yscale` fitting
a 32-bit `int`, `process_6` returns a grid of `h * yscale` rows of `w * xscale`
pixels whose pixel at `[row][col]` is `g[row / yscale][col / xscale]`, every read
being in bounds. -/
theorem process_6_block_replication (g : Grid) (h w : Nat) (hg : IsRect g h w) (hh : 0 < h)
    (xscale yscale : Nat) (hX : 0 < xscale) (hY : 0 < yscale)
    (hfx : w * xscale ≤ 2147483647) (hfy : h * yscale ≤ 2147483647) :
    ∃ out, process_6 g (xscale : Int) (yscale : Int) = some out ∧
      IsRect out (h * yscale) (w * xscale) ∧
      ∀ row col, row < h * yscale → col < w * xscale →
        row / yscale < h ∧ col / xscale < w ∧
        ∃ p, px g (row / yscale) (col / xscale) = some p ∧ px out row col = some p := by
  refine ⟨_, process_6_eq hg hh xscale yscale hX hY hfx hfy, isRect_tab _ _ _, ?_⟩
  intro row col hrow hcol
  have hr : row / yscale < h := (Nat.div_lt_iff_lt_mul hY).2 hrow
  have hc : col / xscale < w := (Nat.div_lt_iff_lt_mul hX).2 hcol
  exact ⟨hr, hc, pxD g (row / yscale) (col / xscale), hg.pxD_eq hr hc, px_tab _ hrow hcol⟩

theorem process_6_block_replication_witness :
    IsRect [[⟨10, 20, 30⟩]] 1 1 ∧ 0 < 1 ∧ 0 < 3 ∧ 0 < 2 ∧ 1 * 3 ≤ 2147483647 ∧
    1 * 2 ≤ 2147483647 ∧
    process_6 [[⟨10, 20, 30⟩]] 3 2
      = some [[⟨10, 20, 30⟩, ⟨10, 20, 30⟩, ⟨10, 20, 30⟩],
              [⟨10, 20, 30⟩, ⟨10, 20, 30⟩, ⟨10, 20, 30⟩]] ∧
    ∃ out, process_6 [[⟨10, 20, 30⟩]] ((3 : Nat) : Int) ((2 : Nat) : Int) = some out ∧
      IsRect out (1 * 2) (1 * 3) ∧
      ∀ row col, row < 1 * 2 → col < 1 * 3 →
        row / 2 < 1 ∧ col / 3 < 1 ∧
        ∃ p, px [[⟨10, 20, 30⟩]] (row / 2) (col / 3) = some p ∧ px out row col = some p :=
  ⟨by simp [IsRect], by decide, by decide, by decide, by decide, by decide, by decide,
    process_6_block_replication _ 1 1 (by simp [IsRect]) (by decide) 3 2 (by decide)
      (by decide) (by decide) (by decide)⟩

/-- A pair of nested loops that stores `f row col (image[row][col])` into
`new_image[row][col]` yields the grid tabulated from `f`. -/
theorem pointwise_eq_tab (g : Grid) (h w : Nat)
    (f : Nat → Nat → Pixel → Pixel) (body : Nat → Nat → Grid → Option Grid)
    (hbody : ∀ row col, row < h → col < w → ∀ ni : Grid,
      body row col ni = (setRed ni row col (f row col (pxD g row col)).red).bind fun g1 =>
        (setGreen g1 row col (f row col (pxD g row col)).green).bind fun g2 =>
          setBlue g2 row col (f row col (pxD g row col)).blue) :
    forUp h (fun row ni => forUp w (fun col ni => body row col ni) ni) (newGrid h w)
      = some (tab h w (fun a b => f a b (pxD g a b))) := by
  refine paints_all_eq_tab
    (S := fun a b => ∃ row, row < h ∧ ∃ col, col < w ∧ (a = row ∧ b = col))
    ?_ ?_ (isRect_newGrid h w)
  · apply forUp_paints
    intro row hrow
    apply forUp_paints
    intro col hcol
    have hb : (fun ni => body row col ni)
        = fun ni => (setRed ni row col (f row col (pxD g row col)).red).bind fun g1 =>
          (setGreen g1 row col (f row col (pxD g row col)).green).bind fun g2 =>
            setBlue g2 row col (f row col (pxD g row col)).blue :=
      funext (hbody row col hrow hcol)
    exact hb ▸ store3_paints hrow hcol _ rfl
  · intro a b ha hb
    exact ⟨a, ha, b, hb, rfl, rfl⟩

theorem process_3_eq (M : FloatModel) {g : Grid} {h w : Nat}
    (hg : IsRect g h w) (hh : 0 < h) :
    process_3 M g = some (tab h w (fun a b => grayPixel M (pxD g a b))) := by
  obtain ⟨r0, e0, l0⟩ := hg.head hh
  unfold process_3
  simp only [e0]
  rw [Option.bind_eq_bind, Option.some_bind, l0, hg.1]
  apply pointwise_eq_tab g h w (fun _ _ p => grayPixel M p)
  intro row col hrow hcol ni
  simp only [hg.pxD_eq hrow hcol, Option.bind_eq_bind, Option.some_bind]
  rfl

theorem process_7_eq (M : FloatModel) {g : Grid} {h w : Nat}
    (hg : IsRect g h w) (hh : 0 < h) :
    process_7 M g = some (tab h w (fun a b => contrastPixel M (pxD g a b))) := by
  obtain ⟨r0, e0, l0⟩ := hg.head hh
  unfold process_7
  simp only [e0]
  rw [Option.bind_eq_bind, Option.some_bind, l0, hg.1]
  apply pointwise_eq_tab g h w (fun _ _ p => contrastPixel M p)
  intro row col hrow hcol ni
  simp only [hg.pxD_eq hrow hcol, Option.bind_eq_bind, Option.some_bind]
  unfold contrastPixel avg3
  split <;> rfl

theorem process_10_eq {g : Grid} {h w : Nat} (hg : IsRect g h w) (hh : 0 < h) :
    process_10 g = some (tab h w (fun a b => posterizePixel (pxD g a b))) := by
  obtain ⟨r0, e0, l0⟩ := hg.head hh
  unfold process_10
  simp only [e0]
  rw [Option.bind_eq_bind, Option.some_bind, l0, hg.1]
  apply pointwise_eq_tab g h w (fun _ _ p => posterizePixel p)
  intro row col hrow hcol ni
  simp only [hg.pxD_eq hrow hcol, Option.bind_eq_bind, Option.some_bind, ge_iff_le]
  unfold posterizePixel
  split
  · rfl
  · split
    · rfl
    · split
      · rfl
      · split <;> rfl

theorem process_8_eq (M : FloatModel) (s : M.D) {g : Grid} {h w : Nat}
    (hg : IsRect g h w) (hh : 0 < h) :
    process_8 M g s = some (tab h w (fun a b => lightenPixel M s (pxD g a b))) := by
  obtain ⟨r0, e0, l0⟩ := hg.head hh
  unfold process_8
  simp only [e0]
  rw [Option.bind_eq_bind, Option.some_bind, l0, hg.1]
  apply pointwise_eq_tab g h w (fun _ _ p => lightenPixel M s p)
  intro row col hrow hcol ni
  simp only [hg.pxD_eq hrow hcol, Option.bind_eq_bind, Option.some_bind]
  rfl

theorem process_9_eq (M : FloatModel) (s : M.D) {g : Grid} {h w : Nat}
    (hg : IsRect g h w) (hh : 0 < h) :
    process_9 M g s = some (tab h w (fun a b => darkenPixel M s (pxD g a b))) := by
  obtain ⟨r0, e0, l0⟩ := hg.head hh
  unfold process_9
  simp only [e0]
  rw [Option.bind_eq_bind, Option.some_bind, l0, hg.1]
  apply pointwise_eq_tab g h w (fun _ _ p => darkenPixel M s p)
  intro row col hrow hcol ni
  simp only [hg.pxD_eq hrow hcol, Option.bind_eq_bind, Option.some_bind]
  rfl

theorem process_2_eq (M : FloatModel) (s : M.D) {g : Grid} {h w : Nat}
    (hg : IsRect g h w) (hh : 0 < h) :
    process_2 M g s = some (tab h w (fun a b => clarendonPixel M s (pxD g a b))) := by
  obtain ⟨r0, e0, l0⟩ := hg.head hh
  unfold process_2
  simp only [e0]
  rw [Option.bind_eq_bind, Option.some_bind, l0, hg.1]
  apply pointwise_eq_tab g h w (fun _ _ p => clarendonPixel M s p)
  intro row col hrow hcol ni
  simp only [hg.pxD_eq hrow hcol, Option.bind_eq_bind, Option.some_bind, ge_iff_le]
  unfold clarendonPixel avg3
  split
  · rfl
  · split <;> rfl

theorem process_1_eq (M : FloatModel) (C : CMath M) {g : Grid} {h w : Nat}
    (hg : IsRect g h w) (hh : 0 < h) :
    process_1 M C g = some (tab h w (fun a b => vignettePixel M C h w a b (pxD g a b))) := by
  obtain ⟨r0, e0, l0⟩ := hg.head hh
  unfold process_1
  simp only [e0]
  rw [Option.bind_eq_bind, Option.some_bind, l0, hg.1]
  apply pointwise_eq_tab g h w (fun a b p => vignettePixel M C h w a b p)
  intro row col hrow hcol ni
  simp only [hg.pxD_eq hrow hcol, Option.bind_eq_bind, Option.some_bind]
  rfl

/-! ### Rounding to binary64 -/

/-- The function `natSqrt` with enough fuel is the integer square root. -/
theorem natSqrt_eq (k : Nat) : ∀ n : Nat, n < 4 ^ k → natSqrt k n = Nat.sqrt n := by
  induction k with
  | zero =>
    intro n hn
    have : n = 0 := by simpa using hn
    subst this; simp [natSqrt]
  | succ k ih =>
    intro n hn
    have h4 : n / 4 < 4 ^ k := by
      rw [Nat.div_lt_iff_lt_mul (by norm_num)]
      rw [pow_succ] at hn; exact hn
    have hs := ih (n / 4) h4
    have h1 : Nat.sqrt (n / 4) * Nat.sqrt (n / 4) ≤ n / 4 := Nat.sqrt_le _
    have h2 : n / 4 < (Nat.sqrt (n / 4) + 1) * (Nat.sqrt (n / 4) + 1) := Nat.lt_succ_sqrt _
    simp only [natSqrt, hs]
    generalize Nat.sqrt (n / 4) = s at h1 h2
    have h3 : 4 * (n / 4) ≤ n := Nat.mul_div_le n 4
    have h5 : n < 4 * (n / 4) + 4 := by omega
    split_ifs with hc
    · rw [Nat.eq_sqrt]
      refine ⟨hc, ?_⟩
      nlinarith
    · rw [Nat.eq_sqrt]
      refine ⟨by nlinarith, by push_neg at hc; exact hc⟩

/-- The integer square root inside `sqrtDouble` is the floor of the square root: the
quotient `q / 4 ^ e` is below `4 ^ 64`. -/
theorem sqrtDouble_natSqrt (q : ℚ) (hq : 0 < q) :
    natSqrt 64 ⌊q / 2 ^ (2 * max (Int.log 2 q / 2 - 52) (-1074))⌋₊
      = Nat.sqrt ⌊q / 2 ^ (2 * max (Int.log 2 q / 2 - 52) (-1074))⌋₊ := by
  apply natSqrt_eq
  have hL : q < (2 : ℚ) ^ (Int.log 2 q + 1) := by
    have := Int.lt_zpow_succ_log_self (b := 2) (by norm_num) q
    simpa using this
  generalize Int.log 2 q = L at hL
  have he : L + 1 ≤ 128 + 2 * max (L / 2 - 52) (-1074) := by
    have := le_max_left (L / 2 - 52) (-1074)
    omega
  generalize max (L / 2 - 52) (-1074) = e at he
  have hpos : (0 : ℚ) < 2 ^ (2 * e) := zpow_pos (by norm_num) _
  rw [Nat.floor_lt (le_of_lt (div_pos hq hpos))]
  rw [div_lt_iff₀ hpos]
  calc q < (2 : ℚ) ^ (L + 1) := hL
    _ ≤ (2 : ℚ) ^ (128 + 2 * e) := zpow_le_zpow_right₀ (by norm_num) he
    _ = ((4 ^ 64 : Nat) : ℚ) * 2 ^ (2 * e) := by
      rw [zpow_add₀ (by norm_num)]; norm_num



theorem floor_le_roundEven (q : ℚ) : ⌊q⌋ ≤ roundEven q := by
  unfold roundEven
  split_ifs <;> omega

theorem roundEven_le_floor_succ (q : ℚ) : roundEven q ≤ ⌊q⌋ + 1 := by
  unfold roundEven
  split_ifs <;> omega

theorem roundEven_intCast (n : Int) : roundEven (n : ℚ) = n := by
  unfold roundEven
  rw [Int.floor_intCast, sub_self, if_pos (by norm_num)]

theorem roundEven_mono {a b : ℚ} (hab : a ≤ b) : roundEven a ≤ roundEven b := by
  have hf : ⌊a⌋ ≤ ⌊b⌋ := Int.floor_mono hab
  rcases lt_or_eq_of_le hf with hlt | heq
  · have h1 := roundEven_le_floor_succ a
    have h2 := floor_le_roundEven b
    omega
  · unfold roundEven
    rw [heq]
    split_ifs <;> first | omega | (exfalso; linarith)

theorem roundAt_mono (e : Int) {a b : ℚ} (hab : a ≤ b) : roundAt e a ≤ roundAt e b := by
  unfold roundAt
  have hp : (0 : ℚ) < 2 ^ e := zpow_pos (by norm_num) e
  have h1 : a / 2 ^ e ≤ b / 2 ^ e := div_le_div_of_nonneg_right hab hp.le
  have h2 : ((roundEven (a / 2 ^ e) : Int) : ℚ) ≤ ((roundEven (b / 2 ^ e) : Int) : ℚ) := by
    exact_mod_cast roundEven_mono h1
  exact mul_le_mul_of_nonneg_right h2 hp.le

theorem roundAt_grid (e : Int) (N : Int) : roundAt e ((N : ℚ) * 2 ^ e) = (N : ℚ) * 2 ^ e := by
  unfold roundAt
  have hp : (2 : ℚ) ^ e ≠ 0 := zpow_ne_zero e (by norm_num)
  rw [mul_div_assoc, div_self hp, mul_one, roundEven_intCast]

theorem roundAt_zero (e : Int) : roundAt e 0 = 0 := by
  have := roundAt_grid e 0
  simpa using this

theorem roundAt_nonneg (e : Int) {q : ℚ} (hq : 0 ≤ q) : 0 ≤ roundAt e q := by
  have := roundAt_mono e hq
  rwa [roundAt_zero] at this

theorem ulpExp_mono {a b : ℚ} (ha : 0 < a) (hab : a ≤ b) : ulpExp a ≤ ulpExp b := by
  unfold ulpExp
  have := Int.log_mono_right (b := 2) ha hab
  exact max_le_max (by omega) le_rfl

/-- A power of two with an exponent at least `e` is a multiple of `2 ^ e`. -/
theorem zpow_grid (L e : Int) (h : e ≤ L) :
    ∃ N : Int, (2 : ℚ) ^ L = (N : ℚ) * 2 ^ e := by
  refine ⟨2 ^ (L - e).toNat, ?_⟩
  have h2 : (2 : ℚ) ≠ 0 := by norm_num
  have hk : ((L - e).toNat : Int) = L - e := Int.toNat_of_nonneg (by omega)
  push_cast
  rw [← zpow_natCast, hk, ← zpow_add₀ h2]
  congr 1
  omega

theorem roundPos_mono {a b : ℚ} (ha : 0 < a) (hab : a ≤ b) :
    roundAt (ulpExp a) a ≤ roundAt (ulpExp b) b := by
  have hb : 0 < b := lt_of_lt_of_le ha hab
  have he := ulpExp_mono ha hab
  rcases lt_or_eq_of_le he with hlt | heq
  · have ea1 : Int.log 2 a - 52 ≤ ulpExp a := le_max_left _ _
    have ea2 : -1074 ≤ ulpExp a := le_max_right _ _
    have eb : ulpExp b = Int.log 2 b - 52 := by
      unfold ulpExp at hlt ⊢
      rcases max_cases (Int.log 2 b - 52) (-1074) with ⟨h1, _⟩ | ⟨h1, _⟩
      · exact h1
      · rw [h1] at hlt
        omega
    have hL : Int.log 2 a + 1 ≤ Int.log 2 b := by omega
    have h1 : a < (2 : ℚ) ^ (Int.log 2 a + 1) := Int.lt_zpow_succ_log_self (by norm_num) a
    have h2 : (2 : ℚ) ^ (Int.log 2 a + 1) ≤ (2 : ℚ) ^ (Int.log 2 b) :=
      zpow_le_zpow_right₀ (by norm_num) hL
    have h3 : (2 : ℚ) ^ (Int.log 2 b) ≤ b := Int.zpow_log_le_self (by norm_num) hb
    obtain ⟨N, hN⟩ := zpow_grid (Int.log 2 b) (ulpExp a) (by omega)
    obtain ⟨N', hN'⟩ := zpow_grid (Int.log 2 b) (ulpExp b) (by omega)
    calc roundAt (ulpExp a) a ≤ roundAt (ulpExp a) ((2 : ℚ) ^ (Int.log 2 b)) :=
          roundAt_mono _ (by linarith)
      _ = (2 : ℚ) ^ (Int.log 2 b) := by rw [hN, roundAt_grid]
      _ = roundAt (ulpExp b) ((2 : ℚ) ^ (Int.log 2 b)) := by rw [hN', roundAt_grid]
      _ ≤ roundAt (ulpExp b) b := roundAt_mono _ h3
  · rw [heq]
    exact roundAt_mono _ hab

theorem roundDouble_zero : roundDouble 0 = 0 := by
  unfold roundDouble
  simp

theorem roundDouble_nonneg {q : ℚ} (hq : 0 ≤ q) : 0 ≤ roundDouble q := by
  unfold roundDouble
  split_ifs with h1 h2
  · exact roundAt_nonneg _ h1.le
  · linarith
  · exact le_rfl

theorem roundDouble_nonpos {q : ℚ} (hq : q ≤ 0) : roundDouble q ≤ 0 := by
  unfold roundDouble
  split_ifs with h1 h2
  · linarith
  · have := roundAt_nonneg (ulpExp (-q)) (q := -q) (by linarith)
    linarith
  · exact le_rfl

theorem roundDouble_mono {a b : ℚ} (hab : a ≤ b) : roundDouble a ≤ roundDouble b := by
  rcases lt_trichotomy 0 a with ha | ha | ha
  · have hb : 0 < b := lt_of_lt_of_le ha hab
    unfold roundDouble
    rw [if_pos ha, if_pos hb]
    exact roundPos_mono ha hab
  · subst ha
    rw [roundDouble_zero]
    exact roundDouble_nonneg hab
  · rcases lt_or_le b 0 with hb | hb
    · unfold roundDouble
      rw [if_neg (by linarith), if_pos ha, if_neg (by linarith), if_pos hb]
      have := roundPos_mono (a := -b) (b := -a) (by linarith) (by linarith)
      linarith
    · exact le_trans (roundDouble_nonpos ha.le) (roundDouble_nonneg hb)

theorem roundDouble_natCast_pos (n : Int) (h0 : 0 < n) (h1 : n < 9007199254740992) :
    roundDouble (n : ℚ) = n := by
  have hq : (0 : ℚ) < (n : ℚ) := by exact_mod_cast h0
  unfold roundDouble
  rw [if_pos hq]
  have hlog : Int.log 2 (n : ℚ) < 53 := by
    rw [← Int.lt_zpow_iff_log_lt (by norm_num) hq]
    have : ((n : Int) : ℚ) < ((9007199254740992 : Int) : ℚ) := by exact_mod_cast h1
    calc (n : ℚ) < ((9007199254740992 : Int) : ℚ) := this
      _ = (2 : ℚ) ^ (53 : Int) := by norm_num
  have he : ulpExp (n : ℚ) ≤ 0 := by
    unfold ulpExp
    exact max_le (by omega) (by decide)
  have h2 : (2 : ℚ) ≠ 0 := by norm_num
  have hk : ((-(ulpExp (n : ℚ))).toNat : Int) = -(ulpExp (n : ℚ)) := Int.toNat_of_nonneg (by omega)
  have hg : (n : ℚ) = ((n * 2 ^ (-(ulpExp (n : ℚ))).toNat : Int) : ℚ) * 2 ^ (ulpExp (n : ℚ)) := by
    push_cast
    rw [mul_assoc, ← zpow_natCast, hk, ← zpow_add₀ h2]
    simp
  calc roundAt (ulpExp (n : ℚ)) (n : ℚ)
      = roundAt (ulpExp (n : ℚ))
          (((n * 2 ^ (-(ulpExp (n : ℚ))).toNat : Int) : ℚ) * 2 ^ (ulpExp (n : ℚ))) := by
        rw [← hg]
    _ = ((n * 2 ^ (-(ulpExp (n : ℚ))).toNat : Int) : ℚ) * 2 ^ (ulpExp (n : ℚ)) :=
        roundAt_grid _ _
    _ = (n : ℚ) := hg.symm

theorem roundDouble_intCast (n : Int) (h0 : -9007199254740992 < n) (h1 : n < 9007199254740992) :
    roundDouble (n : ℚ) = n := by
  rcases lt_trichotomy 0 n with hn | hn | hn
  · exact roundDouble_natCast_pos n hn h1
  · subst hn
    simpa using roundDouble_zero
  · have hq : (n : ℚ) < 0 := by exact_mod_cast hn
    have e := roundDouble_natCast_pos (-n) (by omega) (by omega)
    unfold roundDouble at e ⊢
    have hq' : (0 : ℚ) < ((-n : Int) : ℚ) := by push_cast; linarith
    rw [if_pos hq'] at e
    rw [if_neg (by linarith), if_pos hq]
    have c : ((-n : Int) : ℚ) = -(n : ℚ) := by push_cast; rfl
    rw [c] at e
    rw [e]
    ring

theorem double64_intExact : double64.IntExact := by
  constructor
  · intro n hn
    show (roundDouble (n : ℚ)).num.tdiv (roundDouble (n : ℚ)).den = n
    rw [roundDouble_intCast n (lt_of_lt_of_le (by decide) hn.1)
      (lt_of_le_of_lt hn.2 (by decide)), Rat.num_intCast, Rat.den_intCast]
    exact Int.tdiv_one n
  · intro a b ha hb
    show decide (roundDouble (a : ℚ) ≤ roundDouble (b : ℚ)) = decide (a ≤ b)
    rw [roundDouble_intCast a (lt_of_lt_of_le (by decide) ha.1)
      (lt_of_le_of_lt ha.2 (by decide)),
      roundDouble_intCast b (lt_of_lt_of_le (by decide) hb.1)
      (lt_of_le_of_lt hb.2 (by decide))]
    simp only [Int.cast_le]

theorem sum3_of_byte {r g b : Int} (hr : 0 ≤ r ∧ r ≤ 255) (hg : 0 ≤ g ∧ g ≤ 255)
    (hb : 0 ≤ b ∧ b ≤ 255) : sum3 r g b = r + g + b := by
  unfold sum3
  rw [wrap32_of_range (x := r + g) (by omega) (by omega),
    wrap32_of_range (by omega) (by omega)]

theorem wrap32_ge (x : Int) : -2147483648 ≤ wrap32 x := by
  unfold wrap32; omega

theorem tdiv_three_bounds (x : Int) (h1 : -2147483648 ≤ x) (h2 : x ≤ 2147483647) :
    -715827882 ≤ x.tdiv 3 ∧ x.tdiv 3 ≤ 715827882 := by
  rw [tdiv_eq_ite x 3 (by decide)]
  split <;> omega

theorem tdiv_three_mul (a : Int) : (a + a + a).tdiv 3 = a := by
  rw [tdiv_eq_ite _ 3 (by decide)]
  split <;> omega

theorem avg3_same (a : Int) (h1 : -715827882 ≤ a) (h2 : a ≤ 715827882) :
    avg3 ⟨a, a, a⟩ = a := by
  unfold avg3 sum3
  show (wrap32 (wrap32 (a + a) + a)).tdiv 3 = a
  rw [wrap32_of_range (x := a + a) (by omega) (by omega),
    wrap32_of_range (by omega) (by omega)]
  exact tdiv_three_mul a

theorem avg3_bounds (p : Pixel) : -715827882 ≤ avg3 p ∧ avg3 p ≤ 715827882 :=
  tdiv_three_bounds _ (wrap32_ge _) (wrap32_le _)

theorem fitsInt_avg3 (p : Pixel) : FitsInt (avg3 p) :=
  ⟨le_trans (by decide) (avg3_bounds p).1, le_trans (avg3_bounds p).2 (by decide)⟩

theorem grayPixel_exact {M : FloatModel} (hM : M.IntExact) (p : Pixel) :
    grayPixel M p = ⟨avg3 p, avg3 p, avg3 p⟩ := by
  unfold grayPixel
  rw [hM.1 _ (fitsInt_avg3 p)]

theorem contrastPixel_exact {M : FloatModel} (hM : M.IntExact) (p : Pixel) :
    contrastPixel M p = if 127 ≤ avg3 p then ⟨255, 255, 255⟩ else ⟨0, 0, 0⟩ := by
  unfold contrastPixel
  have h127 : (255 : Int).tdiv 2 = 127 := by decide
  rw [hM.2 _ _ (by decide) (fitsInt_avg3 p), h127]
  simp only [decide_eq_true_eq]

theorem grayPixel_idem {M : FloatModel} (hM : M.IntExact) (p : Pixel) :
    grayPixel M (grayPixel M p) = grayPixel M p := by
  rw [grayPixel_exact hM p, grayPixel_exact hM,
    avg3_same _ (avg3_bounds p).1 (avg3_bounds p).2]

/-- C13 (counterexample): enlarging a grid of four rows and one column by the
positive factors `xscale = 1`, `yscale = 1073741825` overflows
`y = num_rows * yscale` to `4`; `process_6` returns a grid of four rows, not of
`4 * 1073741825` rows. -/
theorem process_6_dimension_overflow :
    IsRect [[⟨1, 2, 3⟩], [⟨4, 5, 6⟩], [⟨7, 8, 9⟩], [⟨10, 11, 12⟩]] 4 1 ∧
    process_6 [[⟨1, 2, 3⟩], [⟨4, 5, 6⟩], [⟨7, 8, 9⟩], [⟨10, 11, 12⟩]] 1 1073741825
      = some [[⟨1, 2, 3⟩], [⟨1, 2, 3⟩], [⟨1, 2, 3⟩], [⟨1, 2, 3⟩]] ∧
    ¬ IsRect [[⟨1, 2, 3⟩], [⟨1, 2, 3⟩], [⟨1, 2, 3⟩], [⟨1, 2, 3⟩]] (4 * 1073741825) (1 * 1) := by
  refine ⟨by simp [IsRect], by decide, ?_⟩
  intro h
  exact absurd h.1 (by decide)

/-- C13 (amended): for every rectangular grid of `h ≥ 1` rows and `w` columns (and
any `double` arithmetic and any scale), `process_1`, `process_2`, `process_3`,
`rotate_180`, `process_7`, `process_8`, `process_9` and `process_10` return a
rectangular grid of dimensions `(h, w)`; `process_4` and `rotate_270` return one of
dimensions `(w, h)`; and `process_6` with positive factors `(x, y)` such that
`w * x` and `h * y` fit a 32-bit `int` returns one of dimensions `(h * y, w * x)`. -/
theorem transform_dimensions (M : FloatModel) (C : CMath M) (s : M.D)
    (g : Grid) (h w : Nat) (hg : IsRect g h w) (hh : 0 < h) :
    (∃ out, process_1 M C g = some out ∧ IsRect out h w) ∧
    (∃ out, process_2 M g s = some out ∧ IsRect out h w) ∧
    (∃ out, process_3 M g = some out ∧ IsRect out h w) ∧
    (∃ out, rotate_180 g = some out ∧ IsRect out h w) ∧
    (∃ out, process_7 M g = some out ∧ IsRect out h w) ∧
    (∃ out, process_8 M g s = some out ∧ IsRect out h w) ∧
    (∃ out, process_9 M g s = some out ∧ IsRect out h w) ∧
    (∃ out, process_10 g = some out ∧ IsRect out h w) ∧
    (∃ out, process_4 g = some out ∧ IsRect out w h) ∧
    (∃ out, rotate_270 g = some out ∧ IsRect out w h) ∧
    ∀ x y : Nat, 0 < x → 0 < y → w * x ≤ 2147483647 → h * y ≤ 2147483647 →
      ∃ out, process_6 g (x : Int) (y : Int) = some out ∧ IsRect out (h * y) (w * x) :=
  ⟨⟨_, process_1_eq M C hg hh, isRect_tab _ _ _⟩,
    ⟨_, process_2_eq M s hg hh, isRect_tab _ _ _⟩,
    ⟨_, process_3_eq M hg hh, isRect_tab _ _ _⟩,
    ⟨_, rotate_180_eq hg hh, isRect_tab _ _ _⟩,
    ⟨_, process_7_eq M hg hh, isRect_tab _ _ _⟩,
    ⟨_, process_8_eq M s hg hh, isRect_tab _ _ _⟩,
    ⟨_, process_9_eq M s hg hh, isRect_tab _ _ _⟩,
    ⟨_, process_10_eq hg hh, isRect_tab _ _ _⟩,
    ⟨_, process_4_eq hg hh, isRect_tab _ _ _⟩,
    ⟨_, rotate_270_eq hg hh, isRect_tab _ _ _⟩,
    fun x y hx hy hfx hfy => ⟨_, process_6_eq hg hh x y hx hy hfx hfy, isRect_tab _ _ _⟩⟩

theorem transform_dimensions_witness :
    IsRect [[⟨1, 2, 3⟩, ⟨4, 5, 6⟩, ⟨7, 8, 9⟩]] 1 3 ∧ 0 < 1 ∧
    process_4 [[⟨1, 2, 3⟩, ⟨4, 5, 6⟩, ⟨7, 8, 9⟩]] = some [[⟨1, 2, 3⟩], [⟨4, 5, 6⟩], [⟨7, 8, 9⟩]] ∧
    ((∃ out, process_1 double64 cmath64
        [[⟨1, 2, 3⟩, ⟨4, 5, 6⟩, ⟨7, 8, 9⟩]] = some out ∧ IsRect out 1 3) ∧
    (∃ out, process_2 double64 [[⟨1, 2, 3⟩, ⟨4, 5, 6⟩, ⟨7, 8, 9⟩]] (1 / 2 : ℚ) = some out ∧
      IsRect out 1 3) ∧
    (∃ out, process_3 double64 [[⟨1, 2, 3⟩, ⟨4, 5, 6⟩, ⟨7, 8, 9⟩]] = some out ∧
      IsRect out 1 3) ∧
    (∃ out, rotate_180 [[⟨1, 2, 3⟩, ⟨4, 5, 6⟩, ⟨7, 8, 9⟩]] = some out ∧ IsRect out 1 3) ∧
    (∃ out, process_7 double64 [[⟨1, 2, 3⟩, ⟨4, 5, 6⟩, ⟨7, 8, 9⟩]] = some out ∧
      IsRect out 1 3) ∧
    (∃ out, process_8 double64 [[⟨1, 2, 3⟩, ⟨4, 5, 6⟩, ⟨7, 8, 9⟩]] (1 / 2 : ℚ) = some out ∧
      IsRect out 1 3) ∧
    (∃ out, process_9 double64 [[⟨1, 2, 3⟩, ⟨4, 5, 6⟩, ⟨7, 8, 9⟩]] (1 / 2 : ℚ) = some out ∧
      IsRect out 1 3) ∧
    (∃ out, process_10 [[⟨1, 2, 3⟩, ⟨4, 5, 6⟩, ⟨7, 8, 9⟩]] = some out ∧ IsRect out 1 3) ∧
    (∃ out, process_4 [[⟨1, 2, 3⟩, ⟨4, 5, 6⟩, ⟨7, 8, 9⟩]] = some out ∧ IsRect out 3 1) ∧
    (∃ out, rotate_270 [[⟨1, 2, 3⟩, ⟨4, 5, 6⟩, ⟨7, 8, 9⟩]] = some out ∧ IsRect out 3 1) ∧
    ∀ x y : Nat, 0 < x → 0 < y → 3 * x ≤ 2147483647 → 1 * y ≤ 2147483647 →
      ∃ out, process_6 [[⟨1, 2, 3⟩, ⟨4, 5, 6⟩, ⟨7, 8, 9⟩]] (x : Int) (y : Int) = some out ∧
        IsRect out (1 * y) (3 * x)) :=
  ⟨by simp [IsRect], by decide, by decide,
    transform_dimensions double64 cmath64 (1 / 2 : ℚ) _ 1 3
      (by simp [IsRect]) (by decide)⟩

/-- C14: for every rectangular grid of `h ≥ 1` rows and a `double` arithmetic
that holds every `int` exactly, `process_3` returns a grid of the same dimensions
whose pixel at every position has red = green = blue = `(r + g + b) / 3`, the
truncating quotient of the 32-bit sum of the input pixel's channels; for channels
in `[0, 255]` that sum is the plain sum `r + g + b`. -/
theorem process_3_grayscale (M : FloatModel) (hM : M.IntExact)
    (g : Grid) (h w : Nat) (hg : IsRect g h w) (hh : 0 < h) :
    ∃ out, process_3 M g = some out ∧ IsRect out h w ∧
      ∀ row col, row < h → col < w →
        ∃ p, px g row col = some p ∧
          px out row col = some ⟨avg3 p, avg3 p, avg3 p⟩ ∧
          (InByteRange g → avg3 p = (p.red + p.green + p.blue).tdiv 3) := by
  refine ⟨_, process_3_eq M hg hh, isRect_tab _ _ _, ?_⟩
  intro row col hrow hcol
  refine ⟨pxD g row col, hg.pxD_eq hrow hcol, ?_, ?_⟩
  · rw [px_tab _ hrow hcol, grayPixel_exact hM]
  · intro hb
    obtain ⟨b1, b2, b3⟩ := hb.pxD hg hrow hcol
    unfold avg3
    rw [sum3_of_byte b1 b2 b3]

theorem process_3_grayscale_witness :
    double64.IntExact ∧ IsRect [[⟨255, 0, 0⟩]] 1 1 ∧ 0 < 1 ∧
    process_3 double64 [[⟨255, 0, 0⟩]] = some [[⟨85, 85, 85⟩]] ∧
    ∃ out, process_3 double64 [[⟨255, 0, 0⟩]] = some out ∧ IsRect out 1 1 ∧
      ∀ row col, row < 1 → col < 1 →
        ∃ p, px [[⟨255, 0, 0⟩]] row col = some p ∧
          px out row col = some ⟨avg3 p, avg3 p, avg3 p⟩ ∧
          (InByteRange [[⟨255, 0, 0⟩]] → avg3 p = (p.red + p.green + p.blue).tdiv 3) :=
  ⟨double64_intExact, by simp [IsRect], by decide!, by decide!,
    process_3_grayscale double64 double64_intExact _ 1 1 (by simp [IsRect]) (by decide!)⟩

/-- C15: grayscale is idempotent: for every rectangular grid of `h ≥ 1` rows and a
`double` arithmetic that holds every `int` exactly, `process_3` returns a grid,
and applying `process_3` to that grid returns the same grid again. -/
theorem process_3_idempotent (M : FloatModel) (hM : M.IntExact)
    (g : Grid) (h w : Nat) (hg : IsRect g h w) (hh : 0 < h) :
    ∃ out, process_3 M g = some out ∧ process_3 M out = some out := by
  refine ⟨_, process_3_eq M hg hh, ?_⟩
  rw [process_3_eq M (isRect_tab h w _) hh]
  refine congrArg some (tab_congr ?_)
  intro a b ha hb
  rw [pxD_tab _ ha hb]
  exact grayPixel_idem hM _

theorem process_3_idempotent_witness :
    double64.IntExact ∧ IsRect [[⟨255, 0, 0⟩, ⟨10, 20, 31⟩]] 1 2 ∧ 0 < 1 ∧
    process_3 double64 [[⟨255, 0, 0⟩, ⟨10, 20, 31⟩]] = some [[⟨85, 85, 85⟩, ⟨20, 20, 20⟩]] ∧
    process_3 double64 [[⟨85, 85, 85⟩, ⟨20, 20, 20⟩]] = some [[⟨85, 85, 85⟩, ⟨20, 20, 20⟩]] ∧
    ∃ out, process_3 double64 [[⟨255, 0, 0⟩, ⟨10, 20, 31⟩]] = some out ∧
      process_3 double64 out = some out :=
  ⟨double64_intExact, by simp [IsRect], by decide!, by decide!, by decide!,
    process_3_idempotent double64 double64_intExact _ 1 2 (by simp [IsRect]) (by decide!)⟩

/-- C16: for every rectangular grid of `h ≥ 1` rows and a `double` arithmetic that
holds every `int` exactly, `process_7` returns a grid of the same dimensions whose
pixel at every position is `(255,255,255)` when `(r + g + b) / 3 >= 127` for the
input pixel and `(0,0,0)` otherwise; the quotient truncates and, for channels in
`[0, 255]`, the sum is the plain sum `r + g + b`. -/
theorem process_7_threshold (M : FloatModel) (hM : M.IntExact)
    (g : Grid) (h w : Nat) (hg : IsRect g h w) (hh : 0 < h) :
    ∃ out, process_7 M g = some out ∧ IsRect out h w ∧
      ∀ row col, row < h → col < w →
        ∃ p, px g row col = some p ∧
          px out row col = some (if 127 ≤ avg3 p then ⟨255, 255, 255⟩ else ⟨0, 0, 0⟩) ∧
          (InByteRange g → avg3 p = (p.red + p.green + p.blue).tdiv 3) := by
  refine ⟨_, process_7_eq M hg hh, isRect_tab _ _ _, ?_⟩
  intro row col hrow hcol
  refine ⟨pxD g row col, hg.pxD_eq hrow hcol, ?_, ?_⟩
  · rw [px_tab _ hrow hcol, contrastPixel_exact hM]
  · intro hb
    obtain ⟨b1, b2, b3⟩ := hb.pxD hg hrow hcol
    unfold avg3
    rw [sum3_of_byte b1 b2 b3]

theorem process_7_threshold_witness :
    double64.IntExact ∧ IsRect [[⟨127, 127, 127⟩, ⟨126, 126, 126⟩, ⟨128, 127, 125⟩]] 1 3 ∧
    0 < 1 ∧
    avg3 ⟨127, 127, 127⟩ = 127 ∧ avg3 ⟨126, 126, 126⟩ = 126 ∧ avg3 ⟨128, 127, 125⟩ = 126 ∧
    process_7 double64 [[⟨127, 127, 127⟩, ⟨126, 126, 126⟩, ⟨128, 127, 125⟩]]
      = some [[⟨255, 255, 255⟩, ⟨0, 0, 0⟩, ⟨0, 0, 0⟩]] ∧
    ∃ out, process_7 double64 [[⟨127, 127, 127⟩, ⟨126, 126, 126⟩, ⟨128, 127, 125⟩]]
        = some out ∧ IsRect out 1 3 ∧
      ∀ row col, row < 1 → col < 3 →
        ∃ p, px [[⟨127, 127, 127⟩, ⟨126, 126, 126⟩, ⟨128, 127, 125⟩]] row col = some p ∧
          px out row col = some (if 127 ≤ avg3 p then ⟨255, 255, 255⟩ else ⟨0, 0, 0⟩) ∧
          (InByteRange [[⟨127, 127, 127⟩, ⟨126, 126, 126⟩, ⟨128, 127, 125⟩]] →
            avg3 p = (p.red + p.green + p.blue).tdiv 3) :=
  ⟨double64_intExact, by simp [IsRect], by decide!, by decide!, by decide!, by decide!,
    by decide!,
    process_7_threshold double64 double64_intExact _ 1 3 (by simp [IsRect]) (by decide!)⟩

/-- C17: for every rectangular grid of `h ≥ 1` rows, `process_10` returns a grid of
the same dimensions whose pixel at every position, for input channels `(r, g, b)`,
is `(255,255,255)` if `r + g + b >= 550`; else `(0,0,0)` if `r + g + b <= 150`;
else `(255,0,0)` if `max(r,g,b) = r`; else `(0,255,0)` if `max(r,g,b) = g`; else
`(0,0,255)`.  The sum is the 32-bit sum, which for channels in `[0, 255]` is the
plain sum. -/
theorem process_10_classification (g : Grid) (h w : Nat) (hg : IsRect g h w) (hh : 0 < h) :
    ∃ out, process_10 g = some out ∧ IsRect out h w ∧
      ∀ row col, row < h → col < w →
        ∃ p, px g row col = some p ∧
          px out row col = some
            (if 550 ≤ sum3 p.red p.green p.blue then ⟨255, 255, 255⟩
             else if sum3 p.red p.green p.blue ≤ 150 then ⟨0, 0, 0⟩
             else if max (max p.red p.green) p.blue = p.red then ⟨255, 0, 0⟩
             else if max (max p.red p.green) p.blue = p.green then ⟨0, 255, 0⟩
             else ⟨0, 0, 255⟩) ∧
          (InByteRange g → sum3 p.red p.green p.blue = p.red + p.green + p.blue) := by
  refine ⟨_, process_10_eq hg hh, isRect_tab _ _ _, ?_⟩
  intro row col hrow hcol
  refine ⟨pxD g row col, hg.pxD_eq hrow hcol, ?_, ?_⟩
  · rw [px_tab _ hrow hcol]
    rfl
  · intro hb
    obtain ⟨b1, b2, b3⟩ := hb.pxD hg hrow hcol
    exact sum3_of_byte b1 b2 b3

theorem process_10_classification_witness :
    IsRect [[⟨200, 200, 200⟩, ⟨10, 10, 10⟩, ⟨200, 50, 50⟩],
            [⟨100, 100, 100⟩, ⟨50, 100, 100⟩, ⟨50, 60, 100⟩]] 2 3 ∧ 0 < 2 ∧
    process_10 [[⟨200, 200, 200⟩, ⟨10, 10, 10⟩, ⟨200, 50, 50⟩],
                [⟨100, 100, 100⟩, ⟨50, 100, 100⟩, ⟨50, 60, 100⟩]]
      = some [[⟨255, 255, 255⟩, ⟨0, 0, 0⟩, ⟨255, 0, 0⟩],
              [⟨255, 0, 0⟩, ⟨0, 255, 0⟩, ⟨0, 0, 255⟩]] ∧
    ∃ out, process_10 [[⟨200, 200, 200⟩, ⟨10, 10, 10⟩, ⟨200, 50, 50⟩],
                       [⟨100, 100, 100⟩, ⟨50, 100, 100⟩, ⟨50, 60, 100⟩]] = some out ∧
      IsRect out 2 3 ∧
      ∀ row col, row < 2 → col < 3 →
        ∃ p, px [[⟨200, 200, 200⟩, ⟨10, 10, 10⟩, ⟨200, 50, 50⟩],
                 [⟨100, 100, 100⟩, ⟨50, 100, 100⟩, ⟨50, 60, 100⟩]] row col = some p ∧
          px out row col = some
            (if 550 ≤ sum3 p.red p.green p.blue then ⟨255, 255, 255⟩
             else if sum3 p.red p.green p.blue ≤ 150 then ⟨0, 0, 0⟩
             else if max (max p.red p.green) p.blue = p.red then ⟨255, 0, 0⟩
             else if max (max p.red p.green) p.blue = p.green then ⟨0, 255, 0⟩
             else ⟨0, 0, 255⟩) ∧
          (InByteRange [[⟨200, 200, 200⟩, ⟨10, 10, 10⟩, ⟨200, 50, 50⟩],
                        [⟨100, 100, 100⟩, ⟨50, 100, 100⟩, ⟨50, 60, 100⟩]] →
            sum3 p.red p.green p.blue = p.red + p.green + p.blue) :=
  ⟨by simp [IsRect], by decide, by decide,
    process_10_classification _ 2 3 (by simp [IsRect]) (by decide)⟩

/-- C18: for every rectangular grid of `h ≥ 1` rows, every `double` arithmetic
and every scale `s`, `process_2`, `process_8` and `process_9` all return grids, and
at every position, with `avg = (r + g + b) / 3` of the input pixel, the pixel of
`process_2 g s` is the pixel of `process_8 g s` when `avg >= 170`, the pixel of
`process_9 g s` when `avg < 90`, and the input pixel when `90 <= avg < 170`. -/
theorem process_2_selects (M : FloatModel) (s : M.D)
    (g : Grid) (h w : Nat) (hg : IsRect g h w) (hh : 0 < h) :
    ∃ o2 o8 o9, process_2 M g s = some o2 ∧ process_8 M g s = some o8 ∧
      process_9 M g s = some o9 ∧
      ∀ row col, row < h → col < w →
        ∃ p q, px g row col = some p ∧ px o2 row col = some q ∧
          (170 ≤ avg3 p → px o8 row col = some q) ∧
          (avg3 p < 90 → px o9 row col = some q) ∧
          (90 ≤ avg3 p → avg3 p < 170 → q = p) := by
  refine ⟨_, _, _, process_2_eq M s hg hh, process_8_eq M s hg hh, process_9_eq M s hg hh, ?_⟩
  intro row col hrow hcol
  refine ⟨pxD g row col, _, hg.pxD_eq hrow hcol, px_tab _ hrow hcol, ?_, ?_, ?_⟩
  · intro h1
    rw [px_tab _ hrow hcol]
    unfold clarendonPixel
    rw [if_pos h1]
  · intro h1
    rw [px_tab _ hrow hcol]
    unfold clarendonPixel
    rw [if_neg (by omega), if_pos h1]
  · intro h1 h2
    unfold clarendonPixel
    rw [if_neg (by omega), if_neg (by omega)]

theorem process_2_selects_witness :
    IsRect [[⟨200, 180, 190⟩, ⟨10, 20, 30⟩, ⟨100, 120, 110⟩]] 1 3 ∧ 0 < 1 ∧
    process_2 double64 [[⟨200, 180, 190⟩, ⟨10, 20, 30⟩, ⟨100, 120, 110⟩]] (1 / 2 : ℚ)
      = some [[⟨227, 217, 222⟩, ⟨5, 10, 15⟩, ⟨100, 120, 110⟩]] ∧
    ∃ o2 o8 o9,
      process_2 double64 [[⟨200, 180, 190⟩, ⟨10, 20, 30⟩, ⟨100, 120, 110⟩]] (1 / 2 : ℚ)
        = some o2 ∧
      process_8 double64 [[⟨200, 180, 190⟩, ⟨10, 20, 30⟩, ⟨100, 120, 110⟩]] (1 / 2 : ℚ)
        = some o8 ∧
      process_9 double64 [[⟨200, 180, 190⟩, ⟨10, 20, 30⟩, ⟨100, 120, 110⟩]] (1 / 2 : ℚ)
        = some o9 ∧
      ∀ row col, row < 1 → col < 3 →
        ∃ p q, px [[⟨200, 180, 190⟩, ⟨10, 20, 30⟩, ⟨100, 120, 110⟩]] row col = some p ∧
          px o2 row col = some q ∧
          (170 ≤ avg3 p → px o8 row col = some q) ∧
          (avg3 p < 90 → px o9 row col = some q) ∧
          (90 ≤ avg3 p → avg3 p < 170 → q = p) :=
  ⟨by simp [IsRect], by decide!, by decide!,
    process_2_selects double64 (1 / 2 : ℚ) _ 1 3 (by simp [IsRect]) (by decide!)⟩

theorem toInt_eq_trunc (q : ℚ) : double64.toInt q = trunc q := by
  show q.num.tdiv q.den = trunc q
  have hd : (0 : Int) < (q.den : Int) := by exact_mod_cast q.den_pos
  unfold trunc
  split
  · next h =>
    rw [Int.tdiv_eq_ediv (Rat.num_nonneg.2 h) hd.le]
    exact Rat.floor_def.symm
  · next h =>
    have hn : q.num < 0 := Rat.num_neg.2 (not_le.1 h)
    rw [tdiv_eq_ite _ _ hd, if_neg (not_le.2 hn), Int.ceil_eq_iff.2]
    have e := Int.floor_le (-q)
    have e' := Int.lt_floor_add_one (-q)
    have f : ⌊-q⌋ = (-q.num) / (q.den : Int) := by
      rw [Rat.floor_def, Rat.neg_num, Rat.neg_den]
    rw [← f]
    constructor
    · push_cast
      linarith
    · push_cast
      linarith

theorem trunc_between {q : ℚ} {a b : Int} (h0 : 0 ≤ a) (ha : (a : ℚ) ≤ q) (hb : q ≤ (b : ℚ)) :
    a ≤ trunc q ∧ trunc q ≤ b := by
  have hq : (0 : ℚ) ≤ q := le_trans (by exact_mod_cast h0) ha
  rw [trunc, if_pos hq]
  constructor
  · exact Int.le_floor.2 ha
  · have := Int.floor_le q
    exact_mod_cast le_trans this hb

theorem roundDouble_between {q : ℚ} {a b : Int} (ha : -9007199254740992 < a)
    (hb : b < 9007199254740992) (h1 : (a : ℚ) ≤ q) (h2 : q ≤ (b : ℚ)) :
    (a : ℚ) ≤ roundDouble q ∧ roundDouble q ≤ (b : ℚ) := by
  have hab : a ≤ b := by exact_mod_cast le_trans h1 h2
  have ea := roundDouble_intCast a ha (by omega)
  have eb := roundDouble_intCast b (by omega) hb
  constructor
  · rw [← ea]
    exact roundDouble_mono h1
  · rw [← eb]
    exact roundDouble_mono h2

/-- The channel `process_9` stores for the input channel `c` and a scale in
`[0, 1]`, in `double64`. -/
theorem darken_double (c : Int) (s : ℚ) (hc0 : 0 ≤ c) (hc1 : c ≤ 2147483647)
    (hs0 : 0 ≤ s) (hs1 : s ≤ 1) :
    darken double64 c s = trunc (roundDouble ((c : ℚ) * s)) ∧
      0 ≤ darken double64 c s ∧ darken double64 c s ≤ c := by
  have ec : roundDouble (c : ℚ) = c := roundDouble_intCast c (by omega) (by omega)
  have e : darken double64 c s = trunc (roundDouble ((c : ℚ) * s)) := by
    unfold darken
    rw [toInt_eq_trunc]
    show trunc (roundDouble (roundDouble (c : ℚ) * s)) = _
    rw [ec]
  have hq : (0 : ℚ) ≤ (c : ℚ) := by exact_mod_cast hc0
  have h0 : ((0 : Int) : ℚ) ≤ (c : ℚ) * s := by
    push_cast
    exact mul_nonneg hq hs0
  have h1 : (c : ℚ) * s ≤ (c : ℚ) := by nlinarith
  obtain ⟨r0, r1⟩ := roundDouble_between (a := 0) (b := c) (by decide) (by omega) h0 h1
  obtain ⟨t0, t1⟩ := trunc_between (a := 0) (b := c) le_rfl r0 r1
  exact ⟨e, by rw [e]; exact t0, by rw [e]; exact t1⟩

/-- The channel `process_8` stores for the input channel `c` in `[0, 255]` and a
scale in `[0, 1]`, in `double64`. -/
theorem lighten_double (c : Int) (s : ℚ) (hc0 : 0 ≤ c) (hc1 : c ≤ 255) (hs0 : 0 ≤ s)
    (hs1 : s ≤ 1) :
    lighten double64 c s
        = trunc (roundDouble (255 - roundDouble ((255 - (c : ℚ)) * s))) ∧
      c ≤ lighten double64 c s ∧ lighten double64 c s ≤ 255 := by
  have e255 : roundDouble ((255 : Int) : ℚ) = ((255 : Int) : ℚ) :=
    roundDouble_intCast 255 (by decide) (by decide)
  have ec : roundDouble ((255 - c : Int) : ℚ) = ((255 - c : Int) : ℚ) :=
    roundDouble_intCast (255 - c) (by omega) (by omega)
  have e : lighten double64 c s
      = trunc (roundDouble (255 - roundDouble ((255 - (c : ℚ)) * s))) := by
    unfold lighten
    rw [wrap32_of_range (by omega) (by omega), toInt_eq_trunc]
    show trunc (roundDouble (roundDouble ((255 : Int) : ℚ)
      - roundDouble (roundDouble ((255 - c : Int) : ℚ) * s))) = _
    rw [e255, ec]
    push_cast
    rfl
  have hq : (0 : ℚ) ≤ ((255 - c : Int) : ℚ) := by exact_mod_cast (by omega : (0 : Int) ≤ 255 - c)
  have h0 : ((0 : Int) : ℚ) ≤ ((255 - c : Int) : ℚ) * s := by
    push_cast
    push_cast at hq
    exact mul_nonneg hq hs0
  have h1 : ((255 - c : Int) : ℚ) * s ≤ ((255 - c : Int) : ℚ) := by nlinarith
  obtain ⟨r0, r1⟩ := roundDouble_between (a := 0) (b := 255 - c) (by decide) (by omega) h0 h1
  have k0 : ((c : Int) : ℚ) ≤ 255 - roundDouble (((255 - c : Int) : ℚ) * s) := by
    push_cast at r1 ⊢
    linarith
  have k1 : 255 - roundDouble (((255 - c : Int) : ℚ) * s) ≤ ((255 : Int) : ℚ) := by
    push_cast at r0 ⊢
    linarith
  obtain ⟨u0, u1⟩ := roundDouble_between (a := c) (b := 255) (by omega) (by decide) k0 k1
  obtain ⟨t0, t1⟩ := trunc_between (a := c) (b := 255) hc0 u0 u1
  have e' : lighten double64 c s
      = trunc (roundDouble (255 - roundDouble (((255 - c : Int) : ℚ) * s))) := by
    rw [e]
    push_cast
    rfl
  exact ⟨e, by rw [e']; exact t0, by rw [e']; exact t1⟩

/-- C19 (counterexample): the scales `s0 = 6004799503160661 / 2^54` (the `double`
nearest to `1/3` from below) and `s1 = 6004799503160662 / 2^54` (the next
`double`) lie strictly between 0 and 1.  For the channel `3`, the product `3 * s0`
rounds to the `double` `1.0` and `process_9` stores `1`, while `trunc (3 * s0)` is
`0`.  For the channel `252`, the product `3 * s1` rounds to `1.0` and `process_8`
stores `254`, while `trunc (255 - (255 - 252) * s1)` is `253`. -/
theorem lighten_darken_rounding :
    ((0 : ℚ) < 6004799503160661 / 18014398509481984 ∧
      (6004799503160661 / 18014398509481984 : ℚ) < 1 ∧
      roundDouble (6004799503160661 / 18014398509481984)
        = 6004799503160661 / 18014398509481984 ∧
      process_9 double64 [[⟨3, 3, 3⟩]] (6004799503160661 / 18014398509481984 : ℚ)
        = some [[⟨1, 1, 1⟩]] ∧
      trunc (3 * (6004799503160661 / 18014398509481984 : ℚ)) = 0) ∧
    ((0 : ℚ) < 6004799503160662 / 18014398509481984 ∧
      (6004799503160662 / 18014398509481984 : ℚ) < 1 ∧
      roundDouble (6004799503160662 / 18014398509481984)
        = 6004799503160662 / 18014398509481984 ∧
      process_8 double64 [[⟨252, 252, 252⟩]] (6004799503160662 / 18014398509481984 : ℚ)
        = some [[⟨254, 254, 254⟩]] ∧
      trunc (255 - (255 - 252) * (6004799503160662 / 18014398509481984 : ℚ)) = 253) := by
  refine ⟨⟨by norm_num, by norm_num, by decide!, by decide!, by decide!⟩,
    ⟨by norm_num, by norm_num, by decide!, by decide!, by decide!⟩⟩

/-- C19 (amended): in IEEE binary64 arithmetic, for every scale `0 < s < 1` and
every rectangular grid of `h ≥ 1` rows with channels in `[0, 255]`, `process_9`
(Darken) stores `trunc (fl (c * s))` for every input channel `c`, where `fl` rounds
to the nearest `double`, with `0 <= out <= c`, and `process_8` (Lighten) stores
`trunc (fl (255 - fl ((255 - c) * s)))`, with `c <= out <= 255`; every stored
channel is unchanged by the conversion to an 8-bit channel. -/
theorem lighten_darken_in_range (g : Grid) (h w : Nat) (hg : IsRect g h w) (hh : 0 < h)
    (hb : InByteRange g) (s : ℚ) (hs0 : 0 < s) (hs1 : s < 1) :
    ∃ o8 o9, process_8 double64 g s = some o8 ∧ process_9 double64 g s = some o9 ∧
      ∀ row col, row < h → col < w →
        ∃ p q8 q9, px g row col = some p ∧ px o8 row col = some q8 ∧
          px o9 row col = some q9 ∧
          q9 = ⟨trunc (roundDouble (p.red * s)), trunc (roundDouble (p.green * s)),
                trunc (roundDouble (p.blue * s))⟩ ∧
          q8 = ⟨trunc (roundDouble (255 - roundDouble ((255 - p.red) * s))),
                trunc (roundDouble (255 - roundDouble ((255 - p.green) * s))),
                trunc (roundDouble (255 - roundDouble ((255 - p.blue) * s)))⟩ ∧
          ((0 ≤ q9.red ∧ q9.red ≤ p.red) ∧ (0 ≤ q9.green ∧ q9.green ≤ p.green) ∧
            (0 ≤ q9.blue ∧ q9.blue ≤ p.blue)) ∧
          ((p.red ≤ q8.red ∧ q8.red ≤ 255) ∧ (p.green ≤ q8.green ∧ q8.green ≤ 255) ∧
            (p.blue ≤ q8.blue ∧ q8.blue ≤ 255)) ∧
          ∀ c ∈ [q8.red, q8.green, q8.blue, q9.red, q9.green, q9.blue],
            ((toByte c).val : Int) = c := by
  refine ⟨_, _, process_8_eq double64 s hg hh, process_9_eq double64 s hg hh, ?_⟩
  intro row col hrow hcol
  obtain ⟨⟨r0, r1⟩, ⟨g0, g1⟩, ⟨b0, b1⟩⟩ := hb.pxD hg hrow hcol
  obtain ⟨dr, dr0, dr1⟩ := darken_double (pxD g row col).red s r0 (by omega) hs0.le hs1.le
  obtain ⟨dg, dg0, dg1⟩ := darken_double (pxD g row col).green s g0 (by omega) hs0.le hs1.le
  obtain ⟨db, db0, db1⟩ := darken_double (pxD g row col).blue s b0 (by omega) hs0.le hs1.le
  obtain ⟨lr, lr0, lr1⟩ := lighten_double (pxD g row col).red s r0 r1 hs0.le hs1.le
  obtain ⟨lg, lg0, lg1⟩ := lighten_double (pxD g row col).green s g0 g1 hs0.le hs1.le
  obtain ⟨lb, lb0, lb1⟩ := lighten_double (pxD g row col).blue s b0 b1 hs0.le hs1.le
  refine ⟨pxD g row col, _, _, hg.pxD_eq hrow hcol, px_tab _ hrow hcol, px_tab _ hrow hcol,
    ?_, ?_, ⟨⟨dr0, dr1⟩, ⟨dg0, dg1⟩, ⟨db0, db1⟩⟩, ⟨⟨lr0, lr1⟩, ⟨lg0, lg1⟩, ⟨lb0, lb1⟩⟩, ?_⟩
  · unfold darkenPixel
    rw [dr, dg, db]
  · unfold lightenPixel
    rw [lr, lg, lb]
  · intro c hc
    simp only [List.mem_cons, List.mem_singleton, List.not_mem_nil, or_false] at hc
    have hc' : 0 ≤ c ∧ c ≤ 255 := by
      rcases hc with e | e | e | e | e | e
      · exact e ▸ ⟨le_trans r0 lr0, lr1⟩
      · exact e ▸ ⟨le_trans g0 lg0, lg1⟩
      · exact e ▸ ⟨le_trans b0 lb0, lb1⟩
      · exact e ▸ ⟨dr0, le_trans dr1 r1⟩
      · exact e ▸ ⟨dg0, le_trans dg1 g1⟩
      · exact e ▸ ⟨db0, le_trans db1 b1⟩
    exact toByte_val_of_range c hc'.1 hc'.2

theorem lighten_darken_in_range_witness :
    IsRect [[⟨100, 3, 255⟩]] 1 1 ∧ 0 < 1 ∧ InByteRange [[⟨100, 3, 255⟩]] ∧
    (0 : ℚ) < 6004799503160661 / 18014398509481984 ∧
    (6004799503160661 / 18014398509481984 : ℚ) < 1 ∧
    process_8 double64 [[⟨100, 3, 255⟩]] (6004799503160661 / 18014398509481984 : ℚ)
      = some [[⟨203, 171, 255⟩]] ∧
    process_9 double64 [[⟨100, 3, 255⟩]] (6004799503160661 / 18014398509481984 : ℚ)
      = some [[⟨33, 1, 85⟩]] ∧
    ∃ o8 o9,
      process_8 double64 [[⟨100, 3, 255⟩]] (6004799503160661 / 18014398509481984 : ℚ)
        = some o8 ∧
      process_9 double64 [[⟨100, 3, 255⟩]] (6004799503160661 / 18014398509481984 : ℚ)
        = some o9 ∧
      ∀ row col, row < 1 → col < 1 →
        ∃ p q8 q9, px [[⟨100, 3, 255⟩]] row col = some p ∧ px o8 row col = some q8 ∧
          px o9 row col = some q9 ∧
          q9 = ⟨trunc (roundDouble (p.red * (6004799503160661 / 18014398509481984 : ℚ))),
                trunc (roundDouble (p.green * (6004799503160661 / 18014398509481984 : ℚ))),
                trunc (roundDouble (p.blue * (6004799503160661 / 18014398509481984 : ℚ)))⟩ ∧
          q8 = ⟨trunc (roundDouble (255 - roundDouble ((255 - p.red)
                  * (6004799503160661 / 18014398509481984 : ℚ)))),
                trunc (roundDouble (255 - roundDouble ((255 - p.green)
                  * (6004799503160661 / 18014398509481984 : ℚ)))),
                trunc (roundDouble (255 - roundDouble ((255 - p.blue)
                  * (6004799503160661 / 18014398509481984 : ℚ))))⟩ ∧
          ((0 ≤ q9.red ∧ q9.red ≤ p.red) ∧ (0 ≤ q9.green ∧ q9.green ≤ p.green) ∧
            (0 ≤ q9.blue ∧ q9.blue ≤ p.blue)) ∧
          ((p.red ≤ q8.red ∧ q8.red ≤ 255) ∧ (p.green ≤ q8.green ∧ q8.green ≤ 255) ∧
            (p.blue ≤ q8.blue ∧ q8.blue ≤ 255)) ∧
          ∀ c ∈ [q8.red, q8.green, q8.blue, q9.red, q9.green, q9.blue],
            ((toByte c).val : Int) = c :=
  ⟨by simp [IsRect], by decide, by simp [InByteRange], by norm_num, by norm_num,
    by decide!, by decide!,
    lighten_darken_in_range _ 1 1 (by simp [IsRect]) (by decide) (by simp [InByteRange])
      (6004799503160661 / 18014398509481984 : ℚ) (by norm_num) (by norm_num)⟩

/-! ## Decoding a truncated file -/

/-- C20 (the code at the failing input): `truncated_file` is `sample_file` cut
after 58 bytes; its header passes the size test of `read_image`, the reads past the
end of the file return `-1`, and `read_image` returns the non-empty grid
`[[(1,2,3), (-1,-1,6)]]`, which has channels outside `[0, 255]`. -/
theorem read_image_truncated_file :
    truncated_file = sample_file.take 58 ∧
    read_image sample_file = some [[⟨1, 2, 3⟩, ⟨4, 5, 6⟩]] ∧
    read_image truncated_file = some [[⟨1, 2, 3⟩, ⟨-1, -1, 6⟩]] ∧
    ¬ InByteRange [[⟨1, 2, 3⟩, ⟨-1, -1, 6⟩]] := by
  refine ⟨by decide, by decide, by decide, ?_⟩
  intro h
  have := (h [⟨1, 2, 3⟩, ⟨-1, -1, 6⟩] (by simp) ⟨-1, -1, 6⟩ (by simp)).1.1
  exact absurd this (by decide)

/-! ## Algebraic laws of the transforms -/

theorem posterizePixel_mem (p : Pixel) :
    posterizePixel p = ⟨255, 255, 255⟩ ∨ posterizePixel p = ⟨0, 0, 0⟩ ∨
    posterizePixel p = ⟨255, 0, 0⟩ ∨ posterizePixel p = ⟨0, 255, 0⟩ ∨
    posterizePixel p = ⟨0, 0, 255⟩ := by
  unfold posterizePixel
  split
  · exact Or.inl rfl
  · split
    · exact Or.inr (Or.inl rfl)
    · split
      · exact Or.inr (Or.inr (Or.inl rfl))
      · split
        · exact Or.inr (Or.inr (Or.inr (Or.inl rfl)))
        · exact Or.inr (Or.inr (Or.inr (Or.inr rfl)))

theorem posterizePixel_idem (p : Pixel) :
    posterizePixel (posterizePixel p) = posterizePixel p := by
  rcases posterizePixel_mem p with e | e | e | e | e <;> rw [e] <;> decide

/-- C26: for every rectangular grid of `h ≥ 1` rows and `w ≥ 1` columns,
`process_4` applied twice returns the grid that `rotate_180` returns. -/
theorem process_4_twice_eq_rotate_180 (g : Grid) (h w : Nat) (hg : IsRect g h w)
    (hh : 0 < h) (hw : 0 < w) :
    ∃ q r, process_4 g = some q ∧ process_4 q = some r ∧ rotate_180 g = some r := by
  refine ⟨_, _, process_4_eq hg hh, process_4_eq (isRect_tab w h _) hw, ?_⟩
  rw [rotate_180_eq hg hh]
  refine congrArg some (tab_congr ?_)
  intro a b ha hb
  rw [pxD_tab _ (by omega) ha]

theorem process_4_twice_eq_rotate_180_witness :
    IsRect [[⟨1, 2, 3⟩, ⟨4, 5, 6⟩, ⟨7, 8, 9⟩], [⟨10, 11, 12⟩, ⟨13, 14, 15⟩, ⟨16, 17, 18⟩]] 2 3 ∧
    0 < 2 ∧ 0 < 3 ∧
    rotate_180 [[⟨1, 2, 3⟩, ⟨4, 5, 6⟩, ⟨7, 8, 9⟩], [⟨10, 11, 12⟩, ⟨13, 14, 15⟩, ⟨16, 17, 18⟩]]
      = some [[⟨16, 17, 18⟩, ⟨13, 14, 15⟩, ⟨10, 11, 12⟩], [⟨7, 8, 9⟩, ⟨4, 5, 6⟩, ⟨1, 2, 3⟩]] ∧
    ∃ q r,
      process_4 [[⟨1, 2, 3⟩, ⟨4, 5, 6⟩, ⟨7, 8, 9⟩], [⟨10, 11, 12⟩, ⟨13, 14, 15⟩, ⟨16, 17, 18⟩]]
        = some q ∧
      process_4 q = some r ∧
      rotate_180 [[⟨1, 2, 3⟩, ⟨4, 5, 6⟩, ⟨7, 8, 9⟩], [⟨10, 11, 12⟩, ⟨13, 14, 15⟩, ⟨16, 17, 18⟩]]
        = some r :=
  ⟨by simp [IsRect], by decide, by decide, by decide,
    process_4_twice_eq_rotate_180 _ 2 3 (by simp [IsRect]) (by decide) (by decide)⟩

/-- C27 (the code at the failing input): on the one-row grid `[[(1,2,3), (4,5,6)]]`
one quarter turn followed by two quarter turns gives `[[(4,5,6)], [(1,2,3)]]`,
while `process_5` with `1 + 2 = 3` quarter turns calls `rotate_270`, which
transposes, and gives `[[(1,2,3)], [(4,5,6)]]`. -/
theorem process_5_not_additive :
    (process_5 [[⟨1, 2, 3⟩, ⟨4, 5, 6⟩]] 1).bind (fun q => process_5 q 2)
      = some [[⟨4, 5, 6⟩], [⟨1, 2, 3⟩]] ∧
    process_5 [[⟨1, 2, 3⟩, ⟨4, 5, 6⟩]] (1 + 2) = some [[⟨1, 2, 3⟩], [⟨4, 5, 6⟩]] ∧
    process_5 [[⟨1, 2, 3⟩, ⟨4, 5, 6⟩]] (1 + 2) = rotate_270 [[⟨1, 2, 3⟩, ⟨4, 5, 6⟩]] ∧
    (process_5 [[⟨1, 2, 3⟩, ⟨4, 5, 6⟩]] 1).bind (fun q => process_5 q 2)
      ≠ process_5 [[⟨1, 2, 3⟩, ⟨4, 5, 6⟩]] (1 + 2) := by
  decide

/-- C29: for every rectangular grid of `h ≥ 1` rows with arbitrary `int` channels,
`process_10` returns a grid of the same dimensions, every pixel of which is one of
`(255,255,255)`, `(0,0,0)`, `(255,0,0)`, `(0,255,0)`, `(0,0,255)`, and `process_10`
applied to that grid returns it unchanged. -/
theorem process_10_idempotent (g : Grid) (h w : Nat) (hg : IsRect g h w) (hh : 0 < h) :
    ∃ out, process_10 g = some out ∧ IsRect out h w ∧
      (∀ row col, row < h → col < w →
        ∃ q, px out row col = some q ∧
          (q = ⟨255, 255, 255⟩ ∨ q = ⟨0, 0, 0⟩ ∨ q = ⟨255, 0, 0⟩ ∨ q = ⟨0, 255, 0⟩ ∨
            q = ⟨0, 0, 255⟩)) ∧
      process_10 out = some out := by
  refine ⟨_, process_10_eq hg hh, isRect_tab _ _ _, ?_, ?_⟩
  · intro row col hrow hcol
    exact ⟨_, px_tab _ hrow hcol, posterizePixel_mem _⟩
  · rw [process_10_eq (isRect_tab h w _) hh]
    refine congrArg some (tab_congr ?_)
    intro a b ha hb
    rw [pxD_tab _ ha hb]
    exact posterizePixel_idem _

theorem process_10_idempotent_witness :
    IsRect [[⟨200, 200, 200⟩, ⟨10, 10, 10⟩, ⟨200, 50, 50⟩],
            [⟨-7, 400, 100⟩, ⟨50, 60, 100⟩, ⟨2147483647, 1, 0⟩]] 2 3 ∧ 0 < 2 ∧
    process_10 [[⟨200, 200, 200⟩, ⟨10, 10, 10⟩, ⟨200, 50, 50⟩],
                [⟨-7, 400, 100⟩, ⟨50, 60, 100⟩, ⟨2147483647, 1, 0⟩]]
      = some [[⟨255, 255, 255⟩, ⟨0, 0, 0⟩, ⟨255, 0, 0⟩],
              [⟨0, 255, 0⟩, ⟨0, 0, 255⟩, ⟨0, 0, 0⟩]] ∧
    process_10 [[⟨255, 255, 255⟩, ⟨0, 0, 0⟩, ⟨255, 0, 0⟩],
                [⟨0, 255, 0⟩, ⟨0, 0, 255⟩, ⟨0, 0, 0⟩]]
      = some [[⟨255, 255, 255⟩, ⟨0, 0, 0⟩, ⟨255, 0, 0⟩],
              [⟨0, 255, 0⟩, ⟨0, 0, 255⟩, ⟨0, 0, 0⟩]] ∧
    ∃ out, process_10 [[⟨200, 200, 200⟩, ⟨10, 10, 10⟩, ⟨200, 50, 50⟩],
                       [⟨-7, 400, 100⟩, ⟨50, 60, 100⟩, ⟨2147483647, 1, 0⟩]] = some out ∧
      IsRect out 2 3 ∧
      (∀ row col, row < 2 → col < 3 →
        ∃ q, px out row col = some q ∧
          (q = ⟨255, 255, 255⟩ ∨ q = ⟨0, 0, 0⟩ ∨ q = ⟨255, 0, 0⟩ ∨ q = ⟨0, 255, 0⟩ ∨
            q = ⟨0, 0, 255⟩)) ∧
      process_10 out = some out :=
  ⟨by simp [IsRect], by decide, by decide, by decide,
    process_10_idempotent _ 2 3 (by simp [IsRect]) (by decide)⟩

/-- C28 (counterexample): for the grid of four rows of one pixel and the positive
factors `a = c = 1`, `b = 536870912`, `d = 2`, the inner call overflows
`y = 4 * 536870912` to a negative size and builds no grid, while
`process_6 g (a*c) (b*d)` overflows `y = 4 * 1073741824` to `0` and returns the
empty grid. -/
theorem process_6_compose_overflow :
    wrap32 (4 * 536870912) = -2147483648 ∧ wrap32 (4 * (536870912 * 2)) = 0 ∧
    (process_6 [[⟨1, 2, 3⟩], [⟨4, 5, 6⟩], [⟨7, 8, 9⟩], [⟨10, 11, 12⟩]] 1 536870912).bind
        (fun q => process_6 q 1 2) = none ∧
    process_6 [[⟨1, 2, 3⟩], [⟨4, 5, 6⟩], [⟨7, 8, 9⟩], [⟨10, 11, 12⟩]] (1 * 1) (536870912 * 2)
      = some [] := by
  decide

/-- C28 (amended): for every rectangular grid of `h ≥ 1` rows and `w` columns and
all positive factors `a`, `b`, `c`, `d` such that `w * (a*c)` and `h * (b*d)` fit a
32-bit `int`, `process_6 g a b` returns a grid `q`, `process_6 q c d` returns a
grid `r`, and `process_6 g (a*c) (b*d)` returns the same `r`; and
`process_6 g 1 1` returns `g`. -/
theorem process_6_compose (g : Grid) (h w : Nat) (hg : IsRect g h w) (hh : 0 < h)
    (a b c d : Nat) (ha : 0 < a) (hb : 0 < b) (hc : 0 < c) (hd : 0 < d)
    (hfx : w * (a * c) ≤ 2147483647) (hfy : h * (b * d) ≤ 2147483647) :
    (∃ q r, process_6 g (a : Int) (b : Int) = some q ∧
      process_6 q (c : Int) (d : Int) = some r ∧
      process_6 g ((a : Int) * (c : Int)) ((b : Int) * (d : Int)) = some r) ∧
    process_6 g 1 1 = some g := by
  have hxa : w * a ≤ w * (a * c) := Nat.mul_le_mul_left w (Nat.le_mul_of_pos_right a hc)
  have hyb : h * b ≤ h * (b * d) := Nat.mul_le_mul_left h (Nat.le_mul_of_pos_right b hd)
  have hw1 : w * 1 ≤ w * (a * c) := Nat.mul_le_mul_left w (Nat.mul_pos ha hc)
  have hh1 : h * 1 ≤ h * (b * d) := Nat.mul_le_mul_left h (Nat.mul_pos hb hd)
  have hhb : 0 < h * b := Nat.mul_pos hh hb
  constructor
  · refine ⟨_, _, process_6_eq hg hh a b ha hb (le_trans hxa hfx) (le_trans hyb hfy),
      process_6_eq (isRect_tab (h * b) (w * a) _) hhb c d hc hd
        (by rw [Nat.mul_assoc]; exact hfx) (by rw [Nat.mul_assoc]; exact hfy), ?_⟩
    rw [← Nat.cast_mul, ← Nat.cast_mul,
      process_6_eq hg hh (a * c) (b * d) (Nat.mul_pos ha hc) (Nat.mul_pos hb hd) hfx hfy,
      Nat.mul_assoc h b d, Nat.mul_assoc w a c]
    refine congrArg some (tab_congr ?_)
    intro r s hr hs
    have h1 : r / d < h * b := by
      rw [Nat.div_lt_iff_lt_mul hd, Nat.mul_assoc]
      exact hr
    have h2 : s / c < w * a := by
      rw [Nat.div_lt_iff_lt_mul hc, Nat.mul_assoc]
      exact hs
    rw [pxD_tab _ h1 h2, Nat.div_div_eq_div_mul, Nat.div_div_eq_div_mul,
      Nat.mul_comm d b, Nat.mul_comm c a]
  · have e := process_6_eq hg hh 1 1 (by decide) (by decide) (le_trans hw1 hfx)
      (le_trans hh1 hfy)
    rw [Nat.cast_one] at e
    rw [e]
    refine congrArg some ?_
    simp only [Nat.mul_one, Nat.div_one]
    exact tab_pxD_self hg

theorem process_6_compose_witness :
    IsRect [[⟨10, 20, 30⟩, ⟨40, 50, 60⟩]] 1 2 ∧ 0 < 1 ∧ 0 < 2 ∧ 0 < 1 ∧ 0 < 1 ∧ 0 < 2 ∧
    2 * (2 * 1) ≤ 2147483647 ∧ 1 * (1 * 2) ≤ 2147483647 ∧
    process_6 [[⟨10, 20, 30⟩, ⟨40, 50, 60⟩]] 2 2
      = some [[⟨10, 20, 30⟩, ⟨10, 20, 30⟩, ⟨40, 50, 60⟩, ⟨40, 50, 60⟩],
              [⟨10, 20, 30⟩, ⟨10, 20, 30⟩, ⟨40, 50, 60⟩, ⟨40, 50, 60⟩]] ∧
    (∃ q r, process_6 [[⟨10, 20, 30⟩, ⟨40, 50, 60⟩]] ((2 : Nat) : Int) ((1 : Nat) : Int)
        = some q ∧
      process_6 q ((1 : Nat) : Int) ((2 : Nat) : Int) = some r ∧
      process_6 [[⟨10, 20, 30⟩, ⟨40, 50, 60⟩]] (((2 : Nat) : Int) * ((1 : Nat) : Int))
        (((1 : Nat) : Int) * ((2 : Nat) : Int)) = some r) ∧
    process_6 [[⟨10, 20, 30⟩, ⟨40, 50, 60⟩]] 1 1 = some [[⟨10, 20, 30⟩, ⟨40, 50, 60⟩]] :=
  ⟨by simp [IsRect], by decide, by decide, by decide, by decide, by decide, by decide,
    by decide, by decide,
    process_6_compose _ 1 2 (by simp [IsRect]) (by decide) 2 1 1 2 (by decide) (by decide)
      (by decide) (by decide) (by decide) (by decide)⟩

/-! ## The vignette -/

theorem vignetteFactor_unit (C : CMath double64) (h w row col : Nat) (hh : 0 < h)
    (hh31 : h ≤ 2147483647)
    (h0 : (0 : ℚ) ≤ (vignetteDistance double64 C h w row col : ℚ))
    (h1 : (vignetteDistance double64 C h w row col : ℚ) ≤ (h : ℚ)) :
    (0 : ℚ) ≤ (vignetteFactor double64 C h w row col : ℚ) ∧
      (vignetteFactor double64 C h w row col : ℚ) ≤ (1 : ℚ) := by
  have hq : (0 : ℚ) < ((h : Int) : ℚ) := by exact_mod_cast hh
  have eh : roundDouble ((h : Int) : ℚ) = ((h : Int) : ℚ) :=
    roundDouble_intCast (h : Int) (by omega) (by omega)
  have e : (vignetteFactor double64 C h w row col : ℚ)
      = roundDouble (roundDouble (((h : Int) : ℚ)
          - (vignetteDistance double64 C h w row col : ℚ)) / ((h : Int) : ℚ)) := by
    show roundDouble (roundDouble (roundDouble ((h : Int) : ℚ)
      - (vignetteDistance double64 C h w row col : ℚ)) / roundDouble ((h : Int) : ℚ)) = _
    rw [eh]
  have h1' : (vignetteDistance double64 C h w row col : ℚ) ≤ ((h : Int) : ℚ) := by
    push_cast
    exact h1
  obtain ⟨x0, x1⟩ := roundDouble_between (a := 0) (b := (h : Int)) (by decide) (by omega)
    (q := ((h : Int) : ℚ) - (vignetteDistance double64 C h w row col : ℚ))
    (by push_cast; push_cast at h1'; linarith) (by linarith)
  have y0 : ((0 : Int) : ℚ) ≤ roundDouble (((h : Int) : ℚ)
      - (vignetteDistance double64 C h w row col : ℚ)) / ((h : Int) : ℚ) := by
    push_cast
    push_cast at x0
    exact div_nonneg x0 (by exact_mod_cast hq.le)
  have y1 : roundDouble (((h : Int) : ℚ)
      - (vignetteDistance double64 C h w row col : ℚ)) / ((h : Int) : ℚ) ≤ ((1 : Int) : ℚ) := by
    push_cast
    rw [div_le_one (by exact_mod_cast hq)]
    exact_mod_cast x1
  obtain ⟨z0, z1⟩ := roundDouble_between (a := 0) (b := 1) (by decide) (by decide) y0 y1
  rw [e]
  constructor
  · exact_mod_cast z0
  · exact_mod_cast z1

/-- C21 (counterexample): on the grid of one row of four pixels `(100,100,100)`, in
IEEE binary64 arithmetic, the pixel at column 0 has distance `sqrt 4 = 2` from the
centre column `4/2 = 2`, the factor is `(1 - 2) / 1 = -1`, and `process_1` stores
the channel `-100`, which is below `0`. -/
theorem process_1_wide_grid_negative :
    IsRect [[⟨100, 100, 100⟩, ⟨100, 100, 100⟩, ⟨100, 100, 100⟩, ⟨100, 100, 100⟩]] 1 4 ∧
    InByteRange [[⟨100, 100, 100⟩, ⟨100, 100, 100⟩, ⟨100, 100, 100⟩, ⟨100, 100, 100⟩]] ∧
    (vignetteDistance double64 cmath64 1 4 0 0 : ℚ) = (2 : ℚ) ∧
    (vignetteFactor double64 cmath64 1 4 0 0 : ℚ) = (-1 : ℚ) ∧
    process_1 double64 cmath64
        [[⟨100, 100, 100⟩, ⟨100, 100, 100⟩, ⟨100, 100, 100⟩, ⟨100, 100, 100⟩]]
      = some [[⟨-100, -100, -100⟩, ⟨0, 0, 0⟩, ⟨100, 100, 100⟩, ⟨0, 0, 0⟩]] := by
  refine ⟨by simp [IsRect], by simp [InByteRange], by decide!, by decide!, by decide!⟩

/-- C21 (amended): in IEEE binary64 arithmetic, for any `sqrt` and `pow`, every
rectangular grid of `h ≥ 1` rows (`h` an `int`) with channels in `[0, 255]`, and
every position whose `distance` lies between `0` and the height `h`, each channel
of `process_1(g)` at that position satisfies `0 <= out <= input channel`. -/
theorem process_1_darkens (C : CMath double64) (g : Grid) (h w : Nat)
    (hg : IsRect g h w) (hh : 0 < h) (hh31 : h ≤ 2147483647) (hb : InByteRange g) :
    ∃ out, process_1 double64 C g = some out ∧ IsRect out h w ∧
      ∀ row col, row < h → col < w →
        (0 : ℚ) ≤ (vignetteDistance double64 C h w row col : ℚ) →
        (vignetteDistance double64 C h w row col : ℚ) ≤ (h : ℚ) →
        ∃ p q, px g row col = some p ∧ px out row col = some q ∧
          (0 ≤ q.red ∧ q.red ≤ p.red) ∧ (0 ≤ q.green ∧ q.green ≤ p.green) ∧
          (0 ≤ q.blue ∧ q.blue ≤ p.blue) := by
  refine ⟨_, process_1_eq double64 C hg hh, isRect_tab _ _ _, ?_⟩
  intro row col hrow hcol h0 h1
  obtain ⟨⟨r0, r1⟩, ⟨g0, g1⟩, ⟨b0, b1⟩⟩ := hb.pxD hg hrow hcol
  obtain ⟨f0, f1⟩ := vignetteFactor_unit C h w row col hh hh31 h0 h1
  exact ⟨pxD g row col, _, hg.pxD_eq hrow hcol, px_tab _ hrow hcol,
    (darken_double _ _ r0 (by omega) f0 f1).2, (darken_double _ _ g0 (by omega) f0 f1).2,
    (darken_double _ _ b0 (by omega) f0 f1).2⟩

theorem process_1_darkens_witness :
    IsRect [[⟨100, 50, 200⟩, ⟨100, 50, 200⟩], [⟨100, 50, 200⟩, ⟨100, 50, 200⟩]] 2 2 ∧ 0 < 2 ∧
    2 ≤ 2147483647 ∧
    InByteRange [[⟨100, 50, 200⟩, ⟨100, 50, 200⟩], [⟨100, 50, 200⟩, ⟨100, 50, 200⟩]] ∧
    (vignetteDistance double64 cmath64 2 2 0 0 : ℚ) = 6369051672525773 / 4503599627370496 ∧
    process_1 double64 cmath64
        [[⟨100, 50, 200⟩, ⟨100, 50, 200⟩], [⟨100, 50, 200⟩, ⟨100, 50, 200⟩]]
      = some [[⟨29, 14, 58⟩, ⟨50, 25, 100⟩], [⟨50, 25, 100⟩, ⟨100, 50, 200⟩]] ∧
    ∃ out, process_1 double64 cmath64
        [[⟨100, 50, 200⟩, ⟨100, 50, 200⟩], [⟨100, 50, 200⟩, ⟨100, 50, 200⟩]] = some out ∧
      IsRect out 2 2 ∧
      ∀ row col, row < 2 → col < 2 →
        (0 : ℚ) ≤ (vignetteDistance double64 cmath64 2 2 row col : ℚ) →
        (vignetteDistance double64 cmath64 2 2 row col : ℚ) ≤ ((2 : Nat) : ℚ) →
        ∃ p q, px [[⟨100, 50, 200⟩, ⟨100, 50, 200⟩], [⟨100, 50, 200⟩, ⟨100, 50, 200⟩]] row col
            = some p ∧ px out row col = some q ∧
          (0 ≤ q.red ∧ q.red ≤ p.red) ∧ (0 ≤ q.green ∧ q.green ≤ p.green) ∧
          (0 ≤ q.blue ∧ q.blue ≤ p.blue) :=
  ⟨by simp [IsRect], by decide, by decide, by simp [InByteRange], by decide!, by decide!,
    process_1_darkens cmath64 _ 2 2 (by simp [IsRect]) (by decide) (by decide)
      (by simp [InByteRange])⟩

/-! ## Integer fields and row padding -/

theorem get_int_one (s : FStream) (off : Nat) (hf : s.failed = false)
    (hlen : off + 1 ≤ s.data.length) :
    get_int s off 1 = (byteAt s.data off, ⟨s.data, off + 1, false⟩) := by
  have h0 := byteAt_nonneg_of_lt s.data off (by omega)
  have hr : List.range 1 = [0] := rfl
  simp only [get_int, hr, List.foldl, seekg_of_ok s hf off]
  rw [get_of_lt _ rfl (by simpa using by omega)]
  simp only [Prod.mk.injEq, and_true, mul_one, zero_add]
  unfold wrap32
  omega

theorem get_int_three (s : FStream) (off : Nat) (hf : s.failed = false)
    (hlen : off + 3 ≤ s.data.length) :
    get_int s off 3 =
      (byteAt s.data off + byteAt s.data (off + 1) * 256 + byteAt s.data (off + 2) * 65536,
       ⟨s.data, off + 3, false⟩) := by
  have h0 := byteAt_nonneg_of_lt s.data off (by omega)
  have h1 := byteAt_nonneg_of_lt s.data (off + 1) (by omega)
  have h2 := byteAt_nonneg_of_lt s.data (off + 2) (by omega)
  have hr : List.range 3 = [0, 1, 2] := rfl
  simp only [get_int, hr, List.foldl, seekg_of_ok s hf off]
  rw [get_of_lt _ rfl (by simpa using by omega)]
  simp only []
  rw [get_of_lt _ rfl (by simpa using by omega)]
  simp only []
  rw [get_of_lt _ rfl (by simpa using by omega)]
  have wb1 : wrap32 (1 * 256) = 256 := by decide
  have wb2 : wrap32 (256 * 256) = 65536 := by decide
  simp only [wb1, wb2, Nat.add_assoc, Nat.reduceAdd, Prod.mk.injEq, and_true,
    mul_one, zero_add]
  unfold wrap32
  omega

/-- The positional value of the `n` bytes of `file` from offset `off`: byte `i`
contributes `byte_value * 256^i`. -/
theorem positional_sum_four (file : List Byte) (off : Nat) :
    ((List.range 4).map (fun i => byteAt file (off + i) * 256 ^ i)).sum
      = byteAt file off + byteAt file (off + 1) * 256 + byteAt file (off + 2) * 65536
        + byteAt file (off + 3) * 16777216 := by
  have hr : List.range 4 = [0, 1, 2, 3] := rfl
  simp only [hr, List.map_cons, List.map_nil, List.sum_cons, List.sum_nil, Nat.add_zero]
  ring

theorem positional_sum_three (file : List Byte) (off : Nat) :
    ((List.range 3).map (fun i => byteAt file (off + i) * 256 ^ i)).sum
      = byteAt file off + byteAt file (off + 1) * 256 + byteAt file (off + 2) * 65536 := by
  have hr : List.range 3 = [0, 1, 2] := rfl
  simp only [hr, List.map_cons, List.map_nil, List.sum_cons, List.sum_nil, Nat.add_zero]
  ring

theorem positional_sum_two (file : List Byte) (off : Nat) :
    ((List.range 2).map (fun i => byteAt file (off + i) * 256 ^ i)).sum
      = byteAt file off + byteAt file (off + 1) * 256 := by
  have hr : List.range 2 = [0, 1] := rfl
  simp only [hr, List.map_cons, List.map_nil, List.sum_cons, List.sum_nil, Nat.add_zero]
  ring

theorem positional_sum_one (file : List Byte) (off : Nat) :
    ((List.range 1).map (fun i => byteAt file (off + i) * 256 ^ i)).sum
      = byteAt file off := by
  have hr : List.range 1 = [0] := rfl
  simp only [hr, List.map_cons, List.map_nil, List.sum_cons, List.sum_nil, Nat.add_zero]
  ring

theorem byteAt_set_four (arr : List Byte) (off : Nat) (b0 b1 b2 b3 : Byte)
    (h : off + 3 < arr.length) :
    byteAt ((((arr.set off b0).set (off + 1) b1).set (off + 2) b2).set (off + 3) b3) off
        = (b0.val : Int) ∧
    byteAt ((((arr.set off b0).set (off + 1) b1).set (off + 2) b2).set (off + 3) b3) (off + 1)
        = (b1.val : Int) ∧
    byteAt ((((arr.set off b0).set (off + 1) b1).set (off + 2) b2).set (off + 3) b3) (off + 2)
        = (b2.val : Int) ∧
    byteAt ((((arr.set off b0).set (off + 1) b1).set (off + 2) b2).set (off + 3) b3) (off + 3)
        = (b3.val : Int) := by
  have l0 : off < arr.length := by omega
  have l1 : off + 1 < arr.length := by omega
  have l2 : off + 2 < arr.length := by omega
  refine ⟨?_, ?_, ?_, ?_⟩ <;>
    simp [byteAt, List.getElem?_set, l0, l1, l2, h]

/-- C22: for every stream whose fail bit is clear, every offset and every byte
count `n` in `{1, 2, 3, 4}` such that the `n` bytes at that offset exist and their
positional sum fits a signed 32-bit `int`, `get_int` returns the sum over `i < n`
of `b_i * 256^i`; and for every `0 <= v < 2^31`, `get_int` reads `v` back from the
four bytes that `set_bytes(arr, off, 4, v)` stores. -/
theorem get_int_little_endian :
    (∀ (s : FStream) (off n : Nat), s.failed = false → 1 ≤ n → n ≤ 4 →
      off + n ≤ s.data.length →
      ((List.range n).map (fun i => byteAt s.data (off + i) * 256 ^ i)).sum ≤ 2147483647 →
      (∀ i, i < n → 0 ≤ byteAt s.data (off + i) ∧ byteAt s.data (off + i) ≤ 255) ∧
      (get_int s off n).1
        = ((List.range n).map (fun i => byteAt s.data (off + i) * 256 ^ i)).sum) ∧
    (∀ (arr : List Byte) (off : Nat) (v : Int), 0 ≤ v → v < 2147483648 →
      off + 4 ≤ arr.length →
      ∃ arr', set_bytes arr off 4 v = some arr' ∧ arr'.length = arr.length ∧
        (get_int ⟨arr', 0, false⟩ off 4).1 = v) := by
  constructor
  · intro s off n hf h1 h4 hlen hfit
    refine ⟨fun i hi => byteAt_nonneg_of_lt s.data (off + i) (by omega), ?_⟩
    have hn : n = 1 ∨ n = 2 ∨ n = 3 ∨ n = 4 := by omega
    rcases hn with e | e | e | e
    · subst e
      rw [get_int_one s off hf hlen, positional_sum_one]
    · subst e
      rw [get_int_two s off hf hlen, positional_sum_two]
    · subst e
      rw [get_int_three s off hf hlen, positional_sum_three]
    · subst e
      rw [positional_sum_four] at hfit
      rw [get_int_four s off hf hlen, positional_sum_four]
      have h0 := byteAt_nonneg_of_lt s.data off (by omega)
      have h1 := byteAt_nonneg_of_lt s.data (off + 1) (by omega)
      have h2 := byteAt_nonneg_of_lt s.data (off + 2) (by omega)
      have h3 := byteAt_nonneg_of_lt s.data (off + 3) (by omega)
      exact wrap32_of_range (by omega) hfit
  · intro arr off v hv0 hv1 hlen
    refine ⟨_, set_bytes_four arr off v (by omega), by simp, ?_⟩
    rw [get_int_four _ off rfl (by simpa using hlen)]
    obtain ⟨b0, b1, b2, b3⟩ := byteAt_set_four arr off (toByte v) (toByte (v >>> (8 : Nat)))
      (toByte (v >>> (16 : Nat))) (toByte (v >>> (24 : Nat))) (by omega)
    simp only []
    rw [b0, b1, b2, b3]
    exact le4_sum v (by omega) (by omega)

theorem get_int_little_endian_witness :
    ((get_int ⟨[1, 2, 3, 4, 5], 0, false⟩ 1 3).1 = 2 + 3 * 256 + 4 * 65536) ∧
    (∃ arr', set_bytes [9, 9, 9, 9, 9, 9] 1 4 305419896 = some arr' ∧
      arr'.length = 6 ∧ (get_int ⟨arr', 0, false⟩ 1 4).1 = 305419896) ∧
    set_bytes [9, 9, 9, 9, 9, 9] 1 4 305419896 = some [9, 120, 86, 52, 18, 9] :=
  ⟨((get_int_little_endian.1 ⟨[1, 2, 3, 4, 5], 0, false⟩ 1 3 rfl (by decide) (by decide)
      (by decide) (by decide)).2).trans (by decide),
    get_int_little_endian.2 [9, 9, 9, 9, 9, 9] 1 305419896 (by decide) (by decide) (by decide),
    by decide⟩

/-- C23: for every header whose scan-line size `n` is non-negative, the padding of
`read_image` (`0` if `n % 4 = 0`, else `4 - n % 4`) lies in `{0, 1, 2, 3}`, makes
`n + padding` a multiple of four, is the only such value, and equals the formula
`(4 - n % 4) % 4` of `write_image`; so for a 24-bit header of width `w` it is the
padding `write_image` computes for an image `w` pixels wide. -/
theorem padding_round_up (hd : Header) (hn : 0 ≤ scanline_size hd) :
    (0 ≤ padding hd ∧ padding hd ≤ 3) ∧
    (scanline_size hd + padding hd) % 4 = 0 ∧
    (∀ p : Int, 0 ≤ p → p ≤ 3 → (scanline_size hd + p) % 4 = 0 → p = padding hd) ∧
    padding hd = (4 - (scanline_size hd).tmod 4).tmod 4 ∧
    ∀ w : Nat, hd.bits_per_pixel = 24 → hd.width = (w : Int) → padding hd = enc_padding w := by
  have key : padding hd = (4 - (scanline_size hd).tmod 4).tmod 4 := by
    unfold padding
    have t1 : (scanline_size hd).tmod 4 = scanline_size hd % 4 := by
      rw [tmod_eq_ite _ 4 (by decide), if_pos hn]
    rw [t1]
    have t2 : (4 - scanline_size hd % 4).tmod 4 = (4 - scanline_size hd % 4) % 4 := by
      rw [tmod_eq_ite _ 4 (by decide), if_pos (by omega)]
    rw [t2]
    split <;> omega
  have hp : padding hd = if scanline_size hd % 4 ≠ 0 then 4 - scanline_size hd % 4 else 0 := by
    unfold padding
    rw [tmod_eq_ite _ 4 (by decide), if_pos hn]
  refine ⟨?_, ?_, ?_, key, ?_⟩
  · rw [hp]
    split <;> omega
  · rw [hp]
    split <;> omega
  · intro p p0 p3 hmod
    rw [hp]
    split <;> omega
  · intro w hb hw
    rw [key]
    unfold enc_padding scanline_size
    rw [hb, hw]
    rfl

theorem padding_round_up_witness :
    0 ≤ scanline_size ⟨70, 54, 5, 1, 24, ⟨[], 0, false⟩⟩ ∧
    scanline_size ⟨70, 54, 5, 1, 24, ⟨[], 0, false⟩⟩ = 15 ∧
    padding ⟨70, 54, 5, 1, 24, ⟨[], 0, false⟩⟩ = 1 ∧ enc_padding 5 = 1 ∧
    ((0 ≤ padding ⟨70, 54, 5, 1, 24, ⟨[], 0, false⟩⟩ ∧
        padding ⟨70, 54, 5, 1, 24, ⟨[], 0, false⟩⟩ ≤ 3) ∧
      (scanline_size ⟨70, 54, 5, 1, 24, ⟨[], 0, false⟩⟩
        + padding ⟨70, 54, 5, 1, 24, ⟨[], 0, false⟩⟩) % 4 = 0 ∧
      (∀ p : Int, 0 ≤ p → p ≤ 3 →
        (scanline_size ⟨70, 54, 5, 1, 24, ⟨[], 0, false⟩⟩ + p) % 4 = 0 →
        p = padding ⟨70, 54, 5, 1, 24, ⟨[], 0, false⟩⟩) ∧
      padding ⟨70, 54, 5, 1, 24, ⟨[], 0, false⟩⟩
        = (4 - (scanline_size ⟨70, 54, 5, 1, 24, ⟨[], 0, false⟩⟩).tmod 4).tmod 4 ∧
      ∀ w : Nat, (24 : Int) = 24 → (5 : Int) = (w : Int) →
        padding ⟨70, 54, 5, 1, 24, ⟨[], 0, false⟩⟩ = enc_padding w) :=
  ⟨by decide, by decide, by decide, by decide,
    padding_round_up ⟨70, 54, 5, 1, 24, ⟨[], 0, false⟩⟩ (by decide)⟩

/-! ## Encoding arbitrary channels -/

theorem toByte_val (c : Int) : ((toByte c).val : Int) = c % 256 := by
  simp only [toByte]
  omega

theorem seekg_neg_failed (s : FStream) (p : Int) (hp : p < 0) : (s.seekg p).failed = true := by
  unfold FStream.seekg
  by_cases hf : s.failed = true
  · rw [if_pos hf]
    exact hf
  · rw [if_neg hf, if_pos hp]

theorem forUp_one {σ : Type} (body : Nat → σ → Option σ) (s : σ) :
    forUp 1 body s = body 0 s := by
  unfold forUp
  have hr : List.range 1 = [0] := rfl
  rw [hr]
  simp [List.foldlM]

/-- One pixel read of `read_image` in any stream state: the three stores succeed
and `pos` advances; when `pos` is negative the `seekg` fails and the three channels
are end-of-file (`-1`). -/
theorem read_pixel_any {img : Grid} {h w : Nat} (hg : IsRect img h w) {i j : Nat}
    (hi : i < h) (hj : j < w) (st : FStream) (pos d : Int) :
    ∃ img' st', read_pixel i j d (img, pos, st) = some (img', wrap32 (pos + d), st') ∧
      IsRect img' h w ∧ (pos < 0 → px img' i j = some ⟨-1, -1, -1⟩) := by
  obtain ⟨img', e, r, q⟩ := store3bgr_spec hg hi hj (st.seekg pos).get.1
    (st.seekg pos).get.2.get.1 (st.seekg pos).get.2.get.2.get.1
  refine ⟨img', (st.seekg pos).get.2.get.2.get.2, ?_, r, ?_⟩
  · simp only [read_pixel, Option.bind_eq_bind]
    cases e1 : setBlue img i j (st.seekg pos).get.1 with
    | none => simp [e1] at e
    | some g1 =>
      simp only [e1, Option.some_bind] at e ⊢
      cases e2 : setGreen g1 i j (st.seekg pos).get.2.get.1 with
      | none => simp [e2] at e
      | some g2 =>
        simp only [e2, Option.some_bind] at e ⊢
        rw [e]
        rfl
  · intro hp
    have f1 := seekg_neg_failed st pos hp
    have g1 := get_of_failed _ f1
    rw [q i j, if_pos ⟨rfl, rfl⟩, g1]
    simp only []
    rw [g1]
    simp only []
    rw [g1]

/-- The row loop of `read_image` on a one-column image whose last row is read at a
position that has overflowed: the pixel read last, `image[0][0]`, is
`(-1, -1, -1)`. -/
theorem read_rows_overflow (h : Nat) (hh : 0 < h)
    (hov : wrap32 (54 + 4 * ((h : Int) - 1)) < 0)
    (img0 : Grid) (hrect : IsRect img0 h 1) (st0 : FStream) :
    ∃ fin, forDown h (fun i st => do
        let st ← forUp 1 (fun j st => read_pixel i j ((3 : Nat) : Int) st) st
        some (st.1, wrap32 (st.2.1 + ((1 : Nat) : Int)), st.2.2.seekg_cur ((1 : Nat) : Int)))
        (img0, ((54 : Nat) : Int), st0) = some fin ∧
      IsRect fin.1 h 1 ∧ px fin.1 0 0 = some ⟨-1, -1, -1⟩ := by
  obtain ⟨fin, e, hI⟩ := forDown_inv h
    (fun i st => do
        let st ← forUp 1 (fun j st => read_pixel i j ((3 : Nat) : Int) st) st
        some (st.1, wrap32 (st.2.1 + ((1 : Nat) : Int)), st.2.2.seekg_cur ((1 : Nat) : Int)))
    (fun k (st : Grid × Int × FStream) => IsRect st.1 h 1 ∧ st.2.1 = wrap32 (54 + 4 * (k : Int)) ∧
      (k = h → px st.1 0 0 = some ⟨-1, -1, -1⟩))
    (img0, ((54 : Nat) : Int), st0)
    ⟨hrect, (by decide : ((54 : Nat) : Int) = wrap32 (54 + 4 * ((0 : Nat) : Int))),
      fun e => by omega⟩
    (by
      intro k hk s hs
      obtain ⟨img, pos, st⟩ := s
      obtain ⟨hr, hp, _⟩ := hs
      simp only at hr hp
      obtain ⟨img', st', e, r, q⟩ := read_pixel_any hr (i := h - 1 - k) (j := 0)
        (by omega) (by decide) st pos ((3 : Nat) : Int)
      simp only [forUp_one, Option.bind_eq_bind, e, Option.some_bind]
      refine ⟨_, rfl, r, ?_, ?_⟩
      · simp only []
        rw [hp]
        unfold wrap32
        push_cast
        omega
      · intro hk1
        have hi0 : h - 1 - k = 0 := by omega
        rw [hi0] at q
        apply q
        rw [hp]
        have hk2 : (k : Int) = (h : Int) - 1 := by omega
        rw [hk2]
        exact hov)
  exact ⟨fin, e, hI.1, hI.2.2 rfl⟩

/-- The function `read_image` on a 24-bit file of width one whose header passes the
size test in wrapped arithmetic although the last row lies past the range of
`int`. -/
theorem read_image_pos_overflow (file : List Byte) (h : Nat)
    (hS : (read_header file).start = ((54 : Nat) : Int))
    (hw : (read_header file).width = ((1 : Nat) : Int))
    (hh : (read_header file).height = (h : Int))
    (hb : (read_header file).bits_per_pixel = 24)
    (hcheck : (read_header file).file_size = wrap32 (54 + wrap32 (4 * (h : Int))))
    (hpos : 0 < h) (hov : wrap32 (54 + 4 * ((h : Int) - 1)) < 0) :
    ∃ g, read_image file = some g ∧ IsRect g h 1 ∧ px g 0 0 = some ⟨-1, -1, -1⟩ := by
  have hd8 : (read_header file).bits_per_pixel.tdiv 8 = ((3 : Nat) : Int) := by
    rw [hb]; decide
  have hscan : scanline_size (read_header file) = 3 := by
    simp only [scanline_size, hw, hd8]
    decide
  have hpad : padding (read_header file) = ((1 : Nat) : Int) := by
    simp only [padding, hscan]
    decide
  have hexp : expected_size (read_header file) = (read_header file).file_size := by
    rw [hcheck]
    unfold expected_size
    rw [hscan, hpad, hh, hS]
    have e4 : wrap32 (3 + ((1 : Nat) : Int)) = 4 := by decide
    rw [e4]
    rfl
  obtain ⟨fin, e, hr, hpx⟩ := read_rows_overflow h hpos hov (newGrid h 1)
    (isRect_newGrid h 1) (read_header file).stream
  refine ⟨fin.1, ?_, hr, hpx⟩
  have hneg : ¬ (((1 : Nat) : Int) < 0 ∨ (h : Int) < 0) := by omega
  simp only [read_image, hexp, ne_eq, not_true_eq_false, if_false, hw, hh, hS, hd8, hpad,
    hneg, Int.toNat_ofNat]
  rw [e]
  rfl

/-- Encoding a grid with arbitrary `int` channels and decoding the result, when the
encoded size fits a 32-bit `int`: every channel comes back reduced modulo 256. -/
theorem read_write_image_mod {g : Grid} {h w : Nat} (hg : IsRect g h w) (hh : 0 < h)
    (hh31 : h ≤ 2147483647)
    (hfit : 54 + (3 * w + padding_bytes w) * h ≤ 2147483647) :
    ∃ out g', write_image g = some out ∧ read_image out = some g' ∧ IsRect g' h w ∧
      ∀ i j, i < h → j < w →
        px g' i j = some ⟨(pxD g i j).red % 256, (pxD g i j).green % 256,
          (pxD g i j).blue % 256⟩ := by
  obtain ⟨body, e, hbl, hpix, hpad⟩ := write_image_eq hg hh
  rw [enc_padding_toNat_gen] at hbl hpix
  have hRle : 3 * w + padding_bytes w ≤ (3 * w + padding_bytes w) * h :=
    Nat.le_mul_of_pos_right _ hh
  have hA := enc_array_bytes_eq h w (by omega) hh
  have hb2 : ((54 + (3 * w + padding_bytes w) * h : Nat) : Int) ≤ 2147483647 := by
    exact_mod_cast hfit
  have hX : wrap32 (54 + enc_array_bytes h w)
      = ((54 + (3 * w + padding_bytes w) * h : Nat) : Int) := by
    rw [hA, ← Nat.cast_ofNat (R := Int) (n := 54), ← Nat.cast_add]
    exact wrap32_of_range (le_trans (by decide) (Int.ofNat_nonneg _)) hb2
  have hXr : -2147483648 ≤ wrap32 (54 + enc_array_bytes h w) ∧
      wrap32 (54 + enc_array_bytes h w) ≤ 2147483647 :=
    ⟨by unfold wrap32; omega, wrap32_le _⟩
  have key : ∃ out : List Byte, write_image g = some out ∧
      read_header out = ⟨wrap32 (54 + enc_array_bytes h w), 54, (w : Int), (h : Int), 24,
        ⟨out, 30, false⟩⟩ ∧
      out.length = 54 + (3 * w + padding_bytes w) * h ∧
      ∀ idx, byteAt out (54 + idx) = byteAt body idx := by
    refine ⟨_, e, read_header_encoded _ _ _ _ body hXr ⟨by omega, by omega⟩
      ⟨by omega, by omega⟩, ?_, ?_⟩
    · simp only [List.length_append, hbl, le4, List.length_cons, List.length_nil]
      rw [Nat.mul_comm]
    · intro idx
      have q := byteAt_append_right (([66, 77] ++ le4 (wrap32 (54 + enc_array_bytes h w))
          ++ [0, 0, 0, 0] ++ [54, 0, 0, 0])
        ++ ([40, 0, 0, 0] ++ le4 (w : Int) ++ le4 (h : Int) ++ [1, 0] ++ [24, 0] ++ [0, 0, 0, 0]
          ++ le4 (enc_array_bytes h w) ++ [19, 11, 0, 0] ++ [19, 11, 0, 0] ++ [0, 0, 0, 0]
          ++ [0, 0, 0, 0])) body idx
      simp only [List.length_append, le4, List.length_cons, List.length_nil] at q
      exact q
  clear e
  obtain ⟨out, e, hhd, hlen, hby⟩ := key
  have hcomm : w * 3 = 3 * w := Nat.mul_comm _ _
  obtain ⟨g', e', hr', hpx'⟩ := read_image_of_valid out 54 h w 3
    (by rw [hhd]; rfl) (by rw [hhd]) (by rw [hhd]) (by rw [hhd]; rfl) (Or.inl rfl)
    (by rw [hhd]; simp only []; rw [hX, rowPad_mul_three, hcomm])
    (by rw [hhd]; simp only []; rw [hX, hlen])
  refine ⟨out, g', e, e', hr', ?_⟩
  intro i j hi hj
  rw [hpx' i j hi hj, rowPad_mul_three, hcomm]
  have hk : h - 1 - i < h := by omega
  obtain ⟨b1, b2, b3⟩ := hpix (h - 1 - i) j hk hj
  have hii : h - 1 - (h - 1 - i) = i := by omega
  rw [hii] at b1 b2 b3
  have hj3 : j * 3 = 3 * j := Nat.mul_comm _ _
  have q0 := hby ((h - 1 - i) * (3 * w + padding_bytes w) + 3 * j)
  have q1 := hby ((h - 1 - i) * (3 * w + padding_bytes w) + 3 * j + 1)
  have q2 := hby ((h - 1 - i) * (3 * w + padding_bytes w) + 3 * j + 2)
  simp only [← Nat.add_assoc] at q0 q1 q2
  simp only [filePixel]
  rw [hj3, q0, q1, q2, byteAt_of_getElem? b1, byteAt_of_getElem? b2, byteAt_of_getElem? b3,
    toByte_val, toByte_val, toByte_val]

/-- C24 (counterexample): the grid of 536870912 rows of the one pixel `(0,0,0)` is
encoded by `write_image`; decoding the bytes written passes the size test in
wrapped arithmetic, the position of the last row read has overflowed, and the
decoded pixel `[0][0]` is `(-1,-1,-1)`, not `(0,0,0)` reduced modulo 256. -/
theorem write_read_overflow :
    ∃ out g', write_image (List.replicate 536870912 [⟨0, 0, 0⟩]) = some out ∧
      read_image out = some g' ∧ IsRect g' 536870912 1 ∧
      px (List.replicate 536870912 [⟨0, 0, 0⟩]) 0 0 = some ⟨0, 0, 0⟩ ∧
      px g' 0 0 = some ⟨-1, -1, -1⟩ := by
  obtain ⟨body, e, -, -, -⟩ := @write_image_eq _ 536870912 1
    (isRect_replicate 536870912 [⟨0, 0, 0⟩]) (by decide)
  have hXr : -2147483648 ≤ wrap32 (54 + enc_array_bytes 536870912 1) ∧
      wrap32 (54 + enc_array_bytes 536870912 1) ≤ 2147483647 :=
    ⟨by unfold wrap32; omega, wrap32_le _⟩
  have key : ∃ out : List Byte,
      write_image (List.replicate 536870912 [⟨0, 0, 0⟩]) = some out ∧
      read_header out = ⟨wrap32 (54 + enc_array_bytes 536870912 1), 54, ((1 : Nat) : Int),
        ((536870912 : Nat) : Int), 24, ⟨out, 30, false⟩⟩ :=
    ⟨_, e, read_header_encoded _ _ _ _ body hXr ⟨by omega, by omega⟩ ⟨by omega, by omega⟩⟩
  clear e
  obtain ⟨out, e, hhd⟩ := key
  obtain ⟨g', e', hr, hp⟩ := read_image_pos_overflow out 536870912
    (by rw [hhd]; rfl) (by rw [hhd]) (by rw [hhd]) (by rw [hhd])
    (by
      rw [hhd]
      show wrap32 (54 + enc_array_bytes 536870912 1)
        = wrap32 (54 + wrap32 (4 * ((536870912 : Nat) : Int)))
      decide)
    (by decide) (by decide)
  refine ⟨out, g', e, e', hr, ?_, hp⟩
  rw [px_eq_bind, List.getElem?_replicate, if_pos (by decide)]
  rfl

/-- C24 (amended): for every rectangular grid of `h ≥ 1` rows and `w` columns with
arbitrary `int` channels whose encoding fits a 32-bit `int`, `write_image` succeeds
and `read_image` of the bytes written returns a grid of the same dimensions in
which every channel is the corresponding channel of `g` reduced modulo 256 into
`[0, 255]`. -/
theorem write_read_wraps (g : Grid) (h w : Nat) (hg : IsRect g h w) (hh : 0 < h)
    (hh31 : h ≤ 2147483647)
    (hfit : 54 + (3 * w + padding_bytes w) * h ≤ 2147483647) :
    ∃ out g', write_image g = some out ∧ read_image out = some g' ∧ IsRect g' h w ∧
      ∀ i j, i < h → j < w →
        ∃ p, px g i j = some p ∧
          px g' i j = some ⟨p.red % 256, p.green % 256, p.blue % 256⟩ ∧
          (0 ≤ p.red % 256 ∧ p.red % 256 ≤ 255) ∧ (0 ≤ p.green % 256 ∧ p.green % 256 ≤ 255) ∧
          (0 ≤ p.blue % 256 ∧ p.blue % 256 ≤ 255) := by
  obtain ⟨out, g', e1, e2, hr, hpx⟩ := read_write_image_mod hg hh hh31 hfit
  refine ⟨out, g', e1, e2, hr, ?_⟩
  intro i j hi hj
  exact ⟨pxD g i j, hg.pxD_eq hi hj, hpx i j hi hj, by omega, by omega, by omega⟩

theorem write_read_wraps_witness :
    IsRect [[⟨300, -1, 256⟩]] 1 1 ∧ 0 < 1 ∧ 1 ≤ 2147483647 ∧
    54 + (3 * 1 + padding_bytes 1) * 1 ≤ 2147483647 ∧
    (write_image [[⟨300, -1, 256⟩]]).bind read_image = some [[⟨44, 255, 0⟩]] ∧
    ∃ out g', write_image [[⟨300, -1, 256⟩]] = some out ∧ read_image out = some g' ∧
      IsRect g' 1 1 ∧
      ∀ i j, i < 1 → j < 1 →
        ∃ p, px [[⟨300, -1, 256⟩]] i j = some p ∧
          px g' i j = some ⟨p.red % 256, p.green % 256, p.blue % 256⟩ ∧
          (0 ≤ p.red % 256 ∧ p.red % 256 ≤ 255) ∧ (0 ≤ p.green % 256 ∧ p.green % 256 ≤ 255) ∧
          (0 ≤ p.blue % 256 ∧ p.blue % 256 ≤ 255) :=
  ⟨by simp [IsRect], by decide, by decide, by decide, by decide,
    write_read_wraps _ 1 1 (by simp [IsRect]) (by decide) (by decide) (by decide)⟩

/-- C25: for every rectangular grid of `h ≥ 1` rows and `w ≥ 0` columns with all
channels in `[0, 255]` whose sizes fit a 32-bit `int`, `write_image` succeeds, the
bytes written pass the size test of `read_image`, and `read_image` of them returns
`g` exactly, whatever padding the width needs. -/
theorem decode_inverts_encode (g : Grid) (h w : Nat) (hg : IsRect g h w) (hh : 0 < h)
    (hb : InByteRange g) (hh31 : h ≤ 2147483647)
    (hfit : 54 + (3 * w + padding_bytes w) * h ≤ 2147483647) :
    ∃ out, write_image g = some out ∧
      (read_header out).file_size = expected_size (read_header out) ∧
      read_image out = some g := by
  obtain ⟨out, e1, e2⟩ := read_write_image hg hh hb hh31 hfit
  refine ⟨out, e1, ?_, e2⟩
  by_contra hne
  have e3 : read_image out = some [] := by
    simp [read_image, hne]
  rw [e3] at e2
  have hnil : g = [] := (Option.some.inj e2).symm
  have hl := hg.1
  rw [hnil] at hl
  simp at hl
  omega

theorem decode_inverts_encode_witness :
    IsRect [[⟨1, 2, 3⟩], [⟨255, 0, 128⟩]] 2 1 ∧ 0 < 2 ∧
    InByteRange [[⟨1, 2, 3⟩], [⟨255, 0, 128⟩]] ∧ 2 ≤ 2147483647 ∧
    54 + (3 * 1 + padding_bytes 1) * 2 ≤ 2147483647 ∧
    padding_bytes 1 = 1 ∧ padding_bytes 2 = 2 ∧ padding_bytes 3 = 3 ∧ padding_bytes 4 = 0 ∧
    write_image [[⟨1, 2, 3⟩], [⟨255, 0, 128⟩]]
      = some [66, 77, 62, 0, 0, 0, 0, 0, 0, 0, 54, 0, 0, 0,
              40, 0, 0, 0, 1, 0, 0, 0, 2, 0, 0, 0, 1, 0, 24, 0, 0, 0, 0, 0, 8, 0, 0, 0,
              19, 11, 0, 0, 19, 11, 0, 0, 0, 0, 0, 0, 0, 0, 0, 0,
              128, 0, 255, 0, 3, 2, 1, 0] ∧
    ∃ out, write_image [[⟨1, 2, 3⟩], [⟨255, 0, 128⟩]] = some out ∧
      (read_header out).file_size = expected_size (read_header out) ∧
      read_image out = some [[⟨1, 2, 3⟩], [⟨255, 0, 128⟩]] :=
  ⟨by simp [IsRect], by decide, by simp [InByteRange], by decide, by decide, by decide,
    by decide, by decide, by decide, by decide,
    decode_inverts_encode _ 2 1 (by simp [IsRect]) (by decide) (by simp [InByteRange])
      (by decide) (by decide)⟩

/-! ## Round trip of a file with a low pixel offset -/

theorem byteAt_append_left (xs ys : List Byte) (k : Nat) (hk : k < xs.length) :
    byteAt (xs ++ ys) k = byteAt xs k := by
  unfold byteAt
  rw [List.getElem?_append_left hk]

theorem byteAt_append_replicate (xs : List Byte) (n k : Nat) (b : Byte) (hk : k < n) :
    byteAt (xs ++ List.replicate n b) (xs.length + k) = (b.val : Int) := by
  rw [byteAt_append_right]
  unfold byteAt
  rw [List.getElem?_replicate, if_pos hk]

theorem low_offset_length : low_offset_file.length = 2147483646 := by
  rw [low_offset_file, List.length_append, List.length_replicate]
  rfl

theorem low_offset_header :
    read_header low_offset_file
      = ⟨2147483646, 30, 1, 536870904, 24, ⟨low_offset_file, 30, false⟩⟩ := by
  rw [read_header_of_len _ (by rw [low_offset_length]; decide)]
  have hb : ∀ k, k < low_offset_head.length →
      byteAt low_offset_file k = byteAt low_offset_head k :=
    fun k hk => byteAt_append_left low_offset_head (List.replicate 2147483616 0) k hk
  rw [hb 2 (by decide), hb 3 (by decide), hb 4 (by decide), hb 5 (by decide),
    hb 10 (by decide), hb 11 (by decide), hb 12 (by decide), hb 13 (by decide),
    hb 18 (by decide), hb 19 (by decide), hb 20 (by decide), hb 21 (by decide),
    hb 22 (by decide), hb 23 (by decide), hb 24 (by decide), hb 25 (by decide),
    hb 28 (by decide), hb 29 (by decide)]
  have f1 : wrap32 (byteAt low_offset_head 2 + byteAt low_offset_head 3 * 256
      + byteAt low_offset_head 4 * 65536 + byteAt low_offset_head 5 * 16777216)
      = 2147483646 := by decide
  have f2 : wrap32 (byteAt low_offset_head 10 + byteAt low_offset_head 11 * 256
      + byteAt low_offset_head 12 * 65536 + byteAt low_offset_head 13 * 16777216)
      = 30 := by decide
  have f3 : wrap32 (byteAt low_offset_head 18 + byteAt low_offset_head 19 * 256
      + byteAt low_offset_head 20 * 65536 + byteAt low_offset_head 21 * 16777216)
      = 1 := by decide
  have f4 : wrap32 (byteAt low_offset_head 22 + byteAt low_offset_head 23 * 256
      + byteAt low_offset_head 24 * 65536 + byteAt low_offset_head 25 * 16777216)
      = 536870904 := by decide
  have f5 : byteAt low_offset_head 28 + byteAt low_offset_head 29 * 256 = 24 := by decide
  rw [f1, f2, f3, f4, f5]

theorem low_offset_byte (k : Nat) (hk : k < 2147483616) :
    byteAt low_offset_file (30 + k) = 0 := by
  have hl : low_offset_head.length = 30 := rfl
  have z : (((0 : Byte)).val : Int) = 0 := rfl
  have q := byteAt_append_replicate low_offset_head 2147483616 k 0 hk
  rw [hl, z] at q
  unfold low_offset_file
  exact q

/-- Encoding a one-column grid whose encoded size overflows and decoding the bytes
written: the size test passes in wrapped arithmetic and the pixel read last,
`[0][0]`, is `(-1, -1, -1)`. -/
theorem write_read_pos_overflow {g : Grid} {h : Nat} (hg : IsRect g h 1) (hh : 0 < h)
    (hh31 : h ≤ 2147483647)
    (hX : wrap32 (54 + enc_array_bytes h 1) = wrap32 (54 + wrap32 (4 * (h : Int))))
    (hov : wrap32 (54 + 4 * ((h : Int) - 1)) < 0) :
    ∃ out g', write_image g = some out ∧ read_image out = some g' ∧ IsRect g' h 1 ∧
      px g' 0 0 = some ⟨-1, -1, -1⟩ := by
  obtain ⟨body, e, -, -, -⟩ := write_image_eq hg hh
  have hXr : -2147483648 ≤ wrap32 (54 + enc_array_bytes h 1) ∧
      wrap32 (54 + enc_array_bytes h 1) ≤ 2147483647 :=
    ⟨by unfold wrap32; omega, wrap32_le _⟩
  have key : ∃ out : List Byte, write_image g = some out ∧
      read_header out = ⟨wrap32 (54 + enc_array_bytes h 1), 54, ((1 : Nat) : Int),
        (h : Int), 24, ⟨out, 30, false⟩⟩ :=
    ⟨_, e, read_header_encoded _ _ _ _ body hXr ⟨by omega, by omega⟩ ⟨by omega, by omega⟩⟩
  clear e
  obtain ⟨out, e, hhd⟩ := key
  obtain ⟨g', e', hr, hp⟩ := read_image_pos_overflow out h
    (by rw [hhd]; rfl) (by rw [hhd]) (by rw [hhd]) (by rw [hhd])
    (by rw [hhd]; exact hX) hh hov
  exact ⟨out, g', e, e', hr, hp⟩

/-- The round trip of `low_offset_file`, a file whose header passes the size test
exactly (declared size `2147483646 = 30 + 4 * 536870904`, 24 bits per pixel, all
declared bytes present).  `read_image` decodes it to a grid `g` with
`g[0][0] = (0,0,0)`; `write_image g` needs `54 + 4 * 536870904` bytes, which does
not fit an `int`; decoding the bytes written gives a grid whose pixel `[0][0]` is
`(-1,-1,-1)`. -/
theorem codec_round_trip_overflow :
    (read_header low_offset_file).file_size = 2147483646 ∧
    (read_header low_offset_file).file_size = expected_size (read_header low_offset_file) ∧
    (read_header low_offset_file).height = 536870904 ∧
    (read_header low_offset_file).bits_per_pixel = 24 ∧
    low_offset_file.length = 2147483646 ∧
    ∃ g out g', read_image low_offset_file = some g ∧ write_image g = some out ∧
      read_image out = some g' ∧ px g 0 0 = some ⟨0, 0, 0⟩ ∧
      px g' 0 0 = some ⟨-1, -1, -1⟩ := by
  refine ⟨by rw [low_offset_header], by rw [low_offset_header]; decide,
    by rw [low_offset_header], by rw [low_offset_header], low_offset_length, ?_⟩
  obtain ⟨g, e, hr, hpx⟩ := read_image_of_valid low_offset_file 30 536870904 1 3
    (by rw [low_offset_header]; rfl) (by rw [low_offset_header]; rfl)
    (by rw [low_offset_header]; rfl) (by rw [low_offset_header]; rfl) (Or.inl rfl)
    (by rw [low_offset_header]; decide)
    (by rw [low_offset_header, low_offset_length]; decide)
  obtain ⟨out, g', e1, e2, -, hp⟩ := write_read_pos_overflow hr (by decide) (by decide)
    (by decide) (by decide)
  refine ⟨g, out, g', e, e1, e2, ?_, hp⟩
  have h0 := hpx 0 0 (by decide) (by decide)
  have hidx : 30 + (536870904 - 1 - 0) * (1 * 3 + rowPad (1 * 3)) + 0 * 3
      = 30 + 2147483612 := by decide
  rw [hidx] at h0
  rw [h0]
  have b0 : byteAt low_offset_file (30 + 2147483612) = 0 :=
    low_offset_byte 2147483612 (by decide)
  have b1 : byteAt low_offset_file (30 + 2147483612 + 1) = 0 :=
    low_offset_byte 2147483613 (by decide)
  have b2 : byteAt low_offset_file (30 + 2147483612 + 2) = 0 :=
    low_offset_byte 2147483614 (by decide)
  simp only [filePixel]
  rw [b0, b1, b2]

/-- C1 (counterexample): three input files on which the round trip fails.
`neg_offset_file` (offset `-4`, width 1, height 2, 24 bits per pixel) declares
exactly `-4 + (3 + 1) * 2 = 4` bytes and has them; `read_image` decodes it to two
rows of `(-1,-1,-1)`, `write_image` stores the bytes `255`, and the second decode
gives `(255,255,255)`.  `wrap_check_file` (offset `2147483647`) passes the size
test by 32-bit wrap-around and behaves the same way.  `low_offset_file` (offset
`30`, exact size test, all 2147483646 declared bytes present) decodes to a grid
with `(0,0,0)` at `[0][0]` whose re-encoding does not fit an `int`; the second
decode has `(-1,-1,-1)` there. -/
theorem codec_round_trip_fails :
    ((read_header neg_offset_file).file_size = expected_size (read_header neg_offset_file) ∧
      (read_header neg_offset_file).file_size = exact_expected_size (read_header neg_offset_file) ∧
      (read_header neg_offset_file).start = -4 ∧
      (read_header neg_offset_file).height = 2 ∧
      (read_header neg_offset_file).bits_per_pixel = 24 ∧
      (read_header neg_offset_file).file_size = 4 ∧ neg_offset_file.length = 62 ∧
      read_image neg_offset_file = some [[⟨-1, -1, -1⟩], [⟨-1, -1, -1⟩]] ∧
      ((read_image neg_offset_file).bind write_image).bind read_image
        = some [[⟨255, 255, 255⟩], [⟨255, 255, 255⟩]]) ∧
    ((read_header wrap_check_file).file_size = expected_size (read_header wrap_check_file) ∧
      (read_header wrap_check_file).file_size
        ≠ exact_expected_size (read_header wrap_check_file) ∧
      (read_header wrap_check_file).start = 2147483647 ∧
      (read_header wrap_check_file).height = 1 ∧
      (read_header wrap_check_file).bits_per_pixel = 24 ∧
      read_image wrap_check_file = some [[⟨-1, -1, -1⟩]] ∧
      ((read_image wrap_check_file).bind write_image).bind read_image
        = some [[⟨255, 255, 255⟩]]) ∧
    ((read_header low_offset_file).file_size = 2147483646 ∧
      (read_header low_offset_file).file_size
        = exact_expected_size (read_header low_offset_file) ∧
      (read_header low_offset_file).start = 30 ∧
      (read_header low_offset_file).height = 536870904 ∧
      (read_header low_offset_file).bits_per_pixel = 24 ∧
      low_offset_file.length = 2147483646 ∧
      ∃ g out g', read_image low_offset_file = some g ∧ write_image g = some out ∧
        read_image out = some g' ∧ px g 0 0 = some ⟨0, 0, 0⟩ ∧
        px g' 0 0 = some ⟨-1, -1, -1⟩) := by
  refine ⟨⟨by decide, by decide, by decide, by decide, by decide, by decide, by decide,
    by decide, by decide⟩,
    ⟨by decide, by decide, by decide, by decide, by decide, by decide, by decide⟩,
    ⟨by rw [low_offset_header], by rw [low_offset_header]; decide,
      by rw [low_offset_header], by rw [low_offset_header], by rw [low_offset_header],
      low_offset_length, codec_round_trip_overflow.2.2.2.2.2⟩⟩

end BMP
